import Mathlib

/-!
The departure resolution of subwayskill.

A shallow embedding of the departure-resolution code of `subwayskill`
(`internal/schedule/schedule.go`, `internal/feed/feed.go`,
`internal/station/station.go`, `cmd/root.go`) and theorems about it.

Conventions of the embedding

* A Go `string` is a Lean `String`; the string functions of the Go standard
  library are written out on the list of characters.
* A `time.Time` instant is an `Int`: nanoseconds since the Unix epoch, without
  bound (`Time.Add` saturates only at the ends of a 64-bit count of seconds,
  some 292 billion years away).  A `time.Duration` is a signed 64-bit count of
  nanoseconds, and the arithmetic the source performs on durations and on
  `int` wraps (`wrap64`); so does the second count of `time.Unix` (`unix`).
  The clock is read through a `Location`, the offset from UTC at an instant.
* A Go `map[string]V` is an association list with distinct keys (`mapSet`,
  `mapGet`, `mapDelete`); a `map[string]bool` used as a set is a list of keys.
* A fallible function returns `Except String`; the error text is kept short.
* Network, file system, clock and decoding libraries are fields of `Env`.
* The case tables of package `unicode` beyond ASCII are the parameter
  `UnicodeCase`; the theorems hold for every pair of tables.
-/

set_option autoImplicit false
set_option linter.unusedVariables false

namespace Subway

/-! ## Machine integers, durations, instants -/

/-- Two's-complement reduction of an integer to the signed 64-bit range. -/
def wrap64 (x : Int) : Int := (x + 9223372036854775808) % 18446744073709551616 - 9223372036854775808

/-- Largest `int64`. -/
def maxInt64 : Int := 9223372036854775807

/-- Smallest `int64`. -/
def minInt64 : Int := -9223372036854775808

/-- An instant (`time.Time`), in nanoseconds since the Unix epoch. -/
abbrev Time := Int

/-- The constant `time.Second`, in nanoseconds. -/
def Second : Int := 1000000000

/-- The constant `time.Minute`, in nanoseconds. -/
def Minute : Int := 60000000000

/-- The constant `time.Hour`, in nanoseconds. -/
def Hour : Int := 3600000000000

/-- A `time.Time` together with the calendar readings the code takes from it:
`midnight` is `time.Date(t.Year(), t.Month(), t.Day(), 0, 0, 0, 0, t.Location())`,
`dateStr` is `t.Format("20060102")`, and `weekday` is `t.Weekday().String()`. -/
structure GoTime where
  ns : Time
  midnight : Time
  dateStr : String
  weekday : String
deriving DecidableEq, Repr

/-! ## Strings -/

/-- White space in the sense of `unicode.IsSpace`. -/
def isSpace (c : Char) : Bool :=
  let n := c.toNat
  (9 ≤ n && n ≤ 13) || n == 32 || n == 133 || n == 160 || n == 5760 ||
  (8192 ≤ n && n ≤ 8202) || n == 8232 || n == 8233 || n == 8239 || n == 8287 || n == 12288

/-- Remove leading white space. -/
def trimLeft : List Char → List Char
  | [] => []
  | c :: cs => if isSpace c then trimLeft cs else c :: cs

/-- The function `strings.TrimSpace`, on characters. -/
def trimSpaceChars (cs : List Char) : List Char :=
  (trimLeft (trimLeft cs).reverse).reverse

/-- The function `strings.TrimSpace`. -/
def trimSpace (s : String) : String := String.mk (trimSpaceChars s.data)

/-- The function `strings.Split` for a one-character separator, on characters. -/
def splitChars (sep : Char) : List Char → List (List Char)
  | [] => [[]]
  | c :: cs =>
    if c = sep then [] :: splitChars sep cs
    else
      match splitChars sep cs with
      | [] => [[c]]
      | p :: ps => (c :: p) :: ps

/-- The case tables of package `unicode` for the characters beyond ASCII
(`unicode.CaseRanges`, a table of the Go library): `upper c` is
`unicode.ToUpper(c)` and `lower c` is `unicode.ToLower(c)` for a character `c`
above U+007F.  The tables are a parameter of every definition that changes the
case of a string, and what is proved below holds for every pair of tables. -/
class UnicodeCase where
  upper : Char → Char
  lower : Char → Char

/-- The function `unicode.ToUpper`: by rule on ASCII, by table beyond. -/
def upperChar [UnicodeCase] (c : Char) : Char :=
  if c.toNat ≤ 127 then
    (if 97 ≤ c.toNat ∧ c.toNat ≤ 122 then Char.ofNat (c.toNat - 32) else c)
  else UnicodeCase.upper c

/-- The function `strings.ToUpper`: `unicode.ToUpper` on each character. -/
def toUpper [UnicodeCase] (s : String) : String := String.mk (s.data.map upperChar)

/-- The function `unicode.ToLower`: by rule on ASCII, by table beyond. -/
def lowerChar [UnicodeCase] (c : Char) : Char :=
  if c.toNat ≤ 127 then
    (if 65 ≤ c.toNat ∧ c.toNat ≤ 90 then Char.ofNat (c.toNat + 32) else c)
  else UnicodeCase.lower c

/-- The function `strings.ToLower`: `unicode.ToLower` on each character. -/
def toLower [UnicodeCase] (s : String) : String := String.mk (s.data.map lowerChar)

/-- Lexicographic order on characters lists, by code point: the order of Go's
`<` on strings. -/
def charsLt : List Char → List Char → Bool
  | _, [] => false
  | [], _ :: _ => true
  | a :: as, b :: bs =>
    if a.toNat < b.toNat then true
    else if b.toNat < a.toNat then false
    else charsLt as bs

/-- Go's `a < b` on strings. -/
def strLt (a b : String) : Bool := charsLt a.data b.data

/-- The function `strings.HasPrefix`, on characters. -/
def hasPrefixChars : List Char → List Char → Bool
  | _, [] => true
  | [], _ :: _ => false
  | a :: as, b :: bs => if a = b then hasPrefixChars as bs else false

/-- The function `strings.HasPrefix`. -/
def hasPrefix (s pre : String) : Bool := hasPrefixChars s.data pre.data

/-- The function `strings.HasSuffix`. -/
def hasSuffix (s suf : String) : Bool := hasPrefixChars s.data.reverse suf.data.reverse

/-- The function `strings.TrimPrefix`. -/
def trimPrefix (s pre : String) : String :=
  if hasPrefix s pre then String.mk (s.data.drop pre.data.length) else s

/-- The function `strings.Contains`, on characters. -/
def containsChars : List Char → List Char → Bool
  | [], sub => hasPrefixChars [] sub
  | a :: as, sub => hasPrefixChars (a :: as) sub || containsChars as sub

/-- The function `strings.Contains`. -/
def strContains (s sub : String) : Bool := containsChars s.data sub.data

/-- Loop of `strings.Fields`: `cur` is the word being read. -/
def fieldsFrom : List Char → List Char → List (List Char)
  | cur, [] => if cur.isEmpty then [] else [cur]
  | cur, c :: cs =>
    if isSpace c then
      (if cur.isEmpty then fieldsFrom [] cs else cur :: fieldsFrom [] cs)
    else fieldsFrom (cur ++ [c]) cs

/-- The function `strings.Fields`. -/
def fields (s : String) : List String := (fieldsFrom [] s.data).map String.mk

/-- The function `strings.Join`. -/
def join (parts : List String) (sep : String) : String :=
  String.mk (List.intercalate sep.data (parts.map String.data))

/-- Go's `len(s)` on a string: the number of bytes of its UTF-8 encoding. -/
def byteLen (s : String) : Nat := (s.data.map Char.utf8Size).sum

/-! ## Results with an error -/

instance instDecidableEqExcept {ε α : Type} [DecidableEq ε] [DecidableEq α] :
    DecidableEq (Except ε α)
  | Except.ok a, Except.ok b =>
    if h : a = b then isTrue (by rw [h]) else isFalse (fun h2 => h (Except.ok.inj h2))
  | Except.error a, Except.error b =>
    if h : a = b then isTrue (by rw [h]) else isFalse (fun h2 => h (Except.error.inj h2))
  | Except.ok _, Except.error _ => isFalse (fun h => Except.noConfusion h)
  | Except.error _, Except.ok _ => isFalse (fun h => Except.noConfusion h)

/-! ## Maps -/

section Maps

variable {β : Type}

/-- Lookup `m[k]` with the comma-ok result as an `Option`. -/
def mapGet : List (String × β) → String → Option β
  | [], _ => none
  | (k', v) :: m, k => if k' = k then some v else mapGet m k

/-- Assignment `m[k] = v`. -/
def mapSet : List (String × β) → String → β → List (String × β)
  | [], k, v => [(k, v)]
  | (k', v') :: m, k, v => if k' = k then (k, v) :: m else (k', v') :: mapSet m k v

/-- The built-in `delete(m, k)`. -/
def mapDelete : List (String × β) → String → List (String × β)
  | [], _ => []
  | (k', v') :: m, k => if k' = k then m else (k', v') :: mapDelete m k

end Maps

/-- Insertion into a `map[string]bool` used as a set: `m[k] = true`. -/
def setAdd (m : List String) (k : String) : List String :=
  if k ∈ m then m else m ++ [k]

/-- Removal from a `map[string]bool` used as a set: `delete(m, k)`. -/
def setDelete (m : List String) (k : String) : List String :=
  m.filter (fun x => x ≠ k)

/-! ## Tables of the static dataset -/

/-- What `csv.NewReader` yields on one file of the archive: the result of the
first `Read` (`none` when it fails), and the records of the later reads.  The
reader fixes the number of fields with the first record; a later record of
another length comes with an error and the loops of the source skip it. -/
structure CSV where
  header : Option (List String)
  rows : List (List String)
deriving DecidableEq, Repr

/-- The archive as `openZipFile` sees it: each table is `none` when the file is
not in the archive or cannot be opened. -/
structure Archive where
  calendar : Option CSV
  calendarDates : Option CSV
  trips : Option CSV
  stopTimes : Option CSV
deriving DecidableEq, Repr

/-- Records of a table that `reader.Read` returns without error. -/
def goodRows (header : List String) (rows : List (List String)) : List (List String) :=
  rows.filter (fun r => r.length = header.length)

/-- Loop of `csvIndex`, from column number `i` on. -/
def csvIndexFrom : Nat → List String → List (String × Nat) → List (String × Nat)
  | _, [], idx => idx
  | i, h :: hs, idx => csvIndexFrom (i + 1) hs (mapSet idx (trimSpace h) i)

/-- The function `csvIndex`: column name to column number. -/
def csvIndex (header : List String) : List (String × Nat) :=
  csvIndexFrom 0 header []

/-- Value of `idx[name]`: the zero value `0` when the name is not a column. -/
def col (idx : List (String × Nat)) (name : String) : Nat :=
  (mapGet idx name).getD 0

/-- Value of `record[i]`. -/
def field (record : List String) (i : Nat) : String :=
  record.getD i ""

/-! ## Departures -/

/-- The struct `feed.Departure`. -/
structure Departure where
  Route : String
  Direction : String
  Time : Time
  StopID : String
deriving DecidableEq, Repr

/-- The struct `tripInfo`. -/
structure tripInfo where
  routeID : String
  directionID : String
deriving DecidableEq, Repr

/-- The call `sort.Slice(departures, less)` with `less` comparing the times by
`Before`: an insertion sort on the times. -/
def sortByTime (ds : List Departure) : List Departure :=
  List.insertionSort (fun a b => a.Time ≤ b.Time) ds

/-! ## `parseGTFSTime` -/

/-- Characters that `fmt` accepts as digits of a `%d` number: `0`..`9`. -/
def isScanDigit (c : Char) : Bool :=
  48 ≤ c.toNat && c.toNat ≤ 57

/-- Value of a list of decimal digits. -/
def digitsVal (cs : List Char) : Nat :=
  cs.foldl (fun acc c => acc * 10 + (c.toNat - 48)) 0

/-- Skipping of spaces that `fmt.Sscanf` does before a verb: a newline is an
error. -/
def skipSpace : List Char → Option (List Char)
  | [] => some []
  | c :: cs =>
    if c = '\n' then none
    else if isSpace c then skipSpace cs
    else some (c :: cs)

/-- The call `fmt.Sscanf(s, "%d", &n)` for an `int`: spaces, an optional sign,
the longest run of digits, read in base 10 by `strconv.ParseInt` (which rejects
a value outside 64 bits); input after the number, of whatever kind, is left
alone.  `none` stands for a returned error. -/
def sscanInt (s : String) : Option Int :=
  match skipSpace s.data with
  | none => none
  | some r =>
    let signed : Bool × List Char :=
      match r with
      | [] => (false, [])
      | c :: t => if c = '+' then (false, t) else if c = '-' then (true, t) else (false, c :: t)
    let tok := signed.2.takeWhile isScanDigit
    if tok = [] then none
    else
      let v : Int := if signed.1 then -(digitsVal tok : Int) else (digitsVal tok : Int)
      if minInt64 ≤ v ∧ v ≤ maxInt64 then some v else none

/-- A decimal digit `0`..`9`. -/
def isDecDigit (c : Char) : Bool := 48 ≤ c.toNat && c.toNat ≤ 57

/-- A string that writes a decimal integer: an optional sign `+` or `-`, then
one digit or more, and nothing else. -/
def isInteger (s : String) : Bool :=
  match s.data with
  | [] => false
  | c :: cs =>
    if c = '+' ∨ c = '-' then !cs.isEmpty && cs.all isDecDigit
    else (c :: cs).all isDecDigit

/-- The number that such a string writes. -/
def integerVal (s : String) : Int :=
  match s.data with
  | [] => 0
  | c :: cs =>
    if c = '-' then -(digitsVal cs : Int)
    else if c = '+' then (digitsVal cs : Int)
    else (digitsVal (c :: cs) : Int)

/-- The function `parseGTFSTime`: `none` stands for a returned error. -/
def parseGTFSTime (s : String) (baseDate : Time) : Option Time :=
  match splitChars ':' (trimSpaceChars s.data) with
  | [p0, p1, p2] =>
    match sscanInt (String.mk p0) with
    | none => none
    | some h =>
      match sscanInt (String.mk p1) with
      | none => none
      | some m =>
        match sscanInt (String.mk p2) with
        | none => none
        | some sec =>
          some (baseDate +
            wrap64 (wrap64 (wrap64 (h * Hour) + wrap64 (m * Minute)) + wrap64 (sec * Second)))
  | _ => none

/-! ## Reading of the clock -/

/-- A `*time.Location`, as far as the reading of the clock goes: the offset
from UTC, in seconds east, in force at an instant. -/
structure Location where
  offset : Time → Int

/-- Seconds on the wall clock of `loc` at the instant `t`, counted from
00:00:00 on 1 January 1970 of that clock: the value of `t.abs()`, up to a
constant number of days. -/
def wallSeconds (loc : Location) (t : Time) : Int := t / Second + loc.offset t

/-- The date that the clock of `loc` shows at `t` (`t.Date()`), as a count of
days from 1 January 1970. -/
def dayOf (loc : Location) (t : Time) : Int := wallSeconds loc t / 86400

/-- The time of day that the clock of `loc` shows at `t` (`t.Clock()`), in
seconds after 00:00:00. -/
def secondOfDay (loc : Location) (t : Time) : Int := wallSeconds loc t % 86400

/-! ## `findStopTimes` -/

/-- The map `targetStops` of `findStopTimes`: full stop id to direction. -/
def targetStops (stopID direction : String) : List (String × String) :=
  let m0 : List (String × String) := []
  let m1 := if direction = "" ∨ direction = "N" then mapSet m0 (stopID ++ "N") "N" else m0
  let m2 := if direction = "" ∨ direction = "S" then mapSet m1 (stopID ++ "S") "S" else m1
  if direction = "" then mapSet m2 stopID "" else m2

/-- The variable `windowStart` of `findStopTimes`. -/
def windowStart (targetTime : GoTime) (windowMin : Int) : Time :=
  targetTime.ns + wrap64 (-(wrap64 (Int.tdiv windowMin 2 * Minute)))

/-- The variable `windowEnd` of `findStopTimes`. -/
def windowEnd (targetTime : GoTime) (windowMin : Int) : Time :=
  targetTime.ns + wrap64 (wrap64 (Int.tdiv windowMin 2 + Int.tmod windowMin 2) * Minute)

/-- One turn of the loop of `findStopTimes` on a record read without error:
the departure appended, if any. -/
def stopTimeRow (idx : List (String × Nat)) (validTrips : List (String × tripInfo))
    (stopID direction : String) (targetTime : GoTime) (windowMin : Int)
    (record : List String) : Option Departure :=
  match mapGet validTrips (field record (col idx "trip_id")) with
  | none => none
  | some trip =>
    let sid := field record (col idx "stop_id")
    match mapGet (targetStops stopID direction) sid with
    | none => none
    | some dir0 =>
      let dir := if dir0 = "" then (if trip.directionID = "0" then "N" else "S") else dir0
      match parseGTFSTime (field record (col idx "departure_time")) targetTime.midnight with
      | none => none
      | some depTime =>
        if depTime < windowStart targetTime windowMin ∨ windowEnd targetTime windowMin < depTime
        then none
        else some { Route := trip.routeID, Direction := dir, Time := depTime, StopID := sid }

/-- The function `findStopTimes`. -/
def findStopTimes (r : Archive) (validTrips : List (String × tripInfo))
    (stopID direction : String) (targetTime : GoTime) (windowMin : Int) :
    Except String (List Departure) :=
  match r.stopTimes with
  | none => Except.error "stop_times.txt not found in zip"
  | some stFile =>
    match stFile.header with
    | none => Except.error "reading stop_times.txt header"
    | some header =>
      let idx := csvIndex header
      Except.ok (sortByTime ((goodRows header stFile.rows).filterMap
        (stopTimeRow idx validTrips stopID direction targetTime windowMin)))

/-- The departure that the loop of `findStopTimes` builds from a record that
passed the trip filter (giving `trip`) and the stop filter (giving `dir0`) and
whose time parsed to `t`. -/
def rowDeparture (trip : tripInfo) (dir0 sid : String) (t : Time) : Departure :=
  { Route := trip.routeID,
    Direction := if dir0 = "" then (if trip.directionID = "0" then "N" else "S") else dir0,
    Time := t, StopID := sid }

/-! ## `getActiveServices` -/

section Code

variable [UnicodeCase]

/-- One turn of the loop of `getActiveServices` over `calendar.txt`, on a
record read without error. -/
def calendarStep (idx : List (String × Nat)) (dateStr dayOfWeek : String)
    (active : List String) (record : List String) : List String :=
  let serviceID := field record (col idx "service_id")
  let startDate := field record (col idx "start_date")
  let endDate := field record (col idx "end_date")
  if strLt dateStr startDate || strLt endDate dateStr then active
  else
    match mapGet idx dayOfWeek with
    | some dayIdx => if field record dayIdx = "1" then setAdd active serviceID else active
    | none => active

/-- One turn of the loop of `getActiveServices` over `calendar_dates.txt`, on a
record read without error. -/
def exceptionStep (idx : List (String × Nat)) (dateStr : String)
    (active : List String) (record : List String) : List String :=
  if field record (col idx "date") ≠ dateStr then active
  else
    let serviceID := field record (col idx "service_id")
    let exType := field record (col idx "exception_type")
    if exType = "1" then setAdd active serviceID
    else if exType = "2" then setDelete active serviceID
    else active

/-- The first half of `getActiveServices`: the weekly table.  A table that is
missing, or whose header cannot be read, contributes nothing. -/
def weeklyServices (r : Archive) (targetTime : GoTime) : List String :=
  match r.calendar with
  | none => []
  | some calFile =>
    match calFile.header with
    | none => []
    | some header =>
      (goodRows header calFile.rows).foldl
        (calendarStep (csvIndex header) targetTime.dateStr (toLower targetTime.weekday)) []

/-- The second half of `getActiveServices`: the exceptions, applied to the set
`active` built so far. -/
def applyExceptions (r : Archive) (targetTime : GoTime) (active : List String) : List String :=
  match r.calendarDates with
  | none => active
  | some cdFile =>
    match cdFile.header with
    | none => active
    | some header =>
      (goodRows header cdFile.rows).foldl (exceptionStep (csvIndex header) targetTime.dateStr) active

/-- The function `getActiveServices`; its error result is always `nil`. -/
def getActiveServices (r : Archive) (targetTime : GoTime) : List String :=
  applyExceptions r targetTime (weeklyServices r targetTime)

/-! ## `findValidTrips` and `parseGTFSZip` -/

/-- The set `routeSet` that `findValidTrips` and `parseDepartures` build from
the requested routes. -/
def routeSetOf (routes : List String) : List String :=
  routes.foldl (fun set rt => setAdd set (toUpper rt)) []

/-- One turn of the loop of `findValidTrips`, on a record read without error. -/
def tripStep (idx : List (String × Nat)) (routeSet activeServices : List String)
    (validTrips : List (String × tripInfo)) (record : List String) : List (String × tripInfo) :=
  let routeID := toUpper (field record (col idx "route_id"))
  if 0 < routeSet.length ∧ routeID ∉ routeSet then validTrips
  else
    let serviceID := field record (col idx "service_id")
    if serviceID ∉ activeServices then validTrips
    else
      let tripID := field record (col idx "trip_id")
      let dirID :=
        match mapGet idx "direction_id" with
        | some i => field record i
        | none => ""
      mapSet validTrips tripID { routeID := routeID, directionID := dirID }

/-- The function `findValidTrips`. -/
def findValidTrips (r : Archive) (routes : List String) (targetTime : GoTime) :
    Except String (List (String × tripInfo)) :=
  let routeSet := routeSetOf routes
  let activeServices := getActiveServices r targetTime
  match r.trips with
  | none => Except.error "trips.txt not found in zip"
  | some tripsFile =>
    match tripsFile.header with
    | none => Except.error "reading trips.txt header"
    | some header =>
      Except.ok ((goodRows header tripsFile.rows).foldl
        (tripStep (csvIndex header) routeSet activeServices) [])

/-- The body of `parseGTFSZip` once `zip.NewReader` has succeeded. -/
def parseArchive (r : Archive) (stopID : String) (routes : List String) (direction : String)
    (targetTime : GoTime) (windowMin : Int) : Except String (List Departure) :=
  match findValidTrips r routes targetTime with
  | Except.error e => Except.error e
  | Except.ok validTrips =>
    if validTrips.length = 0 then Except.ok []
    else findStopTimes r validTrips stopID direction targetTime windowMin

/-! ## The realtime feed -/

/-- A `StopTimeUpdate` of the feed as the code reads it: `stopId` is
`GetStopId()`; `departure` is `none` when `GetDeparture()` is `nil` and
otherwise holds its `GetTime()`; `arrival` likewise. -/
structure StopTimeUpdate where
  stopId : String
  departure : Option Int
  arrival : Option Int
deriving DecidableEq, Repr

/-- A `TripUpdate` of the feed: `routeId` is `GetTrip().GetRouteId()`. -/
structure TripUpdate where
  routeId : String
  stopTimeUpdate : List StopTimeUpdate
deriving DecidableEq, Repr

/-- A `FeedEntity`: `tripUpdate` is `none` when `GetTripUpdate()` is `nil`. -/
structure FeedEntity where
  tripUpdate : Option TripUpdate
deriving DecidableEq, Repr

/-- A decoded `gtfs.FeedMessage`. -/
structure FeedMessage where
  entity : List FeedEntity
deriving DecidableEq, Repr

/-- The constant `unixToInternal` of package `time`: the seconds from the
first of January of year 1 to the Unix epoch. -/
def unixToInternal : Int := 62135596800

/-- The call `time.Unix(sec, 0)`.  The instant is kept as a signed 64-bit count
of seconds since year 1, `sec + unixToInternal`, and that sum wraps. -/
def unix (sec : Int) : Time := (wrap64 (sec + unixToInternal) - unixToInternal) * Second

/-- The function `matchesStop`. -/
def matchesStop (feedStopID targetBase direction : String) : Bool :=
  if !hasPrefix feedStopID targetBase then false
  else
    let suffix := trimPrefix feedStopID targetBase
    if suffix ≠ "N" ∧ suffix ≠ "S" then false
    else if direction ≠ "" ∧ suffix ≠ toUpper direction then false
    else true

/-- The time that `parseDepartures` takes from a stop-time update: the departure
time if present and positive, else the arrival time if present and positive,
else none (the update is skipped). -/
def chosenTime (stu : StopTimeUpdate) : Option Time :=
  match stu.departure.filter (fun t => decide (0 < t)) with
  | some t => some (unix t)
  | none =>
    match stu.arrival.filter (fun t => decide (0 < t)) with
    | some t => some (unix t)
    | none => none

/-- The departure that `parseDepartures` builds for a stop-time update of a
trip of route `routeID`, with the time `depTime`. -/
def feedDeparture (routeID : String) (stu : StopTimeUpdate) (depTime : Time) : Departure :=
  { Route := routeID,
    Direction := if hasSuffix stu.stopId "S" then "S" else "N",
    Time := depTime,
    StopID := stu.stopId }

/-- One turn of the inner loop of `parseDepartures`: the departure appended, if
any. -/
def stopTimeUpdateStep (now : Time) (stopID direction routeID : String)
    (stu : StopTimeUpdate) : Option Departure :=
  if !matchesStop stu.stopId stopID direction then none
  else
    match chosenTime stu with
    | none => none
    | some depTime =>
      if depTime < now + (-1 * Minute) then none
      else some (feedDeparture routeID stu depTime)

/-- One turn of the outer loop of `parseDepartures`: the departures appended
for one entity. -/
def entityStep (now : Time) (stopID : String) (routeSet : List String) (direction : String)
    (entity : FeedEntity) : List Departure :=
  match entity.tripUpdate with
  | none => []
  | some tu =>
    if 0 < routeSet.length ∧ toUpper tu.routeId ∉ routeSet then []
    else tu.stopTimeUpdate.filterMap (stopTimeUpdateStep now stopID direction tu.routeId)

/-- The body of `parseDepartures` once the feed is decoded; `now` is the value
of `time.Now()`. -/
def parseFeed (feed : FeedMessage) (now : Time) (stopID : String) (routes : List String)
    (direction : String) : List Departure :=
  sortByTime (feed.entity.flatMap (entityStep now stopID (routeSetOf routes) direction))

/-! ## Feed endpoints -/

/-- The map `feedURLs`: route to the URL of its feed. -/
def feedURLs : List (String × String) :=
  [ ("1", "https://api-endpoint.mta.info/Dataservice/mtagtfsfeeds/nyct%2Fgtfs"),
    ("2", "https://api-endpoint.mta.info/Dataservice/mtagtfsfeeds/nyct%2Fgtfs"),
    ("3", "https://api-endpoint.mta.info/Dataservice/mtagtfsfeeds/nyct%2Fgtfs"),
    ("4", "https://api-endpoint.mta.info/Dataservice/mtagtfsfeeds/nyct%2Fgtfs"),
    ("5", "https://api-endpoint.mta.info/Dataservice/mtagtfsfeeds/nyct%2Fgtfs"),
    ("6", "https://api-endpoint.mta.info/Dataservice/mtagtfsfeeds/nyct%2Fgtfs"),
    ("7", "https://api-endpoint.mta.info/Dataservice/mtagtfsfeeds/nyct%2Fgtfs"),
    ("S", "https://api-endpoint.mta.info/Dataservice/mtagtfsfeeds/nyct%2Fgtfs"),
    ("A", "https://api-endpoint.mta.info/Dataservice/mtagtfsfeeds/nyct%2Fgtfs-ace"),
    ("C", "https://api-endpoint.mta.info/Dataservice/mtagtfsfeeds/nyct%2Fgtfs-ace"),
    ("E", "https://api-endpoint.mta.info/Dataservice/mtagtfsfeeds/nyct%2Fgtfs-ace"),
    ("B", "https://api-endpoint.mta.info/Dataservice/mtagtfsfeeds/nyct%2Fgtfs-bdfm"),
    ("D", "https://api-endpoint.mta.info/Dataservice/mtagtfsfeeds/nyct%2Fgtfs-bdfm"),
    ("F", "https://api-endpoint.mta.info/Dataservice/mtagtfsfeeds/nyct%2Fgtfs-bdfm"),
    ("M", "https://api-endpoint.mta.info/Dataservice/mtagtfsfeeds/nyct%2Fgtfs-bdfm"),
    ("N", "https://api-endpoint.mta.info/Dataservice/mtagtfsfeeds/nyct%2Fgtfs-nqrw"),
    ("Q", "https://api-endpoint.mta.info/Dataservice/mtagtfsfeeds/nyct%2Fgtfs-nqrw"),
    ("R", "https://api-endpoint.mta.info/Dataservice/mtagtfsfeeds/nyct%2Fgtfs-nqrw"),
    ("W", "https://api-endpoint.mta.info/Dataservice/mtagtfsfeeds/nyct%2Fgtfs-nqrw"),
    ("G", "https://api-endpoint.mta.info/Dataservice/mtagtfsfeeds/nyct%2Fgtfs-g"),
    ("J", "https://api-endpoint.mta.info/Dataservice/mtagtfsfeeds/nyct%2Fgtfs-jz"),
    ("Z", "https://api-endpoint.mta.info/Dataservice/mtagtfsfeeds/nyct%2Fgtfs-jz"),
    ("L", "https://api-endpoint.mta.info/Dataservice/mtagtfsfeeds/nyct%2Fgtfs-l"),
    ("SIR", "https://api-endpoint.mta.info/Dataservice/mtagtfsfeeds/nyct%2Fgtfs-si") ]

/-- The function `FeedURL`. -/
def FeedURL (route : String) : Except String String :=
  match mapGet feedURLs (toUpper route) with
  | some url => Except.ok url
  | none => Except.error ("unknown route: " ++ route)

/-- The input routes that map to the feed `url`, in input order. -/
def routesOfURL (routes : List String) (url : String) : List String :=
  routes.filter (fun r => decide (FeedURL r = Except.ok url))

/-- One turn of the loop of `FeedURLsForRoutes`. -/
def feedURLStep (result : List (String × List String)) (r : String) :
    List (String × List String) :=
  match FeedURL r with
  | Except.error _ => result
  | Except.ok url => mapSet result url ((mapGet result url).getD [] ++ [r])

/-- The function `FeedURLsForRoutes`: URL to the routes served by that feed. -/
def FeedURLsForRoutes (routes : List String) : List (String × List String) :=
  routes.foldl feedURLStep []

/-! ## The environment -/

/-- What one per-stop task sees of the outside: the network, the cache, the
decoders, the clock, and the order in which `range` walks a map.
* `fetchFeed url` is the function `fetchFeed` (HTTP GET of a feed);
* `protoUnmarshal data` is `proto.Unmarshal` into a `gtfs.FeedMessage`;
* `now url` is the value of `time.Now()` while the feed of `url` is parsed;
* `getCachedOrDownload url filename ttl` is the function of that name;
* `zipNewReader data` is `zip.NewReader` followed by the opening of the tables;
* `rangeOrder m` is the order in which `for url, routes := range m` visits the
  entries of `m`: some rearrangement of them. -/
structure Env where
  fetchFeed : String → Except String (List Nat)
  protoUnmarshal : List Nat → Except String FeedMessage
  now : String → Time
  getCachedOrDownload : String → String → Int → Except String (List Nat)
  zipNewReader : List Nat → Except String Archive
  rangeOrder : List (String × List String) → List (String × List String)
  rangeOrder_perm : ∀ m, (rangeOrder m).Perm m

/-- The function `parseDepartures`; `now` is the value of `time.Now()`. -/
def parseDepartures (env : Env) (data : List Nat) (now : Time) (stopID : String)
    (routes : List String) (direction : String) : Except String (List Departure) :=
  match env.protoUnmarshal data with
  | Except.error e => Except.error ("parsing feed: " ++ e)
  | Except.ok feed => Except.ok (parseFeed feed now stopID routes direction)

/-- The function `FetchDepartures`. -/
def FetchDepartures (env : Env) (feedURL stopID : String) (routes : List String)
    (direction : String) : Except String (List Departure) :=
  match env.fetchFeed feedURL with
  | Except.error e => Except.error e
  | Except.ok body => parseDepartures env body (env.now feedURL) stopID routes direction

/-! ## `GetScheduledDepartures` -/

/-- The constant `regularGTFSURL`. -/
def regularGTFSURL : String := "https://rrgtfsfeeds.s3.amazonaws.com/gtfs_subway.zip"

/-- The constant `supplementedGTFSURL`. -/
def supplementedGTFSURL : String := "https://rrgtfsfeeds.s3.amazonaws.com/gtfs_supplemented.zip"

/-- The constant `regularCacheTTL`. -/
def regularCacheTTL : Int := 24 * Hour

/-- The constant `supplementedCacheTTL`. -/
def supplementedCacheTTL : Int := 1 * Hour

/-- The function `parseGTFSZip`. -/
def parseGTFSZip (env : Env) (data : List Nat) (stopID : String) (routes : List String)
    (direction : String) (targetTime : GoTime) (windowMin : Int) :
    Except String (List Departure) :=
  match env.zipNewReader data with
  | Except.error e => Except.error ("opening zip: " ++ e)
  | Except.ok r => parseArchive r stopID routes direction targetTime windowMin

/-- The function `getFromGTFS`: the departures and the provenance note. -/
def getFromGTFS (env : Env) (url filename : String) (ttl : Int) (stopID : String)
    (routes : List String) (direction : String) (targetTime : GoTime) (windowMin : Int) :
    Except String (List Departure × String) :=
  match env.getCachedOrDownload url filename ttl with
  | Except.error e => Except.error e
  | Except.ok data =>
    match parseGTFSZip env data stopID routes direction targetTime windowMin with
    | Except.error e => Except.error e
    | Except.ok deps =>
      Except.ok (deps, if strContains filename "supplemented" then "Supplemented GTFS"
        else "Regular GTFS")

/-- The lookup in the supplemented variant, as `GetScheduledDepartures` makes
it. -/
def supplementedLookup (env : Env) (stopID : String) (routes : List String)
    (direction : String) (targetTime : GoTime) (windowMin : Int) :
    Except String (List Departure × String) :=
  getFromGTFS env supplementedGTFSURL "gtfs_supplemented.zip" supplementedCacheTTL
    stopID routes direction targetTime windowMin

/-- The lookup in the regular variant, as `GetScheduledDepartures` makes it. -/
def regularLookup (env : Env) (stopID : String) (routes : List String)
    (direction : String) (targetTime : GoTime) (windowMin : Int) :
    Except String (List Departure × String) :=
  getFromGTFS env regularGTFSURL "gtfs_subway.zip" regularCacheTTL
    stopID routes direction targetTime windowMin

/-- The second half of `GetScheduledDepartures`: the regular variant. -/
def scheduledFromRegular (env : Env) (stopID : String) (routes : List String)
    (direction : String) (targetTime : GoTime) (windowMin : Int) :
    Except String (List Departure × String) :=
  match regularLookup env stopID routes direction targetTime windowMin with
  | Except.error e => Except.error ("fetching schedule: " ++ e)
  | Except.ok (deps, note) => Except.ok (deps, note)

/-- The function `GetScheduledDepartures`. -/
def GetScheduledDepartures (env : Env) (stopID : String) (routes : List String)
    (direction : String) (targetTime : GoTime) (windowMin : Int) :
    Except String (List Departure × String) :=
  match supplementedLookup env stopID routes direction targetTime windowMin with
  | Except.ok (deps, note) =>
    if 0 < deps.length then Except.ok (deps, note)
    else scheduledFromRegular env stopID routes direction targetTime windowMin
  | Except.error _ => scheduledFromRegular env stopID routes direction targetTime windowMin

/-! ## Stations -/

/-- The struct `Station`. -/
structure Station where
  StopID : String
  Name : String
  Routes : List String
  NorthLabel : String
  SouthLabel : String
  Line : String
  Borough : String
  DaytimeRoutes : String
deriving DecidableEq, Repr

/-- The struct `DefaultStation`. -/
structure DefaultStation where
  Station : Station
  FeedRoutes : List String
deriving DecidableEq, Repr

/-- The function `Defaults`. -/
def Defaults : List DefaultStation :=
  [ { Station := { StopID := "A44", Name := "Clinton-Washington Avs", Routes := ["C"],
                   NorthLabel := "Manhattan-bound", SouthLabel := "Euclid Av-bound",
                   Line := "", Borough := "", DaytimeRoutes := "" },
      FeedRoutes := ["C"] },
    { Station := { StopID := "236", Name := "Bergen St", Routes := ["2", "3"],
                   NorthLabel := "Manhattan-bound", SouthLabel := "Flatbush Av-bound",
                   Line := "", Borough := "", DaytimeRoutes := "" },
      FeedRoutes := ["2", "3"] },
    { Station := { StopID := "D25", Name := "7 Av", Routes := ["Q"],
                   NorthLabel := "Manhattan-bound", SouthLabel := "Coney Island-bound",
                   Line := "", Borough := "", DaytimeRoutes := "" },
      FeedRoutes := ["Q"] },
    { Station := { StopID := "235", Name := "Atlantic Av-Barclays Ctr", Routes := ["4", "5"],
                   NorthLabel := "Manhattan-bound", SouthLabel := "Flatbush Av-bound",
                   Line := "", Borough := "", DaytimeRoutes := "" },
      FeedRoutes := ["4", "5"] } ]

/-- The loop of `normalize` on one character of the lower-cased string: what is
written to the builder. -/
def normalizeChar (c : Char) : Option Char :=
  if c = '-' ∨ c = '/' ∨ c = Char.ofNat 39 then some ' '
  else if (97 ≤ c.toNat ∧ c.toNat ≤ 122) ∨ (48 ≤ c.toNat ∧ c.toNat ≤ 57) ∨ c = ' ' then some c
  else none

/-- The function `normalize`. -/
def normalize (s : String) : String :=
  join (fields (String.mk ((toLower s).data.filterMap normalizeChar))) " "

/-- A hyphen, a slash or an apostrophe becomes a space; any other character
stays (second step of the normalization as the specification words it). -/
def replacePunct (c : Char) : Char :=
  if c = '-' ∨ c = '/' ∨ c = Char.ofNat 39 then ' ' else c

/-- A character of `a`..`z`, `0`..`9`, or the space: the characters that the
normalization of the specification does not delete. -/
def isKept (c : Char) : Bool :=
  (97 ≤ c.toNat && c.toNat ≤ 122) || (48 ≤ c.toNat && c.toNat ≤ 57) || c = ' '

/-- Each run of spaces becomes one space: a space followed by a space is
dropped. -/
def collapseSpaces : List Char → List Char
  | [] => []
  | c :: cs => if c = ' ' ∧ cs.head? = some ' ' then collapseSpaces cs else c :: collapseSpaces cs

/-- The normalization as the specification words it, step by step: lower-case;
replace each hyphen, slash and apostrophe by a space; delete every character
outside `a`..`z`, `0`..`9` and space; collapse each run of spaces to one
space; remove the trailing and the leading spaces. -/
def normalizeSpec (s : String) : String :=
  String.mk (List.dropWhile (fun c => c = ' ') (List.rdropWhile (fun c => c = ' ')
    (collapseSpaces (((toLower s).data.map replacePunct).filter isKept))))

/-- The function `containsRoute`. -/
def containsRoute (routes : List String) (route : String) : Bool :=
  routes.any (fun r => r = route)

/-- The line that `suggestStations` writes for a station. -/
def suggestionLine (s : Station) : String :=
  "  " ++ s.Name ++ " (" ++ s.DaytimeRoutes ++ ")"

/-- The guarded append of `suggestStations`, on the pair of the suggestions and
the set of names seen. -/
def addSuggestion (st : List String × List String) (s : Station) : List String × List String :=
  if s.Name ∈ st.2 then st else (st.1 ++ [suggestionLine s], setAdd st.2 s.Name)

/-- The two inner loops of the first pass of `suggestStations`, for one
station on the route. -/
def overlapStep (query : String) (st : List String × List String) (s : Station) :
    List String × List String :=
  (fields query).foldl (fun st1 qw =>
    (fields (normalize s.Name)).foldl (fun st2 nw =>
      if 2 ≤ byteLen qw ∧ (strContains nw qw ∨ strContains qw nw) then addSuggestion st2 s
      else st2) st1) st

/-- The first pass of `suggestStations`: stations on the route whose name
shares a word with the query. -/
def suggestOnRoute (route query : String) :
    List Station → List String × List String → List String × List String
  | [], st => st
  | s :: rest, st =>
    if !containsRoute s.Routes route then suggestOnRoute route query rest st
    else
      let st1 := overlapStep query st s
      if 5 ≤ st1.1.length then st1 else suggestOnRoute route query rest st1

/-- The inner loop of the second pass of `suggestStations`, for one station. -/
def wordStep (query : String) (st : List String × List String) (s : Station) :
    List String × List String :=
  (fields query).foldl (fun st1 qw =>
    if 3 ≤ byteLen qw ∧ strContains (normalize s.Name) qw then addSuggestion st1 s
    else st1) st

/-- The second pass of `suggestStations`: any station whose name contains a
word of the query. -/
def suggestAny (query : String) :
    List Station → List String × List String → List String × List String
  | [], st => st
  | s :: rest, st =>
    let st1 := wordStep query st s
    if 5 ≤ st1.1.length then st1 else suggestAny query rest st1

/-- The third pass of `suggestStations`: stations of the route, up to five;
`count` is the counter of the source. -/
def suggestFirst (route : String) :
    List Station → Nat → List String × List String → List String × List String
  | [], _, st => st
  | s :: rest, count, st =>
    if containsRoute s.Routes route ∧ s.Name ∉ st.2 then
      let st1 : List String × List String := (st.1 ++ [suggestionLine s], setAdd st.2 s.Name)
      if 5 ≤ count + 1 then st1 else suggestFirst route rest (count + 1) st1
    else suggestFirst route rest count st

/-- The function `suggestStations`. -/
def suggestStations (route query : String) (stations : List Station) : List String :=
  let st0 : List String × List String := ([], [])
  let st1 := if route ≠ "" then suggestOnRoute route query stations st0 else st0
  let st2 := if st1.1.length < 5 then suggestAny query stations st1 else st1
  let st3 := if st2.1.length = 0 ∧ route ≠ "" then suggestFirst route stations 0 st2 else st2
  st3.1

/-- A state of `suggestStations` (the suggestions and the names seen) is sound
for a catalog: the suggestions are the lines of some stations of the catalog
with pairwise distinct names, and the names seen are the names of these
stations. -/
def SuggestInv (catalog : List Station) (st : List String × List String) : Prop :=
  ∃ chosen : List Station,
    st.1 = chosen.map suggestionLine ∧
    (∀ n, n ∈ st.2 ↔ n ∈ chosen.map (fun s => s.Name)) ∧
    (chosen.map (fun s => s.Name)).Nodup ∧
    ∀ s ∈ chosen, s ∈ catalog

/-- The function `formatSuggestions`. -/
def formatSuggestions (suggestions : List String) : String :=
  join suggestions "\n"

/-- The copy `match := s` with the routes narrowed to the requested route, when
one is given. -/
def narrow (route : String) (s : Station) : Station :=
  if route ≠ "" then { s with Routes := [route] } else s

/-- The test of the loop over `Defaults()` in `Lookup`: the default stop matches
the query by equality or containment and serves the route, if one is given. -/
def defaultMatches (route query : String) (d : DefaultStation) : Bool :=
  (normalize d.Station.Name = query || strContains (normalize d.Station.Name) query) &&
    (route = "" || containsRoute d.Station.Routes route)

/-- The slice `exactMatches` of `Lookup` after the loop over the catalog. -/
def exactMatches (stations : List Station) (route query : String) : List Station :=
  stations.filterMap (fun s =>
    if route ≠ "" ∧ !containsRoute s.Routes route then none
    else if normalize s.Name = query then some (narrow route s)
    else none)

/-- The slice `partialMatches` of `Lookup` after the loop over the catalog. -/
def partialMatches (stations : List Station) (route query : String) : List Station :=
  stations.filterMap (fun s =>
    if route ≠ "" ∧ !containsRoute s.Routes route then none
    else if normalize s.Name = query then none
    else if strContains (normalize s.Name) query then some (narrow route s)
    else none)

/-- The function `Lookup`, with the catalog that `loadStations` returns as the
argument `stations`. -/
def Lookup (stations : List Station) (route nameQuery : String) : Except String Station :=
  let route := toUpper (trimSpace route)
  let query := normalize nameQuery
  if query = "" ∧ route = "" then Except.error "no station or line specified"
  else
    match Defaults.find? (defaultMatches route query) with
    | some d => Except.ok (narrow route d.Station)
    | none =>
      match exactMatches stations route query with
      | m :: _ => Except.ok m
      | [] =>
        match partialMatches stations route query with
        | m :: _ => Except.ok m
        | [] =>
          let suggestions := suggestStations route query stations
          if 0 < suggestions.length then
            if route ≠ "" then
              Except.error ("station " ++ nameQuery ++ " not found for line " ++ route
                ++ ". Did you mean:\n" ++ formatSuggestions suggestions)
            else
              Except.error ("station " ++ nameQuery ++ " not found. Did you mean:\n"
                ++ formatSuggestions suggestions)
          else if route ≠ "" then
            Except.error ("station " ++ nameQuery ++ " not found for line " ++ route)
          else Except.error ("station " ++ nameQuery ++ " not found")

/-! ## The orchestrator -/

/-- The struct `stationQuery`. -/
structure stationQuery where
  name : String
  stopID : String
  routes : List String
  northLabel : String
  southLabel : String
deriving DecidableEq, Repr

/-- The struct `display.StationResult`. -/
structure StationResult where
  StationName : String
  StopID : String
  Routes : List String
  NorthLabel : String
  SouthLabel : String
  Departures : List Departure
  Source : String
  SourceNote : String
deriving DecidableEq, Repr

/-- A call that leaves the orchestrator: to `feed.FetchDepartures` or to
`schedule.GetScheduledDepartures`, with its arguments.  The source has no such
value; the functions below return the list of the calls they make next to
their result, so that one can say which calls are made. -/
inductive Call where
  | fetch (url stopID : String) (routes : List String) (direction : String)
  | schedule (stopID : String) (routes : List String) (direction : String)
      (targetTime : GoTime) (windowMin : Int)
deriving DecidableEq, Repr

/-- Whether a call is a call to `schedule.GetScheduledDepartures`. -/
def Call.isSchedule : Call → Bool
  | Call.fetch _ _ _ _ => false
  | Call.schedule _ _ _ _ _ => true

/-- The URL of a call to `feed.FetchDepartures`. -/
def Call.url : Call → Option String
  | Call.fetch url _ _ _ => some url
  | Call.schedule _ _ _ _ _ => none

/-- One turn of the loop `for url, routes := range feedMap`: the departures
gathered so far and the calls made so far. -/
def fetchStep (env : Env) (stopID direction : String) (acc : List Departure × List Call)
    (entry : String × List String) : List Departure × List Call :=
  match FetchDepartures env entry.1 stopID entry.2 direction with
  | Except.error _ => (acc.1, acc.2 ++ [Call.fetch entry.1 stopID entry.2 direction])
  | Except.ok deps => (acc.1 ++ deps, acc.2 ++ [Call.fetch entry.1 stopID entry.2 direction])

/-- What one endpoint adds to `allDeps`: the departures that `FetchDepartures`
returns, nothing when it fails. -/
def fetched (env : Env) (stopID direction : String) (entry : String × List String) :
    List Departure :=
  match FetchDepartures env entry.1 stopID entry.2 direction with
  | Except.error _ => []
  | Except.ok deps => deps

/-- The realtime departures of one stop, `allDeps`, as both `fetchRealtime` and
`fetchWithScheduleFallback` gather them, and the calls made. -/
def gatherRealtime (env : Env) (q : stationQuery) (direction : String) :
    List Departure × List Call :=
  (env.rangeOrder (FeedURLsForRoutes q.routes)).foldl (fetchStep env q.stopID direction) ([], [])

/-- The task that `fetchRealtime` starts for one stop: the result it sends on
the channel, and the calls made. -/
def realtimeTask (env : Env) (q : stationQuery) (direction : String) :
    StationResult × List Call :=
  let g := gatherRealtime env q direction
  ({ StationName := q.name, StopID := q.stopID, Routes := q.routes,
     NorthLabel := q.northLabel, SouthLabel := q.southLabel,
     Departures := g.1, Source := "realtime", SourceNote := "" }, g.2)

/-- The zero value of `display.StationResult`. -/
def zeroResult : StationResult :=
  { StationName := "", StopID := "", Routes := [], NorthLabel := "", SouthLabel := "",
    Departures := [], Source := "", SourceNote := "" }

/-- The function `fetchRealtime`.  `world i` is the environment of the task of
stop `i`; `order` is the order in which the tasks send their result on the
channel, a rearrangement of the indices; `direction` is the package variable
of that name.  The receiving loop stores each result at its index. -/
def fetchRealtime (world : Nat → Env) (queries : List stationQuery) (now : Time)
    (direction : String) (order : List Nat) : List StationResult :=
  order.foldl (fun results idx =>
    match queries[idx]? with
    | some q => results.set idx (realtimeTask (world idx) q direction).1
    | none => results) (List.replicate queries.length zeroResult)

/-- The filter of `fetchWithScheduleFallback` on the realtime departures, for
the window `w`. -/
def windowFilter (targetTime : GoTime) (w : Int) (allDeps : List Departure) : List Departure :=
  let halfWindow := wrap64 (Int.tdiv w 2 * Minute)
  allDeps.filter (fun d =>
    decide (targetTime.ns + wrap64 (-halfWindow) < d.Time) &&
    decide (d.Time < targetTime.ns + halfWindow))

/-- The window `w` of `fetchWithScheduleFallback`: 30 when `window` is 0. -/
def effectiveWindow (window : Int) : Int := if window = 0 then 30 else window

/-- The body of the loop of `fetchWithScheduleFallback` for one stop: the
result stored, and the calls made. -/
def fallbackStop (env : Env) (q : stationQuery) (targetTime : GoTime) (direction : String)
    (window : Int) : StationResult × List Call :=
  let g := gatherRealtime env q direction
  let w := effectiveWindow window
  let filtered := windowFilter targetTime w g.1
  if 0 < filtered.length then
    ({ StationName := q.name, StopID := q.stopID, Routes := q.routes,
       NorthLabel := q.northLabel, SouthLabel := q.southLabel,
       Departures := filtered, Source := "realtime", SourceNote := "" }, g.2)
  else
    let call := Call.schedule q.stopID q.routes direction targetTime w
    match GetScheduledDepartures env q.stopID q.routes direction targetTime w with
    | Except.error _ =>
      ({ StationName := q.name, StopID := q.stopID, Routes := q.routes,
         NorthLabel := q.northLabel, SouthLabel := q.southLabel,
         Departures := [], Source := "scheduled", SourceNote := "" }, g.2 ++ [call])
    | Except.ok (deps, sourceNote) =>
      ({ StationName := q.name, StopID := q.stopID, Routes := q.routes,
         NorthLabel := q.northLabel, SouthLabel := q.southLabel,
         Departures := deps, Source := "scheduled", SourceNote := sourceNote }, g.2 ++ [call])

/-- The loop of `fetchWithScheduleFallback` from index `i` on: each stop with
its result and the calls made for it. -/
def fallbackFrom (world : Nat → Env) (targetTime : GoTime) (direction : String) (window : Int) :
    Nat → List stationQuery → List (StationResult × List Call)
  | _, [] => []
  | i, q :: rest =>
    fallbackStop (world i) q targetTime direction window
      :: fallbackFrom world targetTime direction window (i + 1) rest

/-- The function `fetchWithScheduleFallback`; `direction` and `window` are the
package variables of those names. -/
def fetchWithScheduleFallback (world : Nat → Env) (queries : List stationQuery)
    (targetTime : GoTime) (now : Time) (direction : String) (window : Int) :
    List StationResult :=
  (fallbackFrom world targetTime direction window 0 queries).map Prod.fst

end Code

/-! ## Sample data -/

/-- Case tables for the closed examples below: the four characters beyond ASCII
that the tables of Go map to an ASCII letter (U+017F and U+0131 to `S` and `I`
in upper case, U+212A and U+0130 to `k` and `i` in lower case), and no other
entry.  Apart from `case_beyond_ascii`, the examples are made of ASCII strings,
on which no table is consulted (`toUpper_ascii`, `toLower_ascii`). -/
instance (priority := low) exCase : UnicodeCase :=
  ⟨fun c => if c.toNat = 383 then 'S' else if c.toNat = 305 then 'I' else c,
   fun c => if c.toNat = 8490 then 'k' else if c.toNat = 304 then 'i' else c⟩

/-- A stop-times table with four records at stop `A44`. -/
def exStopTimes : CSV :=
  ⟨some ["trip_id", "stop_id", "departure_time"],
   [ ["t1", "A44N", "10:05:00"], ["t1", "A44S", "10:01:00"],
     ["t2", "A44N", "10:00:00"], ["t1", "A44", "09:59:00"] ]⟩

/-- An archive that holds only `exStopTimes`. -/
def exArchive : Archive :=
  ⟨none, none, none, some exStopTimes⟩

/-- A trip map with the one trip `t1` of route `C`. -/
def exTrips : List (String × tripInfo) := [("t1", ⟨"C", "0"⟩)]

/-- The instant 10:00:00 of a day whose midnight is the instant `0`. -/
def exTarget : GoTime := ⟨36000000000000, 0, "19700101", "Thursday"⟩

/-- A weekly table in which service `WKD` runs on Thursdays of 1970 and
service `SUN` does not. -/
def exCalendar : CSV :=
  ⟨some ["service_id", "thursday", "start_date", "end_date"],
   [ ["WKD", "1", "19700101", "19701231"], ["SUN", "0", "19700101", "19701231"] ]⟩

/-- Exceptions for 1 January 1970: `WKD` is removed and `SUN` is added. -/
def exCalendarDates : CSV :=
  ⟨some ["service_id", "date", "exception_type"],
   [ ["WKD", "19700101", "2"], ["SUN", "19700101", "1"], ["WKD", "19700102", "1"] ]⟩

/-- An archive with the two calendar tables above. -/
def exCalendarArchive : Archive :=
  ⟨some exCalendar, some exCalendarDates, none, none⟩

/-- A feed with two trip updates at stop `A44`. -/
def exFeed : FeedMessage :=
  ⟨[ ⟨some ⟨"C", [⟨"A44N", some 900, none⟩, ⟨"A44S", none, some 300⟩, ⟨"A45N", some 100, none⟩]⟩⟩,
     ⟨none⟩,
     ⟨some ⟨"A", [⟨"A44N", some 200, some 150⟩, ⟨"A44S", some 0, none⟩, ⟨"A44S", some 100, none⟩]⟩⟩ ]⟩

/-- An environment in which every feed is `exFeed`, both datasets are
`exArchive`, the clock reads 200 s, and maps are walked in insertion order. -/
def exEnv : Env :=
  { fetchFeed := fun _ => Except.ok [],
    protoUnmarshal := fun _ => Except.ok exFeed,
    now := fun _ => unix 200,
    getCachedOrDownload := fun _ _ _ => Except.ok [],
    zipNewReader := fun _ => Except.ok exArchive,
    rangeOrder := fun m => m,
    rangeOrder_perm := fun m => List.Perm.refl m }

/-- A catalog with three stops. -/
def exCatalog : List Station :=
  [ ⟨"L24", "Atlantic Av", ["L"], "Manhattan", "Canarsie", "Canarsie", "Bk", "L"⟩,
    ⟨"A42", "Hoyt-Schermerhorn Sts", ["A", "C", "G"], "Manhattan", "Euclid", "Fulton", "Bk", "A C G"⟩,
    ⟨"A41", "Jay St-MetroTech", ["A", "C", "F"], "Manhattan", "Euclid", "Fulton", "Bk", "A C F"⟩ ]

/-- A trips table with the trip `t1` of route `C` and service `WKD`. -/
def exTripsTable : CSV :=
  ⟨some ["route_id", "service_id", "trip_id", "direction_id"], [ ["C", "WKD", "t1", "0"] ]⟩

/-- A complete dataset: `WKD` runs on Thursdays, no exceptions, one trip. -/
def exDataset : Archive :=
  ⟨some exCalendar, none, some exTripsTable, some exStopTimes⟩

/-- A dataset in which no service runs. -/
def exEmptyDataset : Archive :=
  ⟨none, none, some exTripsTable, some exStopTimes⟩

/-- An environment whose downloads answer `[1]` for the supplemented file and
`[0]` for the regular one; `[1]` opens as the empty dataset, `[0]` as the
complete one, anything else does not open. -/
def exEnvRegular : Env :=
  { fetchFeed := fun _ => Except.error "feed returned status 503",
    protoUnmarshal := fun _ => Except.ok exFeed,
    now := fun _ => unix 200,
    getCachedOrDownload := fun _ filename _ =>
      if strContains filename "supplemented" then Except.ok [1] else Except.ok [0],
    zipNewReader := fun data =>
      if data = [1] then Except.ok exEmptyDataset
      else if data = [0] then Except.ok exDataset
      else Except.error "zip: not a valid zip file",
    rangeOrder := fun m => m,
    rangeOrder_perm := fun m => List.Perm.refl m }

/-- An environment in which every dataset is the complete one. -/
def exEnvSupplemented : Env :=
  { fetchFeed := fun _ => Except.error "feed returned status 503",
    protoUnmarshal := fun _ => Except.ok exFeed,
    now := fun _ => unix 200,
    getCachedOrDownload := fun _ _ _ => Except.ok [0],
    zipNewReader := fun _ => Except.ok exDataset,
    rangeOrder := fun m => m,
    rangeOrder_perm := fun m => List.Perm.refl m }

/-- An environment whose feeds all hold `exFeed` at clock 200 s and whose
datasets are the complete one. -/
def exEnvLive : Env :=
  { fetchFeed := fun _ => Except.ok [],
    protoUnmarshal := fun _ => Except.ok exFeed,
    now := fun _ => unix 200,
    getCachedOrDownload := fun _ _ _ => Except.ok [0],
    zipNewReader := fun _ => Except.ok exDataset,
    rangeOrder := fun m => m,
    rangeOrder_perm := fun m => List.Perm.refl m }

/-- Two stop queries. -/
def exQueries : List stationQuery :=
  [ ⟨"Clinton-Washington Avs", "A44", ["C", "a"], "Manhattan-bound", "Euclid Av-bound"⟩,
    ⟨"Bergen St", "236", ["2", "3"], "Manhattan-bound", "Flatbush Av-bound"⟩ ]

/-- A target time 5 minutes after the epoch, with midnight at the epoch. -/
def exSoon : GoTime := ⟨300000000000, 0, "19700101", "Thursday"⟩

/-- A feed of the A/C/E endpoint: two departures of route `C` at `A44N`, at
200 s and at 900 s. -/
def exFeedACE : FeedMessage :=
  ⟨[ ⟨some ⟨"C", [⟨"A44N", some 200, none⟩, ⟨"A44N", some 900, none⟩]⟩⟩ ]⟩

/-- A feed of the numbered-lines endpoint: one departure of route `2` at
`A44N`, at 300 s. -/
def exFeedIRT : FeedMessage :=
  ⟨[ ⟨some ⟨"2", [⟨"A44N", some 300, none⟩]⟩⟩ ]⟩

/-- An environment with two feeds: the A/C/E endpoint answers `exFeedACE`,
every other endpoint `exFeedIRT`; the clock reads 200 s; a map is walked in
insertion order. -/
def exEnvTwoFeeds : Env :=
  { fetchFeed := fun url =>
      if url = "https://api-endpoint.mta.info/Dataservice/mtagtfsfeeds/nyct%2Fgtfs-ace"
      then Except.ok [1] else Except.ok [2],
    protoUnmarshal := fun data =>
      if data = [1] then Except.ok exFeedACE else Except.ok exFeedIRT,
    now := fun _ => unix 200,
    getCachedOrDownload := fun _ _ _ => Except.ok [0],
    zipNewReader := fun _ => Except.ok exDataset,
    rangeOrder := fun m => m,
    rangeOrder_perm := fun m => List.Perm.refl m }

/-- The environment `exEnvTwoFeeds` with maps walked in the reverse order. -/
def exEnvTwoFeedsReversed : Env :=
  { fetchFeed := exEnvTwoFeeds.fetchFeed,
    protoUnmarshal := exEnvTwoFeeds.protoUnmarshal,
    now := exEnvTwoFeeds.now,
    getCachedOrDownload := exEnvTwoFeeds.getCachedOrDownload,
    zipNewReader := exEnvTwoFeeds.zipNewReader,
    rangeOrder := fun m => m.reverse,
    rangeOrder_perm := fun m => List.reverse_perm m }

/-- A stop query whose two routes are served by two feed endpoints. -/
def exTwoFeedQuery : stationQuery := ⟨"Two feeds", "A44", ["C", "2"], "", ""⟩

/-- A feed with one departure of route `C` at `A44N`, at 1200 s: 15 minutes
after the target `exSoon`. -/
def exFeedBoundary : FeedMessage :=
  ⟨[ ⟨some ⟨"C", [⟨"A44N", some 1200, none⟩]⟩⟩ ]⟩

/-- An environment whose feeds all hold `exFeedBoundary` at clock 200 s and
whose datasets are the complete one. -/
def exEnvBoundary : Env :=
  { fetchFeed := fun _ => Except.ok [],
    protoUnmarshal := fun _ => Except.ok exFeedBoundary,
    now := fun _ => unix 200,
    getCachedOrDownload := fun _ _ _ => Except.ok [0],
    zipNewReader := fun _ => Except.ok exDataset,
    rangeOrder := fun m => m,
    rangeOrder_perm := fun m => List.Perm.refl m }

/-- A stop query for route `C` at `A44`. -/
def exQueryC : stationQuery :=
  ⟨"Clinton-Washington Avs", "A44", ["C"], "Manhattan-bound", "Euclid Av-bound"⟩

/-- The location `America/New_York` from 10 March 2024 to 9 March 2025: four
hours west of UTC until 3 November 2024 at 06:00 UTC (the instant
1730613600 s), five hours west from then on. -/
def exNewYork : Location :=
  ⟨fun t => if t < 1730613600 * Second then -14400 else -18000⟩

/-! ## Theorems -/

/-! ## Case tables -/

/-- On an ASCII character no table is consulted: `upperChar` is the same for
every pair of tables. -/
theorem upperChar_ascii (a b : UnicodeCase) (c : Char) (h : c.toNat ≤ 127) :
    @upperChar a c = @upperChar b c := by
  simp only [upperChar, if_pos h]

/-- On an ASCII character no table is consulted: `lowerChar` is the same for
every pair of tables. -/
theorem lowerChar_ascii (a b : UnicodeCase) (c : Char) (h : c.toNat ≤ 127) :
    @lowerChar a c = @lowerChar b c := by
  simp only [lowerChar, if_pos h]

/-- The upper-casing of an ASCII string does not depend on the tables. -/
theorem toUpper_ascii (a b : UnicodeCase) (s : String) (h : ∀ c ∈ s.data, c.toNat ≤ 127) :
    @toUpper a s = @toUpper b s := by
  unfold toUpper
  congr 1
  exact List.map_congr_left (fun c hc => upperChar_ascii a b c (h c hc))

/-- The lower-casing of an ASCII string does not depend on the tables. -/
theorem toLower_ascii (a b : UnicodeCase) (s : String) (h : ∀ c ∈ s.data, c.toNat ≤ 127) :
    @toLower a s = @toLower b s := by
  unfold toLower
  congr 1
  exact List.map_congr_left (fun c hc => lowerChar_ascii a b c (h c hc))

/-- Beyond ASCII, with the entries of `exCase`: the Kelvin sign U+212A is
lower-cased to `k` and kept by `normalize`, so that a query written with it is
not empty and finds the stop `Kings Hwy` by equality; the long s U+017F is
upper-cased to `S`, so that it names the route `S` and the direction `S`; and
the trips record whose route is written with it is kept under the route
`S`. -/
theorem case_beyond_ascii :
    normalize "\u212aings Hwy" = "kings hwy" ∧
    normalize "\u212a" = "k" ∧
    Lookup [⟨"D35", "Kings Hwy", ["B", "Q"], "Manhattan", "Coney Island", "Brighton", "Bk", "B Q"⟩]
        "" "\u212aings Hwy"
      = Except.ok ⟨"D35", "Kings Hwy", ["B", "Q"], "Manhattan", "Coney Island", "Brighton", "Bk",
          "B Q"⟩ ∧
    FeedURL "\u017f" = Except.ok "https://api-endpoint.mta.info/Dataservice/mtagtfsfeeds/nyct%2Fgtfs" ∧
    FeedURLsForRoutes ["\u017f"]
      = [("https://api-endpoint.mta.info/Dataservice/mtagtfsfeeds/nyct%2Fgtfs", ["\u017f"])] ∧
    matchesStop "A44S" "A44" "\u017f" = true ∧
    tripStep (csvIndex ["route_id", "service_id", "trip_id"]) (routeSetOf ["S"]) ["WKD"] []
      ["\u017f", "WKD", "t1"] = [("t1", ⟨"S", ""⟩)] := by
  decide

/-! ## Arithmetic of the window -/

theorem wrap64_of_range {x : Int} (h1 : -9223372036854775808 ≤ x) (h2 : x ≤ 9223372036854775807) :
    wrap64 x = x := by
  unfold wrap64
  omega

theorem floor_half (W : Int) : ⌊(W : ℚ) / 2⌋ = W / 2 := by
  have h := Rat.floor_intCast_div_natCast W 2
  simpa using h

theorem ceil_half (W : Int) : ⌈(W : ℚ) / 2⌉ = (W + 1) / 2 := by
  rw [Int.ceil_eq_iff]
  constructor
  · have : ((W + 1) / 2 : Int) - 1 < (W:ℚ) / 2 := by
      rw [lt_div_iff₀ (by norm_num)]
      have h : (((W + 1) / 2 - 1) * 2 : Int) < W := by omega
      exact_mod_cast h
    exact_mod_cast this
  · rw [div_le_iff₀ (by norm_num)]
    have h : W ≤ ((W + 1) / 2) * 2 := by omega
    exact_mod_cast h

theorem windowStart_eq (T : GoTime) (W : Int) (h0 : 0 ≤ W) (h1 : W ≤ 307445734) :
    windowStart T W = T.ns - (W / 2) * Minute := by
  unfold windowStart
  rw [Int.tdiv_eq_ediv h0 (by norm_num)]
  have e1 : wrap64 (W / 2 * Minute) = W / 2 * Minute := by
    apply wrap64_of_range <;> (simp only [Minute]; omega)
  rw [e1]
  have e2 : wrap64 (-(W / 2 * Minute)) = -(W / 2 * Minute) := by
    apply wrap64_of_range <;> (simp only [Minute]; omega)
  rw [e2]
  ring

theorem windowEnd_eq (T : GoTime) (W : Int) (h0 : 0 ≤ W) (h1 : W ≤ 307445734) :
    windowEnd T W = T.ns + ((W + 1) / 2) * Minute := by
  unfold windowEnd
  rw [Int.tdiv_eq_ediv h0 (by norm_num), Int.tmod_eq_emod h0 (by norm_num)]
  have e0 : W / 2 + W % 2 = (W + 1) / 2 := by omega
  rw [e0]
  have e1 : wrap64 ((W + 1) / 2) = (W + 1) / 2 := by
    apply wrap64_of_range <;> omega
  rw [e1]
  have e2 : wrap64 ((W + 1) / 2 * Minute) = (W + 1) / 2 * Minute := by
    apply wrap64_of_range <;> (simp only [Minute]; omega)
  rw [e2]

theorem wrap64_neg_wrap64_ge (x : Int) (h0 : 0 ≤ x) : -x ≤ wrap64 (-(wrap64 x)) := by
  unfold wrap64
  omega

theorem wrap64_le_self (y : Int) (h0 : 0 ≤ y) : wrap64 y ≤ y := by
  unfold wrap64
  omega

theorem wrap64_lt (y : Int) : wrap64 y < 9223372036854775808 := by
  unfold wrap64
  omega

theorem wrap64_mul_minute_le (k : Int) (h0 : 0 ≤ k) : wrap64 (wrap64 k * Minute) ≤ k * Minute := by
  by_cases hk : k < 9223372036854775808
  · have e : wrap64 k = k := wrap64_of_range (by omega) (by omega)
    rw [e]
    exact wrap64_le_self _ (by unfold Minute; omega)
  · have := wrap64_lt (wrap64 k * Minute)
    unfold Minute at *
    omega

/-- Whatever the width, the lower end of the window is not before
`T - ⌊W/2⌋ min`. -/
theorem windowStart_ge (T : GoTime) (W : Int) (h0 : 0 ≤ W) :
    T.ns - (W / 2) * Minute ≤ windowStart T W := by
  unfold windowStart
  rw [Int.tdiv_eq_ediv h0 (by norm_num)]
  have := wrap64_neg_wrap64_ge (W / 2 * Minute) (by unfold Minute; omega)
  linarith

/-- Whatever the width, the upper end of the window is not after
`T + ⌈W/2⌉ min`. -/
theorem windowEnd_le (T : GoTime) (W : Int) (h0 : 0 ≤ W) :
    windowEnd T W ≤ T.ns + ((W + 1) / 2) * Minute := by
  unfold windowEnd
  rw [Int.tdiv_eq_ediv h0 (by norm_num), Int.tmod_eq_emod h0 (by norm_num)]
  have e0 : W / 2 + W % 2 = (W + 1) / 2 := by omega
  rw [e0]
  have := wrap64_mul_minute_le ((W + 1) / 2) (by omega)
  linarith

theorem mem_sortByTime (ds : List Departure) (d : Departure) : d ∈ sortByTime ds ↔ d ∈ ds :=
  (List.perm_insertionSort _ ds).mem_iff

theorem stopTimeRow_of_filters {idx : List (String × Nat)} {validTrips : List (String × tripInfo)}
    {stopID direction : String} {T : GoTime} {W : Int} {record : List String}
    {trip : tripInfo} {dir0 : String} {t : Time}
    (h1 : mapGet validTrips (field record (col idx "trip_id")) = some trip)
    (h2 : mapGet (targetStops stopID direction) (field record (col idx "stop_id")) = some dir0)
    (h3 : parseGTFSTime (field record (col idx "departure_time")) T.midnight = some t) :
    stopTimeRow idx validTrips stopID direction T W record =
      if t < windowStart T W ∨ windowEnd T W < t then none
      else some (rowDeparture trip dir0 (field record (col idx "stop_id")) t) := by
  unfold stopTimeRow
  simp only [h1, h2, h3, rowDeparture]

/-- A departure produced by one record carries a time that is not outside
the window. -/
theorem stopTimeRow_time {idx : List (String × Nat)} {validTrips : List (String × tripInfo)}
    {stopID direction : String} {T : GoTime} {W : Int} {record : List String} {d : Departure}
    (h : stopTimeRow idx validTrips stopID direction T W record = some d) :
    windowStart T W ≤ d.Time ∧ d.Time ≤ windowEnd T W := by
  cases h1 : mapGet validTrips (field record (col idx "trip_id")) with
  | none => simp [stopTimeRow, h1] at h
  | some trip =>
    cases h2 : mapGet (targetStops stopID direction) (field record (col idx "stop_id")) with
    | none => simp [stopTimeRow, h1, h2] at h
    | some dir0 =>
      cases h3 : parseGTFSTime (field record (col idx "departure_time")) T.midnight with
      | none => simp [stopTimeRow, h1, h2, h3] at h
      | some t =>
        rw [stopTimeRow_of_filters h1 h2 h3] at h
        split at h
        · exact absurd h (by simp)
        · rename_i hw
          simp only [Option.some.injEq] at h
          subst h
          rw [not_or, not_lt, not_lt] at hw
          exact hw

/-- Claim C1, with the completeness half kept to the range of `time.Duration`.
For a window width `W ≥ 0` and a stop-times table whose header can be read,
`findStopTimes` succeeds and every returned departure has its time in
`[T - ⌊W/2⌋ min, T + ⌈W/2⌉ min]`; and when `W ≤ 307445734`, a record read
without error that passes the trip filter and the stop filter and whose time
parses to `t` has its departure in the returned list if and only if `t` lies
in that closed interval. -/
theorem findStopTimes_window (r : Archive) (stFile : CSV) (header : List String)
    (validTrips : List (String × tripInfo)) (stopID direction : String) (T : GoTime) (W : Int)
    (hfile : r.stopTimes = some stFile) (hheader : stFile.header = some header)
    (hW0 : 0 ≤ W) :
    ∃ ds, findStopTimes r validTrips stopID direction T W = Except.ok ds ∧
      (∀ d ∈ ds, T.ns - ⌊(W : ℚ) / 2⌋ * Minute ≤ d.Time ∧
        d.Time ≤ T.ns + ⌈(W : ℚ) / 2⌉ * Minute) ∧
      (W ≤ 307445734 →
        ∀ record ∈ stFile.rows, record.length = header.length →
        ∀ (trip : tripInfo) (dir0 : String) (t : Time),
          mapGet validTrips (field record (col (csvIndex header) "trip_id")) = some trip →
          mapGet (targetStops stopID direction)
            (field record (col (csvIndex header) "stop_id")) = some dir0 →
          parseGTFSTime (field record (col (csvIndex header) "departure_time")) T.midnight
            = some t →
          (rowDeparture trip dir0 (field record (col (csvIndex header) "stop_id")) t ∈ ds ↔
            T.ns - ⌊(W : ℚ) / 2⌋ * Minute ≤ t ∧ t ≤ T.ns + ⌈(W : ℚ) / 2⌉ * Minute)) := by
  rw [floor_half, ceil_half]
  have hrun : findStopTimes r validTrips stopID direction T W = Except.ok (sortByTime
      ((goodRows header stFile.rows).filterMap
        (stopTimeRow (csvIndex header) validTrips stopID direction T W))) := by
    simp only [findStopTimes, hfile, hheader]
  refine ⟨_, hrun, ?_, ?_⟩
  · intro d hd
    rw [mem_sortByTime, List.mem_filterMap] at hd
    obtain ⟨rec2, _, hrow⟩ := hd
    have h := stopTimeRow_time hrow
    exact ⟨le_trans (windowStart_ge T W hW0) h.1, le_trans h.2 (windowEnd_le T W hW0)⟩
  · intro hW1 record hrec hlen trip dir0 t h1 h2 h3
    rw [← windowStart_eq T W hW0 hW1, ← windowEnd_eq T W hW0 hW1]
    rw [mem_sortByTime, List.mem_filterMap]
    constructor
    · rintro ⟨rec2, _, hrow⟩
      have := stopTimeRow_time hrow
      simpa [rowDeparture] using this
    · intro hwin
      refine ⟨record, ?_, ?_⟩
      · simp only [goodRows, List.mem_filter, decide_eq_true_eq]
        exact ⟨hrec, hlen⟩
      · rw [stopTimeRow_of_filters h1 h2 h3, if_neg]
        rw [not_or, not_lt, not_lt]
        exact hwin

/-- Instance of `findStopTimes_window` on the sample table with a window of
ten minutes. -/
theorem findStopTimes_window_witness :
    (exArchive.stopTimes = some exStopTimes ∧ exStopTimes.header
        = some ["trip_id", "stop_id", "departure_time"] ∧ (0 : Int) ≤ 10) ∧
    ∃ ds, findStopTimes exArchive exTrips "A44" "" exTarget 10 = Except.ok ds ∧
      (∀ d ∈ ds, exTarget.ns - ⌊((10 : Int) : ℚ) / 2⌋ * Minute ≤ d.Time ∧
        d.Time ≤ exTarget.ns + ⌈((10 : Int) : ℚ) / 2⌉ * Minute) ∧
      ((10 : Int) ≤ 307445734 →
        ∀ record ∈ exStopTimes.rows, record.length = 3 →
        ∀ (trip : tripInfo) (dir0 : String) (t : Time),
          mapGet exTrips (field record
            (col (csvIndex ["trip_id", "stop_id", "departure_time"]) "trip_id")) = some trip →
          mapGet (targetStops "A44" "") (field record
            (col (csvIndex ["trip_id", "stop_id", "departure_time"]) "stop_id")) = some dir0 →
          parseGTFSTime (field record
            (col (csvIndex ["trip_id", "stop_id", "departure_time"]) "departure_time"))
              exTarget.midnight = some t →
          (rowDeparture trip dir0 (field record
              (col (csvIndex ["trip_id", "stop_id", "departure_time"]) "stop_id")) t ∈ ds ↔
            exTarget.ns - ⌊((10 : Int) : ℚ) / 2⌋ * Minute ≤ t ∧
              t ≤ exTarget.ns + ⌈((10 : Int) : ℚ) / 2⌉ * Minute)) :=
  ⟨⟨rfl, rfl, by decide⟩,
   findStopTimes_window exArchive exStopTimes ["trip_id", "stop_id", "departure_time"]
     exTrips "A44" "" exTarget 10 rfl rfl (by decide)⟩

/-- Claim C1 as stated fails for a window width beyond the range of
`time.Duration`.  With `W = 2^62` minutes both half-widths wrap to zero
nanoseconds: the record `t1, A44S, 10:01:00` passes the trip filter and the
stop filter, its time lies in `[T - ⌊W/2⌋ min, T + ⌈W/2⌉ min]`, and yet
`findStopTimes` returns no departure at all. -/
theorem findStopTimes_window_counterexample :
    (0 : Int) ≤ 4611686018427387904 ∧
    ["t1", "A44S", "10:01:00"] ∈ exStopTimes.rows ∧
    mapGet exTrips "t1" = some ⟨"C", "0"⟩ ∧
    mapGet (targetStops "A44" "") "A44S" = some "S" ∧
    parseGTFSTime "10:01:00" exTarget.midnight = some 36060000000000 ∧
    (exTarget.ns - ⌊((4611686018427387904 : Int) : ℚ) / 2⌋ * Minute ≤ 36060000000000 ∧
      (36060000000000 : Int) ≤ exTarget.ns + ⌈((4611686018427387904 : Int) : ℚ) / 2⌉ * Minute) ∧
    findStopTimes exArchive exTrips "A44" "" exTarget 4611686018427387904 = Except.ok [] := by
  refine ⟨by decide, by decide, by decide, by decide, by decide, ?_, rfl⟩
  rw [floor_half, ceil_half]
  decide

/-! ## Calendar exceptions -/

theorem mem_setAdd {m : List String} {k s : String} : s ∈ setAdd m k ↔ s ∈ m ∨ s = k := by
  unfold setAdd
  split
  · constructor
    · exact Or.inl
    · rintro (h | h)
      · exact h
      · subst h; assumption
  · simp

theorem mem_setDelete {m : List String} {k s : String} : s ∈ setDelete m k ↔ s ∈ m ∧ s ≠ k := by
  unfold setDelete
  simp

/-- If every exception record of service `s` on the date is a removal, the
exception loop keeps `s` out of the set once it is out, and one such record
puts it out. -/
theorem exceptions_removed (idx : List (String × Nat)) (dateStr s : String) :
    ∀ (rows : List (List String)) (active : List String),
      (∀ record ∈ rows, field record (col idx "date") = dateStr →
        field record (col idx "service_id") = s →
        field record (col idx "exception_type") = "2") →
      (s ∉ active ∨ ∃ record ∈ rows, field record (col idx "date") = dateStr ∧
        field record (col idx "service_id") = s) →
      s ∉ rows.foldl (exceptionStep idx dateStr) active := by
  intro rows
  induction rows with
  | nil =>
    intro active _ h
    rcases h with h | ⟨record, hmem, _⟩
    · exact h
    · exact absurd hmem (List.not_mem_nil _)
  | cons rec0 rows ih =>
    intro active hall h
    rw [List.foldl_cons]
    apply ih
    · intro record hrec
      exact hall record (List.mem_cons_of_mem _ hrec)
    · by_cases hm : field rec0 (col idx "date") = dateStr ∧ field rec0 (col idx "service_id") = s
      · left
        have hty := hall rec0 (List.mem_cons_self _ _) hm.1 hm.2
        simp [exceptionStep, hm.1, hm.2, hty, mem_setDelete]
      · rcases h with h | ⟨record, hmem, hd, hs⟩
        · left
          unfold exceptionStep
          split
          · exact h
          · rename_i hdate
            simp only [ne_eq, not_not] at hdate
            have hsv : field rec0 (col idx "service_id") ≠ s := fun e => hm ⟨hdate, e⟩
            simp only
            split
            · rw [mem_setAdd]
              rintro (h1 | h1)
              · exact h h1
              · exact hsv h1.symm
            · split
              · rw [mem_setDelete]
                exact fun h1 => h h1.1
              · exact h
        · rcases List.mem_cons.mp hmem with e | hmem2
          · subst e
            exact absurd ⟨hd, hs⟩ hm
          · right
            exact ⟨record, hmem2, hd, hs⟩

/-- If every exception record of service `s` on the date is an addition, the
exception loop keeps `s` in the set once it is in, and one such record puts
it in. -/
theorem exceptions_added (idx : List (String × Nat)) (dateStr s : String) :
    ∀ (rows : List (List String)) (active : List String),
      (∀ record ∈ rows, field record (col idx "date") = dateStr →
        field record (col idx "service_id") = s →
        field record (col idx "exception_type") = "1") →
      (s ∈ active ∨ ∃ record ∈ rows, field record (col idx "date") = dateStr ∧
        field record (col idx "service_id") = s) →
      s ∈ rows.foldl (exceptionStep idx dateStr) active := by
  intro rows
  induction rows with
  | nil =>
    intro active _ h
    rcases h with h | ⟨record, hmem, _⟩
    · exact h
    · exact absurd hmem (List.not_mem_nil _)
  | cons rec0 rows ih =>
    intro active hall h
    rw [List.foldl_cons]
    apply ih
    · intro record hrec
      exact hall record (List.mem_cons_of_mem _ hrec)
    · by_cases hm : field rec0 (col idx "date") = dateStr ∧ field rec0 (col idx "service_id") = s
      · left
        have hty := hall rec0 (List.mem_cons_self _ _) hm.1 hm.2
        simp [exceptionStep, hm.1, hm.2, hty, mem_setAdd]
      · rcases h with h | ⟨record, hmem, hd, hs⟩
        · left
          unfold exceptionStep
          split
          · exact h
          · rename_i hdate
            simp only [ne_eq, not_not] at hdate
            have hsv : field rec0 (col idx "service_id") ≠ s := fun e => hm ⟨hdate, e⟩
            simp only
            split
            · rw [mem_setAdd]
              exact Or.inl h
            · split
              · rw [mem_setDelete]
                exact ⟨h, fun e => hsv e.symm⟩
              · exact h
        · rcases List.mem_cons.mp hmem with e | hmem2
          · subst e
            exact absurd ⟨hd, hs⟩ hm
          · right
            exact ⟨record, hmem2, hd, hs⟩

/-- Claim C2.  Let the exceptions table be readable and let service `s` have at
least one exception record for the target date, all of them of one type `ty`.
If `ty` is `"2"` (removed), `s` is not in the set returned by
`getActiveServices`, and if `ty` is `"1"` (added), `s` is in it: in both cases
whatever the weekly table says. -/
theorem getActiveServices_exceptions [UnicodeCase]
    (r : Archive) (cdFile : CSV) (header : List String)
    (T : GoTime) (s ty : String)
    (hfile : r.calendarDates = some cdFile) (hheader : cdFile.header = some header)
    (hsome : ∃ record ∈ cdFile.rows, record.length = header.length ∧
      field record (col (csvIndex header) "date") = T.dateStr ∧
      field record (col (csvIndex header) "service_id") = s)
    (hall : ∀ record ∈ cdFile.rows, record.length = header.length →
      field record (col (csvIndex header) "date") = T.dateStr →
      field record (col (csvIndex header) "service_id") = s →
      field record (col (csvIndex header) "exception_type") = ty) :
    (ty = "2" → s ∉ getActiveServices r T) ∧ (ty = "1" → s ∈ getActiveServices r T) := by
  have hrun : getActiveServices r T = (goodRows header cdFile.rows).foldl
      (exceptionStep (csvIndex header) T.dateStr) (weeklyServices r T) := by
    simp only [getActiveServices, applyExceptions, hfile, hheader]
  have hgood : ∀ record, record ∈ goodRows header cdFile.rows ↔
      record ∈ cdFile.rows ∧ record.length = header.length := by
    intro record
    simp only [goodRows, List.mem_filter, decide_eq_true_eq]
  obtain ⟨rec0, hmem0, hlen0, hd0, hs0⟩ := hsome
  rw [hrun]
  constructor
  · intro hty
    subst hty
    apply exceptions_removed
    · intro record hrec
      exact hall record ((hgood record).mp hrec).1 ((hgood record).mp hrec).2
    · exact Or.inr ⟨rec0, (hgood rec0).mpr ⟨hmem0, hlen0⟩, hd0, hs0⟩
  · intro hty
    subst hty
    apply exceptions_added
    · intro record hrec
      exact hall record ((hgood record).mp hrec).1 ((hgood record).mp hrec).2
    · exact Or.inr ⟨rec0, (hgood rec0).mpr ⟨hmem0, hlen0⟩, hd0, hs0⟩

/-- Instance of `getActiveServices_exceptions`: on the sample archive the
weekly table runs `WKD` on the target Thursday, its one exception record for
that day is a removal, and `WKD` is not active. -/
theorem getActiveServices_exceptions_witness :
    "WKD" ∈ weeklyServices exCalendarArchive exTarget ∧
    (("2" : String) = "2" → "WKD" ∉ getActiveServices exCalendarArchive exTarget) ∧
    (("2" : String) = "1" → "WKD" ∈ getActiveServices exCalendarArchive exTarget) :=
  ⟨by decide,
   getActiveServices_exceptions exCalendarArchive exCalendarDates
     ["service_id", "date", "exception_type"] exTarget "WKD" "2" rfl rfl
     ⟨["WKD", "19700101", "2"], by decide, by decide, by decide, by decide⟩
     (by decide)⟩

/-! ## Parsing of times -/

theorem isDecDigit_facts {c : Char} (h : isDecDigit c = true) :
    isSpace c = false ∧ c ≠ '\n' ∧ c ≠ ':' ∧ c ≠ '+' ∧ c ≠ '-' ∧ isScanDigit c = true := by
  refine ⟨?_, ?_, ?_, ?_, ?_, h⟩
  · simp only [isDecDigit, Bool.and_eq_true, decide_eq_true_eq] at h
    simp only [isSpace, Bool.or_eq_false_iff, Bool.and_eq_false_iff, decide_eq_false_iff_not,
      beq_eq_false_iff_ne]
    omega
  all_goals (intro e; subst e; revert h; decide)

theorem splitChars_ne_nil (sep : Char) (l : List Char) : splitChars sep l ≠ [] := by
  cases l with
  | nil => simp [splitChars]
  | cons c cs =>
    unfold splitChars
    split
    · simp
    · split <;> simp

theorem splitChars_no_sep (sep : Char) :
    ∀ l : List Char, sep ∉ l → splitChars sep l = [l] := by
  intro l
  induction l with
  | nil => intro _; rfl
  | cons c cs ih =>
    intro h
    have hc : c ≠ sep := fun e => h (by simp [e])
    have hcs : sep ∉ cs := fun e => h (List.mem_cons_of_mem _ e)
    unfold splitChars
    rw [if_neg hc, ih hcs]

theorem splitChars_append (sep : Char) :
    ∀ (l rest : List Char), sep ∉ l →
      splitChars sep (l ++ sep :: rest) = l :: splitChars sep rest := by
  intro l
  induction l with
  | nil =>
    intro rest _
    simp [splitChars]
  | cons c cs ih =>
    intro rest h
    have hc : c ≠ sep := fun e => h (by simp [e])
    have hcs : sep ∉ cs := fun e => h (List.mem_cons_of_mem _ e)
    rw [List.cons_append, splitChars, if_neg hc, ih rest hcs]

theorem trimLeft_of_head {l : List Char}
    (h : ∀ c, l.head? = some c → isSpace c = false) : trimLeft l = l := by
  cases l with
  | nil => rfl
  | cons c cs =>
    have := h c rfl
    simp [trimLeft, this]

theorem trimSpaceChars_of_ends {l : List Char}
    (h1 : ∀ c, l.head? = some c → isSpace c = false)
    (h2 : ∀ c, l.getLast? = some c → isSpace c = false) : trimSpaceChars l = l := by
  unfold trimSpaceChars
  rw [trimLeft_of_head h1, trimLeft_of_head, List.reverse_reverse]
  intro c hc
  rw [List.head?_reverse] at hc
  exact h2 c hc

theorem takeWhile_all {p : Char → Bool} :
    ∀ l : List Char, (∀ c ∈ l, p c = true) → l.takeWhile p = l := by
  intro l
  induction l with
  | nil => intro _; rfl
  | cons c cs ih =>
    intro h
    rw [List.takeWhile_cons, h c (List.mem_cons_self _ _), if_pos rfl,
      ih (fun d hd => h d (List.mem_cons_of_mem _ hd))]

/-- What `%d` reads: after spaces and one sign, the digits up to the first
other character, which need not be the end of the input; an underscore is such
a character, so `"1_0:00:00"` is one hour after the base. -/
theorem sscanInt_examples :
    sscanInt "1_0" = some 1 ∧ sscanInt " -07x" = some (-7) ∧ sscanInt "+12" = some 12 ∧
    sscanInt "" = none ∧ sscanInt "+" = none ∧ sscanInt "x1" = none ∧ sscanInt "\n5" = none ∧
    sscanInt "9223372036854775808" = none ∧
    sscanInt "-9223372036854775808" = some (-9223372036854775808) ∧
    parseGTFSTime "1_0:00:00" 0 = some (1 * Hour) ∧
    parseGTFSTime " 7 :5x: 9 " 0 = some (7 * Hour + 5 * Minute + 9 * Second) ∧
    parseGTFSTime "10:00" 0 = none := by
  decide

/-- The shape of a string that writes an integer: its first character is a sign
or a digit and is no space, its last character is a digit, and it has no
colon. -/
theorem isInteger_data {s : String} (h : isInteger s = true) :
    (∀ c, s.data.head? = some c → isSpace c = false) ∧
    (∀ c, s.data.getLast? = some c → isSpace c = false) ∧
    s.data ≠ [] ∧ ':' ∉ s.data := by
  unfold isInteger at h
  cases hs : s.data with
  | nil => rw [hs] at h; simp at h
  | cons c cs =>
    rw [hs] at h
    simp only at h
    by_cases hsign : c = '+' ∨ c = '-'
    · rw [if_pos hsign] at h
      simp only [Bool.and_eq_true, Bool.not_eq_true', List.isEmpty_eq_false,
        List.all_eq_true] at h
      obtain ⟨hne, hall⟩ := h
      refine ⟨?_, ?_, by simp, ?_⟩
      · intro d hd
        simp only [List.head?_cons, Option.some.injEq] at hd
        subst hd
        rcases hsign with e | e <;> (subst e; decide)
      · intro d hd
        rw [show c :: cs = [c] ++ cs from rfl, List.getLast?_append_of_ne_nil _ hne] at hd
        exact (isDecDigit_facts (hall d (List.mem_of_getLast?_eq_some hd))).1
      · intro hmem
        rcases List.mem_cons.1 hmem with e | e
        · rcases hsign with e2 | e2 <;> (rw [e2] at e; revert e; decide)
        · exact (isDecDigit_facts (hall _ e)).2.2.1 rfl
    · rw [if_neg hsign] at h
      simp only [List.all_eq_true] at h
      refine ⟨?_, ?_, by simp, ?_⟩
      · intro d hd
        simp only [List.head?_cons, Option.some.injEq] at hd
        subst hd
        exact (isDecDigit_facts (h _ (List.mem_cons_self _ _))).1
      · intro d hd
        exact (isDecDigit_facts (h d (List.mem_of_getLast?_eq_some hd))).1
      · intro hmem
        exact (isDecDigit_facts (h _ hmem)).2.2.1 rfl

/-- A string that writes an integer within 64 bits scans to that integer. -/
theorem sscanInt_integer (s : String) (hint : isInteger s = true)
    (hmin : minInt64 ≤ integerVal s) (hmax : integerVal s ≤ maxInt64) :
    sscanInt s = some (integerVal s) := by
  unfold isInteger at hint
  unfold integerVal at hmin hmax ⊢
  unfold sscanInt
  cases hs : s.data with
  | nil => rw [hs] at hint; simp at hint
  | cons c cs =>
    rw [hs] at hint
    simp only at hint
    simp only [hs] at hmin hmax ⊢
    by_cases hsign : c = '+' ∨ c = '-'
    · rw [if_pos hsign] at hint
      simp only [Bool.and_eq_true, Bool.not_eq_true', List.isEmpty_eq_false,
        List.all_eq_true] at hint
      obtain ⟨hne, hall⟩ := hint
      have htake : cs.takeWhile isScanDigit = cs :=
        takeWhile_all cs (fun d hd => (isDecDigit_facts (hall d hd)).2.2.2.2.2)
      rcases hsign with e | e
      · subst e
        have hskip : skipSpace ('+' :: cs) = some ('+' :: cs) := by
          simp [skipSpace, isSpace]
        rw [hskip]
        simp only [if_true, htake, if_neg hne]
        simp only [show ('+' : Char) ≠ '-' by decide, if_false, if_true] at hmin hmax ⊢
        simp [hmin, hmax]
      · subst e
        have hskip : skipSpace ('-' :: cs) = some ('-' :: cs) := by
          simp [skipSpace, isSpace]
        rw [hskip]
        simp only [show ('-' : Char) ≠ '+' by decide, if_false, if_true, htake, if_neg hne]
          at hmin hmax ⊢
        simp [hmin, hmax]
    · rw [if_neg hsign] at hint
      simp only [List.all_eq_true] at hint
      have hc := isDecDigit_facts (hint c (List.mem_cons_self _ _))
      have hskip : skipSpace (c :: cs) = some (c :: cs) := by
        simp [skipSpace, hc.1, hc.2.1]
      have htake : (c :: cs).takeWhile isScanDigit = c :: cs :=
        takeWhile_all _ (fun d hd => (isDecDigit_facts (hint d hd)).2.2.2.2.2)
      rw [hskip]
      simp only [if_neg hc.2.2.2.1, if_neg hc.2.2.2.2.1, htake] at hmin hmax ⊢
      simp [hmin, hmax]

/-- The three wrapped products of `parseGTFSTime` and their two wrapped sums
give the exact total whenever the total fits 64 bits. -/
theorem wrap64_total (a b c : Int) (h1 : -9223372036854775808 ≤ a + b + c)
    (h2 : a + b + c ≤ 9223372036854775807) :
    wrap64 (wrap64 (wrap64 a + wrap64 b) + wrap64 c) = a + b + c := by
  unfold wrap64
  omega

/-- A time written with three integers parses to the instant it writes, as long
as each integer fits 64 bits and the total fits a 64-bit count of
nanoseconds. -/
theorem parseGTFSTime_of_integers (base : Time) (H M S : String)
    (hH : isInteger H = true) (hM : isInteger M = true) (hS : isInteger S = true)
    (hHr : minInt64 ≤ integerVal H ∧ integerVal H ≤ maxInt64)
    (hMr : minInt64 ≤ integerVal M ∧ integerVal M ≤ maxInt64)
    (hSr : minInt64 ≤ integerVal S ∧ integerVal S ≤ maxInt64)
    (hfit : minInt64 ≤ integerVal H * Hour + integerVal M * Minute + integerVal S * Second ∧
      integerVal H * Hour + integerVal M * Minute + integerVal S * Second ≤ maxInt64) :
    parseGTFSTime (H ++ ":" ++ M ++ ":" ++ S) base =
      some (base + integerVal H * Hour + integerVal M * Minute + integerVal S * Second) := by
  obtain ⟨hH1, -, -, hH4⟩ := isInteger_data hH
  obtain ⟨-, -, -, hM4⟩ := isInteger_data hM
  obtain ⟨-, hS2, hS3, hS4⟩ := isInteger_data hS
  have hdata : (H ++ ":" ++ M ++ ":" ++ S).data
      = H.data ++ ':' :: (M.data ++ ':' :: S.data) := by
    simp [String.data_append]
  have htrim : trimSpaceChars (H.data ++ ':' :: (M.data ++ ':' :: S.data))
      = H.data ++ ':' :: (M.data ++ ':' :: S.data) := by
    apply trimSpaceChars_of_ends
    · intro c hc
      cases hd : H.data with
      | nil =>
        rw [hd] at hc
        simp only [List.nil_append, List.head?_cons, Option.some.injEq] at hc
        subst hc
        decide
      | cons a as =>
        rw [hd] at hc
        simp only [List.cons_append, List.head?_cons, Option.some.injEq] at hc
        subst hc
        exact hH1 a (by simp [hd])
    · intro c hc
      have e : H.data ++ ':' :: (M.data ++ ':' :: S.data)
          = (H.data ++ ':' :: (M.data ++ [':'])) ++ S.data := by simp
      rw [e, List.getLast?_append_of_ne_nil _ hS3] at hc
      exact hS2 c hc
  have hsplit : splitChars ':' (H.data ++ ':' :: (M.data ++ ':' :: S.data))
      = [H.data, M.data, S.data] := by
    rw [splitChars_append _ _ _ hH4, splitChars_append _ _ _ hM4, splitChars_no_sep _ _ hS4]
  unfold parseGTFSTime
  rw [hdata, htrim, hsplit]
  simp only
  rw [sscanInt_integer H hH hHr.1 hHr.2, sscanInt_integer M hM hMr.1 hMr.2,
    sscanInt_integer S hS hSr.1 hSr.2]
  simp only [minInt64, maxInt64] at hfit
  simp only
  rw [wrap64_total _ _ _ hfit.1 hfit.2]
  congr 1
  ring

/-- The clock one day and `s` seconds after an instant at which it shows
00:00:00, when the offset from UTC is the same at both instants: the next day,
`s` seconds after 00:00:00. -/
theorem clock_next_day (loc : Location) (base : Time) (s : Int) (h0 : 0 ≤ s) (h1 : s < 86400)
    (hmid : secondOfDay loc base = 0)
    (hoff : loc.offset (base + (86400 + s) * Second) = loc.offset base) :
    dayOf loc (base + (86400 + s) * Second) = dayOf loc base + 1 ∧
    secondOfDay loc (base + (86400 + s) * Second) = s := by
  have hw : wallSeconds loc (base + (86400 + s) * Second) = wallSeconds loc base + (86400 + s) := by
    unfold wallSeconds
    rw [hoff, Int.add_mul_ediv_right _ _ (by decide : Second ≠ 0)]
    ring
  unfold dayOf secondOfDay at *
  rw [hw]
  omega

/-- Claim C3, within the range of the 64-bit arithmetic and with the clock
read in a location.  For strings `H`, `M`, `S` that write decimal integers
(signed or not), each within 64 bits, whose total `H` hours + `M` minutes + `S`
seconds fits a 64-bit count of nanoseconds, `parseGTFSTime` on `H:M:S` succeeds
with the instant `base + H h + M min + S s`; `H` may be 24 or more.  The string
`"25:30:00"` gives the instant 25 h 30 min after `base`; when the clock of the
location shows 00:00:00 on day `D` at `base` and the offset from UTC is the
same at both instants, the clock shows 01:30:00 on day `D + 1` at that
instant. -/
theorem parseGTFSTime_decimal (loc : Location) (base : Time) (H M S : String)
    (hH : isInteger H = true) (hM : isInteger M = true) (hS : isInteger S = true)
    (hHr : minInt64 ≤ integerVal H ∧ integerVal H ≤ maxInt64)
    (hMr : minInt64 ≤ integerVal M ∧ integerVal M ≤ maxInt64)
    (hSr : minInt64 ≤ integerVal S ∧ integerVal S ≤ maxInt64)
    (hfit : minInt64 ≤ integerVal H * Hour + integerVal M * Minute + integerVal S * Second ∧
      integerVal H * Hour + integerVal M * Minute + integerVal S * Second ≤ maxInt64) :
    parseGTFSTime (H ++ ":" ++ M ++ ":" ++ S) base =
      some (base + integerVal H * Hour + integerVal M * Minute + integerVal S * Second) ∧
    parseGTFSTime "25:30:00" base = some (base + 25 * Hour + 30 * Minute) ∧
    (secondOfDay loc base = 0 →
      loc.offset (base + 25 * Hour + 30 * Minute) = loc.offset base →
      dayOf loc (base + 25 * Hour + 30 * Minute) = dayOf loc base + 1 ∧
      secondOfDay loc (base + 25 * Hour + 30 * Minute) = 1 * 3600 + 30 * 60) := by
  refine ⟨parseGTFSTime_of_integers base H M S hH hM hS hHr hMr hSr hfit, ?_, ?_⟩
  · have h := parseGTFSTime_of_integers base "25" "30" "00" (by decide) (by decide) (by decide)
      (by decide) (by decide) (by decide) (by decide)
    have e1 : ("25" : String) ++ ":" ++ "30" ++ ":" ++ "00" = "25:30:00" := by decide
    have e2 : integerVal "25" = 25 := by decide
    have e3 : integerVal "30" = 30 := by decide
    have e4 : integerVal "00" = 0 := by decide
    rw [e1, e2, e3, e4] at h
    rw [h]
    congr 1
    ring
  · intro hmid hoff
    have e : base + 25 * Hour + 30 * Minute = base + (86400 + 5400) * Second := by
      simp only [Hour, Minute, Second]
      ring
    rw [e] at hoff ⊢
    exact clock_next_day loc base 5400 (by decide) (by decide) hmid hoff

/-- Instance of `parseGTFSTime_decimal`: `"-1:+45:30"` and `"25:30:00"` on
1 November 2024 in New York, whose midnight is the instant 1730433600 s; the
offset from UTC is four hours west throughout, and the clock shows 01:30:00 on
the next day, 25 h 30 min after that midnight. -/
theorem parseGTFSTime_decimal_witness :
    (isInteger "-1" = true ∧ isInteger "+45" = true ∧ isInteger "30" = true ∧
      secondOfDay exNewYork (1730433600 * Second) = 0 ∧
      exNewYork.offset (1730433600 * Second + 25 * Hour + 30 * Minute)
        = exNewYork.offset (1730433600 * Second)) ∧
    parseGTFSTime ("-1" ++ ":" ++ "+45" ++ ":" ++ "30") (1730433600 * Second) =
      some (1730433600 * Second + integerVal "-1" * Hour + integerVal "+45" * Minute
        + integerVal "30" * Second) ∧
    parseGTFSTime "25:30:00" (1730433600 * Second)
      = some (1730433600 * Second + 25 * Hour + 30 * Minute) ∧
    dayOf exNewYork (1730433600 * Second + 25 * Hour + 30 * Minute)
      = dayOf exNewYork (1730433600 * Second) + 1 ∧
    secondOfDay exNewYork (1730433600 * Second + 25 * Hour + 30 * Minute) = 1 * 3600 + 30 * 60 :=
  have h := parseGTFSTime_decimal exNewYork (1730433600 * Second) "-1" "+45" "30"
    (by decide) (by decide) (by decide) (by decide) (by decide) (by decide) (by decide)
  ⟨⟨by decide, by decide, by decide, by decide, by decide⟩,
   h.1, h.2.1, h.2.2 (by decide) (by decide)⟩

/-- Claim C3 as stated fails in three ways.  `"3000000:00:00"` is made of three
decimal integers, but 3000000 hours exceed the range of `time.Duration`: the
product wraps and the result lies before the base.  An integer beyond 64 bits
is refused, although the total of `"9223372036854775808:-553402322211286548480:00"`
is zero.  And on 3 November 2024 in New York, a day of 25 hours whose midnight
is the instant 1730606400 s, `"25:30:00"` is the instant at which the clock
shows 00:30:00 on the next day, not 01:30:00. -/
theorem parseGTFSTime_decimal_counterexample :
    (isInteger "3000000" = true ∧ isInteger "00" = true ∧
      parseGTFSTime "3000000:00:00" 0 = some (-7646744073709551616) ∧
      parseGTFSTime "3000000:00:00" 0 ≠ some (0 + 3000000 * Hour + 0 * Minute + 0 * Second)) ∧
    (isInteger "9223372036854775808" = true ∧ isInteger "-553402322211286548480" = true ∧
      integerVal "9223372036854775808" * Hour + integerVal "-553402322211286548480" * Minute
        + integerVal "00" * Second = 0 ∧
      parseGTFSTime "9223372036854775808:-553402322211286548480:00" 0 = none) ∧
    (secondOfDay exNewYork (1730606400 * Second) = 0 ∧
      dayOf exNewYork (1730606400 * Second) = 20030 ∧
      parseGTFSTime "25:30:00" (1730606400 * Second)
        = some (1730606400 * Second + 25 * Hour + 30 * Minute) ∧
      dayOf exNewYork (1730606400 * Second + 25 * Hour + 30 * Minute) = 20031 ∧
      secondOfDay exNewYork (1730606400 * Second + 25 * Hour + 30 * Minute) = 0 * 3600 + 30 * 60 ∧
      secondOfDay exNewYork (1730606400 * Second + 25 * Hour + 30 * Minute)
        ≠ 1 * 3600 + 30 * 60) := by
  decide

/-! ## Order of the returned lists -/

theorem sortByTime_sorted (ds : List Departure) :
    List.Sorted (fun a b : Departure => a.Time ≤ b.Time) (sortByTime ds) := by
  haveI : IsTotal Departure (fun a b => a.Time ≤ b.Time) := ⟨fun a b => le_total a.Time b.Time⟩
  haveI : IsTrans Departure (fun a b => a.Time ≤ b.Time) :=
    ⟨fun _ _ _ h1 h2 => le_trans h1 h2⟩
  exact List.sorted_insertionSort _ ds

/-- Claim C4.  A list returned by the realtime path (`parseDepartures`) and a
list returned by the static path (`findStopTimes`) are ordered by
non-decreasing time: an element never has a later time than one after it,
and in particular than the next one. -/
theorem departures_sorted [UnicodeCase] (env : Env) (data : List Nat) (now : Time) (r : Archive)
    (validTrips : List (String × tripInfo)) (stopID : String) (routes : List String)
    (direction : String) (T : GoTime) (W : Int) :
    (∀ ds, parseDepartures env data now stopID routes direction = Except.ok ds →
      List.Pairwise (fun a b : Departure => a.Time ≤ b.Time) ds ∧
      List.Chain' (fun a b : Departure => a.Time ≤ b.Time) ds) ∧
    (∀ ds, findStopTimes r validTrips stopID direction T W = Except.ok ds →
      List.Pairwise (fun a b : Departure => a.Time ≤ b.Time) ds ∧
      List.Chain' (fun a b : Departure => a.Time ≤ b.Time) ds) := by
  constructor
  · intro ds h
    unfold parseDepartures at h
    split at h
    · exact absurd h (by simp)
    · simp only [Except.ok.injEq] at h
      subst h
      exact ⟨sortByTime_sorted _, (sortByTime_sorted _).chain'⟩
  · intro ds h
    unfold findStopTimes at h
    split at h
    · exact absurd h (by simp)
    · split at h
      · exact absurd h (by simp)
      · simp only [Except.ok.injEq] at h
        subst h
        exact ⟨sortByTime_sorted _, (sortByTime_sorted _).chain'⟩

/-- Instance of `departures_sorted`: both paths return a list on the sample
data, three departures each, in time order. -/
theorem departures_sorted_witness :
    (parseDepartures exEnv [] (unix 200) "A44" ["A", "C"] "" = Except.ok
        [⟨"A", "N", 200000000000, "A44N"⟩, ⟨"C", "S", 300000000000, "A44S"⟩,
         ⟨"C", "N", 900000000000, "A44N"⟩] ∧
      findStopTimes exArchive exTrips "A44" "" exTarget 10 = Except.ok
        [⟨"C", "N", 35940000000000, "A44"⟩, ⟨"C", "S", 36060000000000, "A44S"⟩,
         ⟨"C", "N", 36300000000000, "A44N"⟩]) ∧
    List.Pairwise (fun a b : Departure => a.Time ≤ b.Time)
      [⟨"A", "N", 200000000000, "A44N"⟩, ⟨"C", "S", 300000000000, "A44S"⟩,
       ⟨"C", "N", 900000000000, "A44N"⟩] ∧
    List.Pairwise (fun a b : Departure => a.Time ≤ b.Time)
      [⟨"C", "N", 35940000000000, "A44"⟩, ⟨"C", "S", 36060000000000, "A44S"⟩,
       ⟨"C", "N", 36300000000000, "A44N"⟩] :=
  ⟨⟨rfl, rfl⟩,
   ((departures_sorted exEnv [] (unix 200) exArchive exTrips "A44" ["A", "C"] "" exTarget 10).1
      _ rfl).1,
   ((departures_sorted exEnv [] (unix 200) exArchive exTrips "A44" ["A", "C"] "" exTarget 10).2
      _ rfl).1⟩

/-! ## The realtime path -/

theorem mem_foldl_setAdd [UnicodeCase] (x : String) :
    ∀ (routes : List String) (acc : List String),
      x ∈ routes.foldl (fun set rt => setAdd set (toUpper rt)) acc ↔
        x ∈ acc ∨ ∃ rt ∈ routes, toUpper rt = x := by
  intro routes
  induction routes with
  | nil => intro acc; simp
  | cons rt rest ih =>
    intro acc
    rw [List.foldl_cons, ih, mem_setAdd]
    constructor
    · rintro ((h | h) | ⟨r2, hr2, h⟩)
      · exact Or.inl h
      · exact Or.inr ⟨rt, List.mem_cons_self _ _, h.symm⟩
      · exact Or.inr ⟨r2, List.mem_cons_of_mem _ hr2, h⟩
    · rintro (h | ⟨r2, hr2, h⟩)
      · exact Or.inl (Or.inl h)
      · rcases List.mem_cons.mp hr2 with e | hr3
        · subst e
          exact Or.inl (Or.inr h.symm)
        · exact Or.inr ⟨r2, hr3, h⟩

/-- The route set holds the upper-cased requested routes. -/
theorem mem_routeSetOf [UnicodeCase] (routes : List String) (x : String) :
    x ∈ routeSetOf routes ↔ ∃ rt ∈ routes, toUpper rt = x := by
  unfold routeSetOf
  rw [mem_foldl_setAdd]
  simp

/-- The route set is empty exactly when no route is requested. -/
theorem routeSetOf_length_pos [UnicodeCase] (routes : List String) :
    0 < (routeSetOf routes).length ↔ routes ≠ [] := by
  rw [List.length_pos]
  constructor
  · intro h e
    subst e
    exact h rfl
  · intro h e
    cases routes with
    | nil => exact h rfl
    | cons rt rest =>
      have : toUpper rt ∈ routeSetOf (rt :: rest) :=
        (mem_routeSetOf _ _).mpr ⟨rt, List.mem_cons_self _ _, rfl⟩
      rw [e] at this
      exact absurd this (List.not_mem_nil _)

theorem stopTimeUpdateStep_time [UnicodeCase] {now : Time} {stopID direction routeID : String}
    {stu : StopTimeUpdate} {d : Departure}
    (h : stopTimeUpdateStep now stopID direction routeID stu = some d) :
    now - Minute ≤ d.Time := by
  unfold stopTimeUpdateStep at h
  split at h
  · exact absurd h (by simp)
  · split at h
    · exact absurd h (by simp)
    · split at h
      · exact absurd h (by simp)
      · rename_i hlt
        simp only [Option.some.injEq] at h
        subst h
        simp only [feedDeparture]
        rw [not_lt] at hlt
        linarith

/-- The second count of `time.Unix` wraps: an update whose time is the largest
64-bit number of seconds stands for an instant long before the epoch, and the
loop of `parseDepartures` drops it. -/
theorem chosenTime_wraps :
    chosenTime ⟨"A44N", some 9223372036854775807, none⟩
      = some (-9223372036854775809 * Second) ∧
    stopTimeUpdateStep (unix 200) "A44" "" "C" ⟨"A44N", some 9223372036854775807, none⟩ = none ∧
    stopTimeUpdateStep (unix 200) "A44" "" "C" ⟨"A44N", some 9223371974719179007, none⟩
      = some ⟨"C", "N", 9223371974719179007 * Second, "A44N"⟩ := by
  decide

/-- Claim C5.  For a feed that decodes, `parseDepartures` returns a list; every
departure in it has a time `t ≥ now - 1 minute`; and a stop-time update of a
trip update that passes the route filter, that matches the stop filter, and
whose chosen time is at or after `now - 1 minute`, has its departure in the
list.  The chosen time is the instant that `time.Unix` makes of the seconds of
the update, with the wrap of its 64-bit second count (`chosenTime_wraps`). -/
theorem parseDepartures_grace [UnicodeCase]
    (env : Env) (data : List Nat) (feed : FeedMessage) (now : Time)
    (stopID : String) (routes : List String) (direction : String)
    (hdecode : env.protoUnmarshal data = Except.ok feed) :
    ∃ ds, parseDepartures env data now stopID routes direction = Except.ok ds ∧
      (∀ d ∈ ds, now - 1 * Minute ≤ d.Time) ∧
      (∀ entity ∈ feed.entity, ∀ tu, entity.tripUpdate = some tu →
        (routes = [] ∨ ∃ rt ∈ routes, toUpper rt = toUpper tu.routeId) →
        ∀ stu ∈ tu.stopTimeUpdate, matchesStop stu.stopId stopID direction = true →
        ∀ t, chosenTime stu = some t → now - 1 * Minute ≤ t →
          feedDeparture tu.routeId stu t ∈ ds) := by
  have hrun : parseDepartures env data now stopID routes direction
      = Except.ok (parseFeed feed now stopID routes direction) := by
    simp only [parseDepartures, hdecode]
  refine ⟨_, hrun, ?_, ?_⟩
  · intro d hd
    rw [parseFeed, mem_sortByTime, List.mem_flatMap] at hd
    obtain ⟨entity, _, hd⟩ := hd
    unfold entityStep at hd
    split at hd
    · exact absurd hd (List.not_mem_nil _)
    · split at hd
      · exact absurd hd (List.not_mem_nil _)
      · rw [List.mem_filterMap] at hd
        obtain ⟨stu, _, hstep⟩ := hd
        have := stopTimeUpdateStep_time hstep
        linarith
  · intro entity hent tu htu hroute stu hstu hmatch t ht hgrace
    rw [parseFeed, mem_sortByTime, List.mem_flatMap]
    refine ⟨entity, hent, ?_⟩
    have hpass : ¬ (0 < (routeSetOf routes).length ∧ toUpper tu.routeId ∉ routeSetOf routes) := by
      rintro ⟨hpos, hnot⟩
      rcases hroute with h | h
      · exact (routeSetOf_length_pos routes).mp hpos h
      · exact hnot ((mem_routeSetOf _ _).mpr h)
    simp only [entityStep, htu, if_neg hpass]
    rw [List.mem_filterMap]
    refine ⟨stu, hstu, ?_⟩
    have hnlt : ¬ (t < now + -1 * Minute) := by
      rw [not_lt]
      linarith
    simp only [stopTimeUpdateStep, hmatch, ht, if_neg hnlt]
    simp

/-- Instance of `parseDepartures_grace` on the sample feed at `now` = 200 s. -/
theorem parseDepartures_grace_witness :
    exEnv.protoUnmarshal [] = Except.ok exFeed ∧
    ∃ ds, parseDepartures exEnv [] (unix 200) "A44" ["A", "C"] "" = Except.ok ds ∧
      (∀ d ∈ ds, unix 200 - 1 * Minute ≤ d.Time) ∧
      (∀ entity ∈ exFeed.entity, ∀ tu, entity.tripUpdate = some tu →
        (["A", "C"] = [] ∨ ∃ rt ∈ ["A", "C"], toUpper rt = toUpper tu.routeId) →
        ∀ stu ∈ tu.stopTimeUpdate, matchesStop stu.stopId "A44" "" = true →
        ∀ t, chosenTime stu = some t → unix 200 - 1 * Minute ≤ t →
          feedDeparture tu.routeId stu t ∈ ds) :=
  ⟨rfl, parseDepartures_grace exEnv [] exFeed (unix 200) "A44" ["A", "C"] "" rfl⟩

/-! ## Resolution of a stop name -/

theorem narrow_Name (route : String) (s : Station) : (narrow route s).Name = s.Name := by
  unfold narrow
  split <;> rfl

/-- Claim C6, for queries that no default stop properly contains.  Let `R` be
the trimmed upper-cased route and `Q` the normalized query, not both empty.
If some catalog stop (serving `R` when `R` is given) has a normalized name
equal to `Q`, and every default stop (serving `R` when `R` is given) whose
normalized name contains `Q` has a normalized name equal to `Q`, then `Lookup`
returns a stop whose normalized name equals `Q`: never one whose name merely
contains the query.  This holds whatever the case tables beyond ASCII, so also
when the query equals the name only after a letter such as U+212A is
lower-cased. -/
theorem Lookup_exact [UnicodeCase] (stations : List Station) (route nameQuery : String)
    (hexact : ∃ s ∈ stations,
      (toUpper (trimSpace route) = "" ∨ containsRoute s.Routes (toUpper (trimSpace route)) = true) ∧
      normalize s.Name = normalize nameQuery)
    (hguard : ¬ (normalize nameQuery = "" ∧ toUpper (trimSpace route) = ""))
    (hdefaults : ∀ d ∈ Defaults,
      (toUpper (trimSpace route) = "" ∨
        containsRoute d.Station.Routes (toUpper (trimSpace route)) = true) →
      strContains (normalize d.Station.Name) (normalize nameQuery) = true →
      normalize d.Station.Name = normalize nameQuery) :
    ∃ st, Lookup stations route nameQuery = Except.ok st ∧
      normalize st.Name = normalize nameQuery := by
  unfold Lookup
  simp only [if_neg hguard]
  cases hfind : Defaults.find? (defaultMatches (toUpper (trimSpace route)) (normalize nameQuery)) with
  | some d =>
    refine ⟨narrow _ d.Station, rfl, ?_⟩
    rw [narrow_Name]
    have hmem := List.mem_of_find?_eq_some hfind
    have hp := List.find?_some hfind
    simp only [defaultMatches, Bool.and_eq_true, Bool.or_eq_true, decide_eq_true_eq] at hp
    rcases hp.1 with h | h
    · exact h
    · exact hdefaults d hmem hp.2 h
  | none =>
    obtain ⟨s, hs, hroute, hname⟩ := hexact
    have hmem : narrow (toUpper (trimSpace route)) s ∈
        exactMatches stations (toUpper (trimSpace route)) (normalize nameQuery) := by
      unfold exactMatches
      rw [List.mem_filterMap]
      refine ⟨s, hs, ?_⟩
      have hskip : ¬ (toUpper (trimSpace route) ≠ "" ∧
          (!containsRoute s.Routes (toUpper (trimSpace route))) = true) := by
        rintro ⟨h1, h2⟩
        rcases hroute with h | h
        · exact h1 h
        · simp [h] at h2
      rw [if_neg hskip, if_pos hname]
    cases hex : exactMatches stations (toUpper (trimSpace route)) (normalize nameQuery) with
    | nil =>
      rw [hex] at hmem
      exact absurd hmem (List.not_mem_nil _)
    | cons m rest =>
      refine ⟨m, rfl, ?_⟩
      have hm : m ∈ exactMatches stations (toUpper (trimSpace route)) (normalize nameQuery) := by
        rw [hex]
        exact List.mem_cons_self _ _
      unfold exactMatches at hm
      rw [List.mem_filterMap] at hm
      obtain ⟨s2, _, h2⟩ := hm
      split at h2
      · exact absurd h2 (by simp)
      · split at h2
        · rename_i hn
          simp only [Option.some.injEq] at h2
          rw [← h2, narrow_Name]
          exact hn
        · exact absurd h2 (by simp)

/-- Instance of `Lookup_exact`: on the sample catalog, route `L` and the query
`Atlantic Av` give the stop of that name. -/
theorem Lookup_exact_witness :
    ∃ st, Lookup exCatalog "l" "Atlantic Av" = Except.ok st ∧
      normalize st.Name = normalize "Atlantic Av" :=
  Lookup_exact exCatalog "l" "Atlantic Av"
    ⟨⟨"L24", "Atlantic Av", ["L"], "Manhattan", "Canarsie", "Canarsie", "Bk", "L"⟩,
      by decide, by decide, by decide⟩
    (by decide) (by decide)

/-- Claim C6 as stated fails in two ways.  With no route, the catalog stop
`Atlantic Av` has a normalized name equal to the query `Atlantic Av`, and yet
`Lookup` returns the default stop `Atlantic Av-Barclays Ctr`, whose normalized
name properly contains the query.  And with no route and a query that
normalizes to the empty string, `Lookup` returns an error even when a catalog
stop has the empty normalized name. -/
theorem Lookup_exact_counterexample :
    ((∃ s ∈ exCatalog, normalize s.Name = normalize "Atlantic Av") ∧
      ∃ st, Lookup exCatalog "" "Atlantic Av" = Except.ok st ∧
        st.Name = "Atlantic Av-Barclays Ctr" ∧
        normalize st.Name ≠ normalize "Atlantic Av" ∧
        strContains (normalize st.Name) (normalize "Atlantic Av") = true) ∧
    ((∃ s ∈ [(⟨"X01", "-", ["L"], "", "", "", "", "L"⟩ : Station)],
        normalize s.Name = normalize "--") ∧
      Lookup [⟨"X01", "-", ["L"], "", "", "", "", "L"⟩] "" "--"
        = Except.error "no station or line specified") := by
  refine ⟨⟨?_, ?_⟩, ?_, ?_⟩
  · exact ⟨⟨"L24", "Atlantic Av", ["L"], "Manhattan", "Canarsie", "Canarsie", "Bk", "L"⟩,
      by decide, by decide⟩
  · exact ⟨_, rfl, by decide, by decide, by decide⟩
  · exact ⟨_, List.mem_singleton_self _, by decide⟩
  · rfl

/-! ## The fallback between the two datasets -/

theorem getFromGTFS_note [UnicodeCase]
    {env : Env} {url filename : String} {ttl : Int} {stopID : String}
    {routes : List String} {direction : String} {T : GoTime} {W : Int}
    {deps : List Departure} {note : String}
    (h : getFromGTFS env url filename ttl stopID routes direction T W = Except.ok (deps, note)) :
    note = if strContains filename "supplemented" then "Supplemented GTFS" else "Regular GTFS" := by
  unfold getFromGTFS at h
  split at h
  · exact absurd h (by simp)
  · split at h
    · exact absurd h (by simp)
    · simp only [Except.ok.injEq, Prod.mk.injEq] at h
      exact h.2.symm

theorem supplementedLookup_note [UnicodeCase] {env : Env} {stopID : String} {routes : List String}
    {direction : String} {T : GoTime} {W : Int} {deps : List Departure} {note : String}
    (h : supplementedLookup env stopID routes direction T W = Except.ok (deps, note)) :
    note = "Supplemented GTFS" := by
  have := getFromGTFS_note h
  rw [this]
  decide

theorem regularLookup_note [UnicodeCase] {env : Env} {stopID : String} {routes : List String}
    {direction : String} {T : GoTime} {W : Int} {deps : List Departure} {note : String}
    (h : regularLookup env stopID routes direction T W = Except.ok (deps, note)) :
    note = "Regular GTFS" := by
  have := getFromGTFS_note h
  rw [this]
  decide

theorem scheduledFromRegular_ok [UnicodeCase] {env : Env} {stopID : String} {routes : List String}
    {direction : String} {T : GoTime} {W : Int} {deps : List Departure} {note : String}
    (h : regularLookup env stopID routes direction T W = Except.ok (deps, note)) :
    scheduledFromRegular env stopID routes direction T W = Except.ok (deps, "Regular GTFS") := by
  have hn := regularLookup_note h
  subst hn
  simp only [scheduledFromRegular, h]

theorem scheduledFromRegular_error [UnicodeCase]
    {env : Env} {stopID : String} {routes : List String}
    {direction : String} {T : GoTime} {W : Int} {e : String}
    (h : regularLookup env stopID routes direction T W = Except.error e) :
    scheduledFromRegular env stopID routes direction T W
      = Except.error ("fetching schedule: " ++ e) := by
  simp only [scheduledFromRegular, h]

/-- When the supplemented lookup does not succeed with a departure,
`GetScheduledDepartures` is the regular half. -/
theorem GetScheduledDepartures_fallback [UnicodeCase]
    {env : Env} {stopID : String} {routes : List String}
    {direction : String} {T : GoTime} {W : Int}
    (h : ¬ ∃ deps note, supplementedLookup env stopID routes direction T W
      = Except.ok (deps, note) ∧ deps ≠ []) :
    GetScheduledDepartures env stopID routes direction T W
      = scheduledFromRegular env stopID routes direction T W := by
  unfold GetScheduledDepartures
  split
  · rename_i deps note hsup
    have hlen : ¬ 0 < deps.length := by
      intro hpos
      exact h ⟨deps, note, hsup, List.length_pos.mp hpos⟩
    rw [if_neg hlen]
  · rfl

/-- Claim C7.  (1) If the supplemented lookup succeeds with at least one
departure, `GetScheduledDepartures` returns these departures with the note
`"Supplemented GTFS"`.  (2) In every other case it returns what the regular
lookup gives: its departures with the note `"Regular GTFS"` when that lookup
succeeds, an error when it fails.  (3) So the note `"Supplemented GTFS"` comes
back exactly when the supplemented lookup succeeded with a departure, and
(4) an error comes back exactly when the supplemented lookup did not and the
regular lookup failed. -/
theorem GetScheduledDepartures_policy [UnicodeCase]
    (env : Env) (stopID : String) (routes : List String)
    (direction : String) (T : GoTime) (W : Int) :
    (∀ deps note, supplementedLookup env stopID routes direction T W = Except.ok (deps, note) →
      deps ≠ [] →
      GetScheduledDepartures env stopID routes direction T W
        = Except.ok (deps, "Supplemented GTFS")) ∧
    ((¬ ∃ deps note, supplementedLookup env stopID routes direction T W
        = Except.ok (deps, note) ∧ deps ≠ []) →
      (∀ deps note, regularLookup env stopID routes direction T W = Except.ok (deps, note) →
        GetScheduledDepartures env stopID routes direction T W
          = Except.ok (deps, "Regular GTFS")) ∧
      (∀ e, regularLookup env stopID routes direction T W = Except.error e →
        ∃ e2, GetScheduledDepartures env stopID routes direction T W = Except.error e2)) ∧
    (∀ deps, GetScheduledDepartures env stopID routes direction T W
        = Except.ok (deps, "Supplemented GTFS") ↔
      (supplementedLookup env stopID routes direction T W
        = Except.ok (deps, "Supplemented GTFS") ∧ deps ≠ [])) ∧
    ((∃ e, GetScheduledDepartures env stopID routes direction T W = Except.error e) ↔
      ((¬ ∃ deps note, supplementedLookup env stopID routes direction T W
          = Except.ok (deps, note) ∧ deps ≠ []) ∧
        ∃ e, regularLookup env stopID routes direction T W = Except.error e)) := by
  have hA : ∀ deps note,
      supplementedLookup env stopID routes direction T W = Except.ok (deps, note) →
      deps ≠ [] →
      GetScheduledDepartures env stopID routes direction T W
        = Except.ok (deps, "Supplemented GTFS") := by
    intro deps note hsup hne
    have hn := supplementedLookup_note hsup
    subst hn
    have hpos : 0 < deps.length := List.length_pos.mpr hne
    simp only [GetScheduledDepartures, hsup, if_pos hpos]
  have hreg : ∀ x, scheduledFromRegular env stopID routes direction T W = x →
      (∃ deps, x = Except.ok (deps, "Regular GTFS") ∧
        regularLookup env stopID routes direction T W = Except.ok (deps, "Regular GTFS")) ∨
      (∃ e, x = Except.error ("fetching schedule: " ++ e) ∧
        regularLookup env stopID routes direction T W = Except.error e) := by
    intro x hx
    cases hr : regularLookup env stopID routes direction T W with
    | error e =>
      right
      exact ⟨e, by rw [← hx, scheduledFromRegular_error hr], rfl⟩
    | ok p =>
      obtain ⟨deps, note⟩ := p
      have hn := regularLookup_note hr
      subst hn
      left
      exact ⟨deps, by rw [← hx, scheduledFromRegular_ok hr], rfl⟩
  refine ⟨hA, ?_, ?_, ?_⟩
  · intro hno
    rw [GetScheduledDepartures_fallback hno]
    constructor
    · intro deps note hr
      exact scheduledFromRegular_ok hr
    · intro e hr
      exact ⟨_, scheduledFromRegular_error hr⟩
  · intro deps
    constructor
    · intro hres
      by_cases hsup : ∃ deps note, supplementedLookup env stopID routes direction T W
          = Except.ok (deps, note) ∧ deps ≠ []
      · obtain ⟨d2, n2, h2, hne⟩ := hsup
        have hn := supplementedLookup_note h2
        subst hn
        have := hA d2 _ h2 hne
        rw [this] at hres
        simp only [Except.ok.injEq, Prod.mk.injEq, and_true] at hres
        subst hres
        exact ⟨h2, hne⟩
      · rw [GetScheduledDepartures_fallback hsup] at hres
        rcases hreg _ hres with ⟨d2, h2, _⟩ | ⟨e, h2, _⟩
        · simp only [Except.ok.injEq, Prod.mk.injEq] at h2
          exact absurd h2.2 (by decide)
        · exact absurd h2 (by simp)
    · rintro ⟨hsup, hne⟩
      exact hA deps _ hsup hne
  · constructor
    · rintro ⟨e, hres⟩
      by_cases hsup : ∃ deps note, supplementedLookup env stopID routes direction T W
          = Except.ok (deps, note) ∧ deps ≠ []
      · obtain ⟨d2, n2, h2, hne⟩ := hsup
        rw [hA d2 n2 h2 hne] at hres
        exact absurd hres (by simp)
      · refine ⟨hsup, ?_⟩
        rw [GetScheduledDepartures_fallback hsup] at hres
        rcases hreg _ hres with ⟨d2, h2, _⟩ | ⟨e2, _, h3⟩
        · exact absurd h2 (by simp)
        · exact ⟨e2, h3⟩
    · rintro ⟨hsup, e, hr⟩
      rw [GetScheduledDepartures_fallback hsup]
      exact ⟨_, scheduledFromRegular_error hr⟩

/-- Instance of `GetScheduledDepartures_policy`: where the supplemented dataset
has no running service and the regular one has, the regular departures come
back with the note `"Regular GTFS"`; where the supplemented dataset has
departures, they come back with the note `"Supplemented GTFS"`. -/
theorem GetScheduledDepartures_policy_witness :
    supplementedLookup exEnvRegular "A44" ["c"] "" exTarget 10
      = Except.ok ([], "Supplemented GTFS") ∧
    GetScheduledDepartures exEnvRegular "A44" ["c"] "" exTarget 10
      = Except.ok ([⟨"C", "N", 35940000000000, "A44"⟩, ⟨"C", "S", 36060000000000, "A44S"⟩,
          ⟨"C", "N", 36300000000000, "A44N"⟩], "Regular GTFS") ∧
    GetScheduledDepartures exEnvSupplemented "A44" ["c"] "" exTarget 10
      = Except.ok ([⟨"C", "N", 35940000000000, "A44"⟩, ⟨"C", "S", 36060000000000, "A44S"⟩,
          ⟨"C", "N", 36300000000000, "A44N"⟩], "Supplemented GTFS") :=
  ⟨rfl,
   ((GetScheduledDepartures_policy exEnvRegular "A44" ["c"] "" exTarget 10).2.1
      (by
        rintro ⟨deps, note, h, hne⟩
        have e : supplementedLookup exEnvRegular "A44" ["c"] "" exTarget 10
            = Except.ok ([], "Supplemented GTFS") := rfl
        rw [e] at h
        simp only [Except.ok.injEq, Prod.mk.injEq] at h
        exact hne h.1.symm)).1 _ "Regular GTFS" rfl,
   (GetScheduledDepartures_policy exEnvSupplemented "A44" ["c"] "" exTarget 10).1 _
      "Supplemented GTFS" rfl (by simp)⟩

/-! ## The per-stop decision of the fallback mode -/

theorem fetchStep_calls [UnicodeCase] (env : Env) (stopID direction : String)
    (acc : List Departure × List Call) (entry : String × List String) :
    (fetchStep env stopID direction acc entry).2
      = acc.2 ++ [Call.fetch entry.1 stopID entry.2 direction] := by
  unfold fetchStep
  split <;> rfl

/-- The calls made while gathering the realtime departures: one call to
`FetchDepartures` per entry of the map, in the order of the walk. -/
theorem foldl_fetchStep_calls [UnicodeCase] (env : Env) (stopID direction : String) :
    ∀ (entries : List (String × List String)) (acc : List Departure × List Call),
      (entries.foldl (fetchStep env stopID direction) acc).2
        = acc.2 ++ entries.map (fun e => Call.fetch e.1 stopID e.2 direction) := by
  intro entries
  induction entries with
  | nil => intro acc; simp
  | cons e rest ih =>
    intro acc
    rw [List.foldl_cons, ih, fetchStep_calls]
    simp

theorem gatherRealtime_calls [UnicodeCase] (env : Env) (q : stationQuery) (direction : String) :
    (gatherRealtime env q direction).2
      = (env.rangeOrder (FeedURLsForRoutes q.routes)).map
          (fun e => Call.fetch e.1 q.stopID e.2 direction) := by
  unfold gatherRealtime
  rw [foldl_fetchStep_calls]
  simp

theorem fallbackFrom_getElem? [UnicodeCase] (world : Nat → Env) (T : GoTime) (direction : String)
    (window : Int) :
    ∀ (queries : List stationQuery) (k i : Nat),
      (fallbackFrom world T direction window k queries)[i]?
        = (queries[i]?).map (fun q => fallbackStop (world (k + i)) q T direction window) := by
  intro queries
  induction queries with
  | nil => intro k i; simp [fallbackFrom]
  | cons q rest ih =>
    intro k i
    cases i with
    | zero => simp [fallbackFrom]
    | succ j =>
      simp only [fallbackFrom, List.getElem?_cons_succ]
      rw [ih (k + 1) j]
      have e : k + 1 + j = k + (j + 1) := by omega
      rw [e]

/-- Claim C8.  For the stop at index `i` of the queries, with `filtered` the
realtime departures that survive the window filter: if `filtered` is not
empty, the result holds exactly `filtered`, carries the tag `"realtime"` and
no note, and no call to the static resolver is made for that stop; otherwise
the result carries the tag `"scheduled"`, and it holds the departures and the
note of the static resolver when that succeeds, and no departure when it
fails. -/
theorem fallback_per_stop [UnicodeCase]
    (world : Nat → Env) (queries : List stationQuery) (T : GoTime)
    (now : Time) (direction : String) (window : Int) (i : Nat) (q : stationQuery)
    (hq : queries[i]? = some q) :
    ∃ res calls,
      (fallbackFrom world T direction window 0 queries)[i]? = some (res, calls) ∧
      (fetchWithScheduleFallback world queries T now direction window)[i]? = some res ∧
      (windowFilter T (effectiveWindow window) (gatherRealtime (world i) q direction).1 ≠ [] →
        res.Departures
          = windowFilter T (effectiveWindow window) (gatherRealtime (world i) q direction).1 ∧
        res.Source = "realtime" ∧ res.SourceNote = "" ∧
        ∀ c ∈ calls, c.isSchedule = false) ∧
      (windowFilter T (effectiveWindow window) (gatherRealtime (world i) q direction).1 = [] →
        res.Source = "scheduled" ∧
        Call.schedule q.stopID q.routes direction T (effectiveWindow window) ∈ calls ∧
        (∀ deps note, GetScheduledDepartures (world i) q.stopID q.routes direction T
            (effectiveWindow window) = Except.ok (deps, note) →
          res.Departures = deps ∧ res.SourceNote = note) ∧
        (∀ e, GetScheduledDepartures (world i) q.stopID q.routes direction T
            (effectiveWindow window) = Except.error e →
          res.Departures = [])) := by
  have hidx : (fallbackFrom world T direction window 0 queries)[i]?
      = some (fallbackStop (world i) q T direction window) := by
    rw [fallbackFrom_getElem?, hq]
    simp
  refine ⟨(fallbackStop (world i) q T direction window).1,
    (fallbackStop (world i) q T direction window).2, hidx, ?_, ?_, ?_⟩
  · unfold fetchWithScheduleFallback
    rw [List.getElem?_map, hidx]
    rfl
  · intro hne
    have hpos : 0 < (windowFilter T (effectiveWindow window)
        (gatherRealtime (world i) q direction).1).length := List.length_pos.mpr hne
    simp only [fallbackStop, if_pos hpos, true_and]
    intro c hc
    rw [gatherRealtime_calls, List.mem_map] at hc
    obtain ⟨e, _, he⟩ := hc
    rw [← he]
    rfl
  · intro hnil
    have hpos : ¬ 0 < (windowFilter T (effectiveWindow window)
        (gatherRealtime (world i) q direction).1).length := by
      rw [hnil]
      exact Nat.lt_irrefl 0
    simp only [fallbackStop, if_neg hpos]
    cases hs : GetScheduledDepartures (world i) q.stopID q.routes direction T
        (effectiveWindow window) with
    | error e => simp
    | ok p =>
      obtain ⟨deps, note⟩ := p
      simp

/-- Instance of `fallback_per_stop`: with live departures around the target
the first sample stop is answered from the feed, without a call to the static
resolver. -/
theorem fallback_per_stop_witness :
    exQueries[0]? = some ⟨"Clinton-Washington Avs", "A44", ["C", "a"], "Manhattan-bound",
      "Euclid Av-bound"⟩ ∧
    ∃ res calls,
      (fallbackFrom (fun _ => exEnvLive) exSoon "" 0 0 exQueries)[0]? = some (res, calls) ∧
      res.Source = "realtime" ∧ res.SourceNote = "" ∧ (∀ c ∈ calls, c.isSchedule = false) ∧
      res.Departures = [⟨"A", "N", 200000000000, "A44N"⟩, ⟨"C", "S", 300000000000, "A44S"⟩,
        ⟨"C", "N", 900000000000, "A44N"⟩] := by
  refine ⟨rfl, ?_⟩
  obtain ⟨res, calls, h1, _, h3, _⟩ :=
    fallback_per_stop (fun _ => exEnvLive) exQueries exSoon 0 "" 0 0
      ⟨"Clinton-Washington Avs", "A44", ["C", "a"], "Manhattan-bound", "Euclid Av-bound"⟩ rfl
  have hf : windowFilter exSoon (effectiveWindow 0) (gatherRealtime exEnvLive
      ⟨"Clinton-Washington Avs", "A44", ["C", "a"], "Manhattan-bound", "Euclid Av-bound"⟩ "").1
      = [⟨"A", "N", 200000000000, "A44N"⟩, ⟨"C", "S", 300000000000, "A44S"⟩,
        ⟨"C", "N", 900000000000, "A44N"⟩] := by rfl
  have h := h3 (by rw [hf]; exact List.cons_ne_nil _ _)
  exact ⟨res, calls, h1, h.2.1, h.2.2.1, h.2.2.2, by rw [h.1, hf]⟩

/-! ## One result per stop, in the order of the queries -/

/-- The receiving loop of `fetchRealtime` keeps the length of the results. -/
theorem receive_length [UnicodeCase]
    (world : Nat → Env) (queries : List stationQuery) (direction : String) :
    ∀ (order : List Nat) (results : List StationResult),
      (order.foldl (fun results idx =>
        match queries[idx]? with
        | some q => results.set idx (realtimeTask (world idx) q direction).1
        | none => results) results).length = results.length := by
  intro order
  induction order with
  | nil => intro results; rfl
  | cons idx rest ih =>
    intro results
    rw [List.foldl_cons, ih]
    split
    · rw [List.length_set]
    · rfl

/-- After the receiving loop of `fetchRealtime`, the slot of a stop whose task
has sent holds the result of that task, and any other slot is as before. -/
theorem receive_getElem? [UnicodeCase]
    (world : Nat → Env) (queries : List stationQuery) (direction : String)
    (i : Nat) (q : stationQuery) (hq : queries[i]? = some q) :
    ∀ (order : List Nat) (results : List StationResult), i < results.length →
      (order.foldl (fun results idx =>
        match queries[idx]? with
        | some q => results.set idx (realtimeTask (world idx) q direction).1
        | none => results) results)[i]?
        = if i ∈ order then some (realtimeTask (world i) q direction).1 else results[i]? := by
  intro order
  induction order with
  | nil => intro results _; simp
  | cons idx rest ih =>
    intro results hlen
    rw [List.foldl_cons]
    by_cases hi : idx = i
    · subst hi
      rw [hq]
      simp only
      rw [ih _ (by rw [List.length_set]; exact hlen)]
      simp only [List.mem_cons, true_or, if_true]
      split
      · rfl
      · rw [List.getElem?_set_self hlen]
    · have hstep : ∀ r2 : List StationResult, r2.length = results.length →
          r2[i]? = results[i]? →
          (rest.foldl (fun results idx =>
            match queries[idx]? with
            | some q => results.set idx (realtimeTask (world idx) q direction).1
            | none => results) r2)[i]?
          = if i ∈ idx :: rest then some (realtimeTask (world i) q direction).1
            else results[i]? := by
        intro r2 hl he
        rw [ih r2 (by rw [hl]; exact hlen), he]
        have : (i ∈ idx :: rest) ↔ i ∈ rest := by
          simp only [List.mem_cons]
          constructor
          · rintro (h | h)
            · exact absurd h.symm hi
            · exact h
          · exact Or.inr
        simp only [this]
      split
      · apply hstep
        · rw [List.length_set]
        · rw [List.getElem?_set_ne hi]
      · exact hstep results rfl rfl

/-- Claim C9.  For every list of stop queries, `fetchRealtime` (whatever the
order `order` in which the tasks complete, a rearrangement of the indices) and
`fetchWithScheduleFallback` return a list of the length of the input, whose
`i`-th result carries the station name, stop id, routes and direction labels
of the `i`-th query: whatever the environment answers, feed failures
included.  The list `fetchRealtime` returns is the same for every order. -/
theorem results_in_input_order [UnicodeCase]
    (world : Nat → Env) (queries : List stationQuery) (T : GoTime)
    (now : Time) (direction : String) (window : Int) (order : List Nat)
    (horder : order.Perm (List.range queries.length)) :
    ((fetchRealtime world queries now direction order).length = queries.length ∧
      (∀ (i : Nat) (q : stationQuery), queries[i]? = some q →
        ∃ res : StationResult, (fetchRealtime world queries now direction order)[i]? = some res ∧
          res.StationName = q.name ∧ res.StopID = q.stopID ∧ res.Routes = q.routes ∧
          res.NorthLabel = q.northLabel ∧ res.SouthLabel = q.southLabel) ∧
      fetchRealtime world queries now direction order
        = fetchRealtime world queries now direction (List.range queries.length)) ∧
    ((fetchWithScheduleFallback world queries T now direction window).length = queries.length ∧
      (∀ (i : Nat) (q : stationQuery), queries[i]? = some q →
        ∃ res : StationResult, (fetchWithScheduleFallback world queries T now direction window)[i]? = some res ∧
          res.StationName = q.name ∧ res.StopID = q.stopID ∧ res.Routes = q.routes ∧
          res.NorthLabel = q.northLabel ∧ res.SouthLabel = q.southLabel)) := by
  have hlen : ∀ order2 : List Nat,
      (fetchRealtime world queries now direction order2).length = queries.length := by
    intro order2
    unfold fetchRealtime
    rw [receive_length, List.length_replicate]
  have hget : ∀ order2 : List Nat, order2.Perm (List.range queries.length) →
      ∀ i q, queries[i]? = some q →
        (fetchRealtime world queries now direction order2)[i]?
          = some (realtimeTask (world i) q direction).1 := by
    intro order2 hperm i q hq
    have hi : i < queries.length := by
      rcases Nat.lt_or_ge i queries.length with h | h
      · exact h
      · rw [List.getElem?_eq_none h] at hq
        exact absurd hq (by simp)
    unfold fetchRealtime
    rw [receive_getElem? world queries direction i q hq _ _
      (by rw [List.length_replicate]; exact hi)]
    rw [if_pos (hperm.mem_iff.mpr (List.mem_range.mpr hi))]
  refine ⟨⟨hlen order, ?_, ?_⟩, ?_, ?_⟩
  · intro i q hq
    exact ⟨_, hget order horder i q hq, rfl, rfl, rfl, rfl, rfl⟩
  · apply List.ext_getElem?
    intro i
    rcases Nat.lt_or_ge i queries.length with h | h
    · have hq : queries[i]? = some queries[i] := List.getElem?_eq_getElem h
      rw [hget order horder i _ hq, hget _ (List.Perm.refl _) i _ hq]
    · rw [List.getElem?_eq_none (by rw [hlen]; exact h),
        List.getElem?_eq_none (by rw [hlen]; exact h)]
  · unfold fetchWithScheduleFallback
    rw [List.length_map]
    have : ∀ (qs : List stationQuery) (k : Nat),
        (fallbackFrom world T direction window k qs).length = qs.length := by
      intro qs
      induction qs with
      | nil => intro k; rfl
      | cons q rest ih => intro k; simp [fallbackFrom, ih]
    exact this queries 0
  · intro i q hq
    refine ⟨(fallbackStop (world i) q T direction window).1, ?_, ?_⟩
    · unfold fetchWithScheduleFallback
      rw [List.getElem?_map, fallbackFrom_getElem?, hq]
      simp
    · unfold fallbackStop
      simp only
      split
      · exact ⟨rfl, rfl, rfl, rfl, rfl⟩
      · split <;> exact ⟨rfl, rfl, rfl, rfl, rfl⟩

/-- Instance of `results_in_input_order`: the second sample task completes
first, and the first result is still the one of the first query. -/
theorem results_in_input_order_witness :
    [1, 0].Perm (List.range exQueries.length) ∧
    (fetchRealtime (fun _ => exEnvLive) exQueries 0 "" [1, 0]).length = 2 ∧
    fetchRealtime (fun _ => exEnvLive) exQueries 0 "" [1, 0]
      = fetchRealtime (fun _ => exEnvLive) exQueries 0 "" [0, 1] ∧
    (fetchWithScheduleFallback (fun _ => exEnvLive) exQueries exSoon 0 "" 0).length = 2 :=
  have hp : [1, 0].Perm (List.range exQueries.length) := by decide
  ⟨hp,
   (results_in_input_order (fun _ => exEnvLive) exQueries exSoon 0 "" 0 [1, 0] hp).1.1,
   (results_in_input_order (fun _ => exEnvLive) exQueries exSoon 0 "" 0 [1, 0] hp).1.2.2,
   (results_in_input_order (fun _ => exEnvLive) exQueries exSoon 0 "" 0 [1, 0] hp).2.1⟩

/-! ## One fetch per feed endpoint -/

section MapLemmas

variable {β : Type}

theorem mapGet_mapSet (m : List (String × β)) (k k2 : String) (v : β) :
    mapGet (mapSet m k v) k2 = if k = k2 then some v else mapGet m k2 := by
  induction m with
  | nil =>
    simp only [mapSet, mapGet]
  | cons p rest ih =>
    obtain ⟨k1, v1⟩ := p
    simp only [mapSet]
    by_cases h1 : k1 = k
    · subst h1
      simp only [if_true, mapGet]
      split <;> rfl
    · simp only [if_neg h1, mapGet, ih]
      by_cases h2 : k1 = k2
      · subst h2
        simp only [if_true, if_neg (Ne.symm h1)]
      · simp only [if_neg h2]

theorem mem_keys_iff (m : List (String × β)) (k : String) :
    k ∈ m.map Prod.fst ↔ mapGet m k ≠ none := by
  induction m with
  | nil => simp [mapGet]
  | cons p rest ih =>
    obtain ⟨k1, v1⟩ := p
    simp only [List.map_cons, List.mem_cons, mapGet]
    by_cases h : k1 = k
    · subst h
      simp
    · simp only [if_neg h, ← ih]
      constructor
      · rintro (e | e)
        · exact absurd e.symm h
        · exact e
      · exact Or.inr

theorem keys_mapSet (m : List (String × β)) (k : String) (v : β) :
    (mapSet m k v).map Prod.fst
      = if k ∈ m.map Prod.fst then m.map Prod.fst else m.map Prod.fst ++ [k] := by
  induction m with
  | nil => simp [mapSet]
  | cons p rest ih =>
    obtain ⟨k1, v1⟩ := p
    simp only [mapSet]
    by_cases h1 : k1 = k
    · subst h1
      simp
    · simp only [if_neg h1, List.map_cons, ih, List.mem_cons]
      have h2 : ¬ k = k1 := fun e => h1 e.symm
      by_cases h3 : k ∈ rest.map Prod.fst
      · simp [h3]
      · simp [h3, h2]

theorem nodup_keys_mapSet (m : List (String × β)) (k : String) (v : β)
    (h : (m.map Prod.fst).Nodup) : ((mapSet m k v).map Prod.fst).Nodup := by
  rw [keys_mapSet]
  split
  · exact h
  · rename_i hk
    rw [List.nodup_append]
    refine ⟨h, List.nodup_singleton _, ?_⟩
    intro a ha hb
    rw [List.mem_singleton] at hb
    subst hb
    exact hk ha

/-- In a map, the entries with a given key are the one entry of that key. -/
theorem filter_key_eq (m : List (String × β)) (k : String) (v : β)
    (hn : (m.map Prod.fst).Nodup) (hg : mapGet m k = some v) :
    m.filter (fun e => decide (e.1 = k)) = [(k, v)] := by
  induction m with
  | nil => simp [mapGet] at hg
  | cons p rest ih =>
    obtain ⟨k1, v1⟩ := p
    simp only [List.map_cons, List.nodup_cons] at hn
    by_cases h : k1 = k
    · subst h
      simp only [mapGet, if_true, Option.some.injEq] at hg
      subst hg
      rw [List.filter_cons_of_pos (by simp)]
      congr 1
      rw [List.filter_eq_nil_iff]
      intro e he
      simp only [decide_eq_true_eq]
      intro hk
      apply hn.1
      rw [← hk]
      exact List.mem_map_of_mem _ he
    · simp only [mapGet, if_neg h] at hg
      rw [List.filter_cons_of_neg (by simpa using h)]
      exact ih hn.2 hg

end MapLemmas

theorem mapGet_feedURLStep [UnicodeCase] (m : List (String × List String)) (r url : String) :
    mapGet (feedURLStep m r) url
      = if FeedURL r = Except.ok url then some ((mapGet m url).getD [] ++ [r])
        else mapGet m url := by
  unfold feedURLStep
  cases h : FeedURL r with
  | error e => simp
  | ok u =>
    simp only [mapGet_mapSet, Except.ok.injEq]
    by_cases hu : u = url
    · subst hu
      simp
    · simp [hu]

/-- The value that the loop of `FeedURLsForRoutes` leaves for a URL. -/
theorem mapGet_foldl_feedURLStep [UnicodeCase] (url : String) :
    ∀ (routes : List String) (m : List (String × List String)),
      mapGet (routes.foldl feedURLStep m) url
        = if routesOfURL routes url = [] then mapGet m url
          else some ((mapGet m url).getD [] ++ routesOfURL routes url) := by
  intro routes
  induction routes with
  | nil => intro m; simp [routesOfURL]
  | cons r rest ih =>
    intro m
    rw [List.foldl_cons, ih, mapGet_feedURLStep]
    unfold routesOfURL
    by_cases h : FeedURL r = Except.ok url
    · rw [List.filter_cons_of_pos (by simpa using h)]
      simp only [if_pos h, Option.getD_some, List.append_assoc, List.singleton_append]
      split
      · rename_i hnil
        rw [hnil]
        simp
      · simp
    · rw [List.filter_cons_of_neg (by simpa using h)]
      simp only [if_neg h]

theorem nodup_keys_foldl_feedURLStep [UnicodeCase] :
    ∀ (routes : List String) (m : List (String × List String)),
      (m.map Prod.fst).Nodup → ((routes.foldl feedURLStep m).map Prod.fst).Nodup := by
  intro routes
  induction routes with
  | nil => intro m h; exact h
  | cons r rest ih =>
    intro m h
    rw [List.foldl_cons]
    apply ih
    unfold feedURLStep
    split
    · exact h
    · exact nodup_keys_mapSet _ _ _ h

theorem routesOfURL_ne_nil_iff [UnicodeCase] (routes : List String) (url : String) :
    routesOfURL routes url ≠ [] ↔ ∃ r ∈ routes, FeedURL r = Except.ok url := by
  unfold routesOfURL
  rw [Ne, List.filter_eq_nil_iff]
  simp

/-- Claim C10.  For the routes of a stop query: (1) no URL is the key of two
entries of the map that `FeedURLsForRoutes` returns; (2) the keys are exactly
the feed URLs of the routes of the list that are known; (3) the value under a
key is the list of all input routes that map to that URL, in input order;
(4) a route is known, with a given URL, exactly when its upper-cased form is a
key of `feedURLs` with that URL; and (5) of the calls the orchestrator makes
for the stop, exactly one goes to each such URL, and it carries all the routes
of that URL.  Upper-casing is `strings.ToUpper`, whatever the case tables
beyond ASCII. -/
theorem FeedURLsForRoutes_dedup [UnicodeCase] (env : Env) (q : stationQuery) (direction : String) :
    ((FeedURLsForRoutes q.routes).map Prod.fst).Nodup ∧
    (∀ url, url ∈ (FeedURLsForRoutes q.routes).map Prod.fst ↔
      ∃ r ∈ q.routes, FeedURL r = Except.ok url) ∧
    (∀ url, (∃ r ∈ q.routes, FeedURL r = Except.ok url) →
      mapGet (FeedURLsForRoutes q.routes) url = some (routesOfURL q.routes url)) ∧
    (∀ r url, FeedURL r = Except.ok url ↔ mapGet feedURLs (toUpper r) = some url) ∧
    (∀ url, (∃ r ∈ q.routes, FeedURL r = Except.ok url) →
      (gatherRealtime env q direction).2.filter (fun c => decide (c.url = some url))
        = [Call.fetch url q.stopID (routesOfURL q.routes url) direction]) := by
  have hnodup : ((FeedURLsForRoutes q.routes).map Prod.fst).Nodup :=
    nodup_keys_foldl_feedURLStep q.routes [] List.nodup_nil
  have hget : ∀ url, mapGet (FeedURLsForRoutes q.routes) url
      = if routesOfURL q.routes url = [] then none else some (routesOfURL q.routes url) := by
    intro url
    unfold FeedURLsForRoutes
    rw [mapGet_foldl_feedURLStep]
    simp [mapGet]
  have hval : ∀ url, (∃ r ∈ q.routes, FeedURL r = Except.ok url) →
      mapGet (FeedURLsForRoutes q.routes) url = some (routesOfURL q.routes url) := by
    intro url hex
    rw [hget, if_neg ((routesOfURL_ne_nil_iff _ _).mpr hex)]
  refine ⟨hnodup, ?_, hval, ?_, ?_⟩
  · intro url
    rw [mem_keys_iff, hget, ← routesOfURL_ne_nil_iff]
    split
    · rename_i h
      simp [h]
    · rename_i h
      simp [h]
  · intro r url
    unfold FeedURL
    split
    · rename_i u hu
      rw [hu]
      simp
    · rename_i hu
      rw [hu]
      simp
  · intro url hex
    rw [gatherRealtime_calls, List.filter_map]
    have hperm := env.rangeOrder_perm (FeedURLsForRoutes q.routes)
    have hfun : ((fun c : Call => decide (c.url = some url)) ∘
        (fun e : String × List String => Call.fetch e.1 q.stopID e.2 direction))
        = (fun e : String × List String => decide (e.1 = url)) := by
      funext e
      simp [Call.url]
    rw [hfun]
    have h1 : (FeedURLsForRoutes q.routes).filter (fun e => decide (e.1 = url))
        = [(url, routesOfURL q.routes url)] :=
      filter_key_eq _ _ _ hnodup (hval url hex)
    have h2 := hperm.filter (fun e : String × List String => decide (e.1 = url))
    rw [h1, List.perm_singleton] at h2
    rw [h2]
    rfl

/-- Instance of `FeedURLsForRoutes_dedup`: the routes `2` and `3` share one
endpoint, the map has the one entry for it, and the one call made for the
second sample stop carries both routes. -/
theorem FeedURLsForRoutes_dedup_witness :
    FeedURLsForRoutes ["2", "3"]
      = [("https://api-endpoint.mta.info/Dataservice/mtagtfsfeeds/nyct%2Fgtfs", ["2", "3"])] ∧
    (gatherRealtime exEnvLive ⟨"Bergen St", "236", ["2", "3"], "Manhattan-bound",
        "Flatbush Av-bound"⟩ "").2.filter (fun c => decide (c.url
          = some "https://api-endpoint.mta.info/Dataservice/mtagtfsfeeds/nyct%2Fgtfs"))
      = [Call.fetch "https://api-endpoint.mta.info/Dataservice/mtagtfsfeeds/nyct%2Fgtfs" "236"
          (routesOfURL ["2", "3"]
            "https://api-endpoint.mta.info/Dataservice/mtagtfsfeeds/nyct%2Fgtfs") ""] :=
  ⟨by rfl,
   (FeedURLsForRoutes_dedup exEnvLive ⟨"Bergen St", "236", ["2", "3"], "Manhattan-bound",
      "Flatbush Av-bound"⟩ "").2.2.2.2
      "https://api-endpoint.mta.info/Dataservice/mtagtfsfeeds/nyct%2Fgtfs"
      ⟨"2", by decide, by rfl⟩⟩

/-! ## Validity of the trips -/

/-- One turn of the loop of `findValidTrips` keeps a property of the entries of
the map, when the entry written for a record that passes both filters has
it. -/
theorem tripStep_entries [UnicodeCase]
    (idx : List (String × Nat)) (routeSet activeServices : List String)
    (P : String → tripInfo → Prop) (validTrips : List (String × tripInfo))
    (record : List String)
    (hinv : ∀ tripID info, mapGet validTrips tripID = some info → P tripID info)
    (hrec : ¬ (0 < routeSet.length ∧ toUpper (field record (col idx "route_id")) ∉ routeSet) →
      field record (col idx "service_id") ∈ activeServices →
      P (field record (col idx "trip_id"))
        { routeID := toUpper (field record (col idx "route_id")),
          directionID := match mapGet idx "direction_id" with
            | some i => field record i
            | none => "" }) :
    ∀ tripID info,
      mapGet (tripStep idx routeSet activeServices validTrips record) tripID = some info →
      P tripID info := by
  intro tripID info h
  unfold tripStep at h
  simp only at h
  split at h
  · exact hinv tripID info h
  · rename_i hroute
    split at h
    · exact hinv tripID info h
    · rename_i hsvc
      rw [mapGet_mapSet] at h
      split at h
      · rename_i hk
        simp only [Option.some.injEq] at h
        subst hk
        subst h
        exact hrec hroute (not_not.mp hsvc)
      · exact hinv tripID info h

theorem foldl_tripStep_entries [UnicodeCase]
    (idx : List (String × Nat)) (routeSet activeServices : List String)
    (P : String → tripInfo → Prop) :
    ∀ (rows : List (List String)) (validTrips : List (String × tripInfo)),
      (∀ tripID info, mapGet validTrips tripID = some info → P tripID info) →
      (∀ record ∈ rows,
        ¬ (0 < routeSet.length ∧ toUpper (field record (col idx "route_id")) ∉ routeSet) →
        field record (col idx "service_id") ∈ activeServices →
        P (field record (col idx "trip_id"))
          { routeID := toUpper (field record (col idx "route_id")),
            directionID := match mapGet idx "direction_id" with
              | some i => field record i
              | none => "" }) →
      ∀ tripID info,
        mapGet (rows.foldl (tripStep idx routeSet activeServices) validTrips) tripID = some info →
        P tripID info := by
  intro rows
  induction rows with
  | nil => intro validTrips hinv _; exact hinv
  | cons record rest ih =>
    intro validTrips hinv hrows
    rw [List.foldl_cons]
    apply ih
    · exact tripStep_entries idx routeSet activeServices P validTrips record hinv
        (hrows record (List.mem_cons_self _ _))
    · intro r2 hr2
      exact hrows r2 (List.mem_cons_of_mem _ hr2)

/-- Claim C11.  When the trips table can be read, `findValidTrips` returns a
map, and every trip id in it is the trip id of a record of the table, read
without error, whose service id is in the set that `getActiveServices`
computes for the target date and, when routes are requested, whose upper-cased
route id is the upper-cased form of a requested route; the route recorded is
that upper-cased route id and the direction code recorded is the one of that
record (empty when the table has no such column).  Upper-casing is
`strings.ToUpper`, whatever the case tables beyond ASCII. -/
theorem findValidTrips_valid [UnicodeCase] (r : Archive) (routes : List String) (T : GoTime)
    (tripsFile : CSV) (header : List String)
    (hfile : r.trips = some tripsFile) (hheader : tripsFile.header = some header) :
    ∃ validTrips, findValidTrips r routes T = Except.ok validTrips ∧
      ∀ tripID info, mapGet validTrips tripID = some info →
        ∃ record ∈ tripsFile.rows, record.length = header.length ∧
          field record (col (csvIndex header) "trip_id") = tripID ∧
          field record (col (csvIndex header) "service_id") ∈ getActiveServices r T ∧
          (routes ≠ [] → ∃ rt ∈ routes,
            toUpper rt = toUpper (field record (col (csvIndex header) "route_id"))) ∧
          info.routeID = toUpper (field record (col (csvIndex header) "route_id")) ∧
          info.directionID = (match mapGet (csvIndex header) "direction_id" with
            | some i => field record i
            | none => "") := by
  have hrun : findValidTrips r routes T = Except.ok ((goodRows header tripsFile.rows).foldl
      (tripStep (csvIndex header) (routeSetOf routes) (getActiveServices r T)) []) := by
    simp only [findValidTrips, hfile, hheader]
  refine ⟨_, hrun, ?_⟩
  apply foldl_tripStep_entries
  · intro tripID info h
    simp [mapGet] at h
  · intro record hrec hroute hsvc
    simp only [goodRows, List.mem_filter, decide_eq_true_eq] at hrec
    refine ⟨record, hrec.1, hrec.2, rfl, hsvc, ?_, rfl, rfl⟩
    intro hne
    have hpos := (routeSetOf_length_pos routes).mpr hne
    have hmem : toUpper (field record (col (csvIndex header) "route_id")) ∈ routeSetOf routes := by
      by_contra hnot
      exact hroute ⟨hpos, hnot⟩
    exact (mem_routeSetOf _ _).mp hmem

/-- Instance of `findValidTrips_valid` on the complete sample dataset: the one
trip `t1` of service `WKD`, which runs on the target Thursday. -/
theorem findValidTrips_valid_witness :
    (exDataset.trips = some exTripsTable ∧
      exTripsTable.header = some ["route_id", "service_id", "trip_id", "direction_id"]) ∧
    findValidTrips exDataset ["c"] exTarget = Except.ok [("t1", ⟨"C", "0"⟩)] ∧
    ∃ validTrips, findValidTrips exDataset ["c"] exTarget = Except.ok validTrips ∧
      ∀ tripID info, mapGet validTrips tripID = some info →
        ∃ record ∈ exTripsTable.rows, record.length = 4 ∧
          field record (col (csvIndex ["route_id", "service_id", "trip_id", "direction_id"])
            "trip_id") = tripID ∧
          field record (col (csvIndex ["route_id", "service_id", "trip_id", "direction_id"])
            "service_id") ∈ getActiveServices exDataset exTarget ∧
          ((["c"] : List String) ≠ [] → ∃ rt ∈ ["c"],
            toUpper rt = toUpper (field record
              (col (csvIndex ["route_id", "service_id", "trip_id", "direction_id"]) "route_id"))) ∧
          info.routeID = toUpper (field record
            (col (csvIndex ["route_id", "service_id", "trip_id", "direction_id"]) "route_id")) ∧
          info.directionID = (match mapGet
              (csvIndex ["route_id", "service_id", "trip_id", "direction_id"]) "direction_id" with
            | some i => field record i
            | none => "") :=
  ⟨⟨rfl, rfl⟩, by rfl,
   findValidTrips_valid exDataset ["c"] exTarget exTripsTable
     ["route_id", "service_id", "trip_id", "direction_id"] rfl rfl⟩

/-! ## The stop filter of the realtime path -/

theorem hasPrefixChars_iff : ∀ (l p : List Char),
    hasPrefixChars l p = true ↔ ∃ t, l = p ++ t := by
  intro l p
  induction p generalizing l with
  | nil =>
    cases l <;> simp [hasPrefixChars]
  | cons b bs ih =>
    cases l with
    | nil => simp [hasPrefixChars]
    | cons a as =>
      simp only [hasPrefixChars]
      by_cases h : a = b
      · subst h
        simp only [if_true, ih, List.cons_append, List.cons.injEq, true_and]
      · simp only [if_neg h, List.cons_append, List.cons.injEq]
        constructor
        · intro hf
          exact absurd hf (by simp)
        · rintro ⟨t, h1, _⟩
          exact absurd h1 h

/-- A string has the prefix `pre` and the rest `x` after it exactly when it is
`pre ++ x`. -/
theorem trimPrefix_eq_iff (s pre x : String) :
    (hasPrefix s pre = true ∧ trimPrefix s pre = x) ↔ s = pre ++ x := by
  constructor
  · rintro ⟨hp, ht⟩
    unfold trimPrefix at ht
    rw [if_pos hp] at ht
    unfold hasPrefix at hp
    obtain ⟨t, hdata⟩ := (hasPrefixChars_iff _ _).mp hp
    rw [hdata, List.drop_left] at ht
    apply String.ext
    rw [String.data_append, hdata, ← ht]
  · intro h
    subst h
    have hp : hasPrefix (pre ++ x) pre = true := by
      unfold hasPrefix
      rw [hasPrefixChars_iff]
      exact ⟨x.data, by rw [String.data_append]⟩
    refine ⟨hp, ?_⟩
    unfold trimPrefix
    rw [if_pos hp, String.data_append, List.drop_left]

/-- Claim C15.  `matchesStop` answers true exactly when the stop id of the feed
is the base followed by the one character `N` or `S`, and the direction is
empty or its upper-cased form is that character.  So an id with anything
between the base and the suffix is rejected, and with the direction `S` only
the base followed by `S` is accepted.  Upper-casing is `strings.ToUpper`,
whatever the case tables beyond ASCII. -/
theorem matchesStop_iff [UnicodeCase] (feedStopID targetBase direction : String) :
    (matchesStop feedStopID targetBase direction = true ↔
      ((feedStopID = targetBase ++ "N" ∧ (direction = "" ∨ toUpper direction = "N")) ∨
       (feedStopID = targetBase ++ "S" ∧ (direction = "" ∨ toUpper direction = "S")))) ∧
    (∀ extra : String, extra ≠ "" →
      matchesStop (targetBase ++ extra ++ "N") targetBase direction = false ∧
      matchesStop (targetBase ++ extra ++ "S") targetBase direction = false) ∧
    (matchesStop feedStopID targetBase "S" = true ↔ feedStopID = targetBase ++ "S") := by
  have main : ∀ f b d : String, matchesStop f b d = true ↔
      ((f = b ++ "N" ∧ (d = "" ∨ toUpper d = "N")) ∨
       (f = b ++ "S" ∧ (d = "" ∨ toUpper d = "S"))) := by
    intro f b d
    unfold matchesStop
    by_cases hp : hasPrefix f b = true
    · simp only [hp, Bool.not_true, Bool.false_eq_true, if_false]
      by_cases hN : trimPrefix f b = "N"
      · have hf : f = b ++ "N" := (trimPrefix_eq_iff f b "N").mp ⟨hp, hN⟩
        have hne : f ≠ b ++ "S" := by
          intro e
          have := ((trimPrefix_eq_iff f b "S").mpr e).2
          rw [hN] at this
          exact absurd this (by decide)
        simp only [hN, ne_eq, not_true_eq_false, false_and, if_false]
        by_cases hd : d = ""
        · simp [hd, hf]
        · by_cases hu : toUpper d = "N"
          · simp [hd, hu, hf]
          · have hu2 : ¬ ("N" = toUpper d) := fun e => hu e.symm
            simp [hd, hu, hu2, hne]
      · by_cases hS : trimPrefix f b = "S"
        · have hf : f = b ++ "S" := (trimPrefix_eq_iff f b "S").mp ⟨hp, hS⟩
          have hne : f ≠ b ++ "N" := by
            intro e
            exact hN ((trimPrefix_eq_iff f b "N").mpr e).2
          simp only [hS, ne_eq, not_true_eq_false, and_false, if_false]
          by_cases hd : d = ""
          · simp [hd, hf]
          · by_cases hu : toUpper d = "S"
            · simp [hd, hu, hf]
            · have hu2 : ¬ ("S" = toUpper d) := fun e => hu e.symm
              simp [hd, hu, hu2, hne]
        · have h1 : f ≠ b ++ "N" := fun e => hN ((trimPrefix_eq_iff f b "N").mpr e).2
          have h2 : f ≠ b ++ "S" := fun e => hS ((trimPrefix_eq_iff f b "S").mpr e).2
          simp [hN, hS, h1, h2]
    · have h1 : f ≠ b ++ "N" := fun e => hp ((trimPrefix_eq_iff f b "N").mpr e).1
      have h2 : f ≠ b ++ "S" := fun e => hp ((trimPrefix_eq_iff f b "S").mpr e).1
      simp [hp, h1, h2]
  have hcancel : ∀ (b extra tail1 tail2 : String), extra ≠ "" → tail1.length = tail2.length →
      b ++ extra ++ tail1 ≠ b ++ tail2 := by
    intro b extra tail1 tail2 hne hlen e
    have hl := congrArg String.length e
    simp only [String.length_append] at hl
    have : extra.length = 0 := by omega
    apply hne
    apply String.ext
    exact List.length_eq_zero.mp this
  refine ⟨main _ _ _, ?_, ?_⟩
  · intro extra hne
    constructor
    · rw [Bool.eq_false_iff, Ne, main]
      rintro (⟨e, _⟩ | ⟨e, _⟩)
      · exact hcancel targetBase extra _ _ hne (by decide) e
      · exact hcancel targetBase extra _ _ hne (by decide) e
    · rw [Bool.eq_false_iff, Ne, main]
      rintro (⟨e, _⟩ | ⟨e, _⟩)
      · exact hcancel targetBase extra _ _ hne (by decide) e
      · exact hcancel targetBase extra _ _ hne (by decide) e
  · rw [main]
    have e1 : toUpper "S" = "S" := rfl
    have e2 : ¬ (toUpper "S" = "N") := by rw [e1]; decide
    have e3 : ¬ (("S" : String) = "") := by decide
    simp [e1, e2, e3]

/-- Instance of `matchesStop_iff`: with the base `A4`, the id `A44N` has a
character between the base and the suffix and is rejected, for any
direction. -/
theorem matchesStop_iff_witness :
    ("4" : String) ≠ "" ∧
    matchesStop ("A4" ++ "4" ++ "N") "A4" "" = false ∧
    matchesStop ("A4" ++ "4" ++ "S") "A4" "" = false :=
  ⟨by decide, (matchesStop_iff "A44N" "A4" "").2.1 "4" (by decide)⟩

/-! ## The stop filter of the static path -/

/-- The entries of the map `targetStops`. -/
theorem targetStops_get {stopID direction sid dir0 : String}
    (h : mapGet (targetStops stopID direction) sid = some dir0) :
    (sid = stopID ++ "N" ∧ dir0 = "N" ∧ (direction = "" ∨ direction = "N")) ∨
    (sid = stopID ++ "S" ∧ dir0 = "S" ∧ (direction = "" ∨ direction = "S")) ∨
    (sid = stopID ∧ dir0 = "" ∧ direction = "") := by
  unfold targetStops at h
  simp only at h
  by_cases h0 : direction = ""
  · subst h0
    simp only [true_or, if_true, mapGet_mapSet] at h
    split at h
    · rename_i e
      simp only [Option.some.injEq] at h
      exact Or.inr (Or.inr ⟨e.symm, h.symm, rfl⟩)
    · split at h
      · rename_i e
        simp only [Option.some.injEq] at h
        exact Or.inr (Or.inl ⟨e.symm, h.symm, Or.inl rfl⟩)
      · split at h
        · rename_i e
          simp only [Option.some.injEq] at h
          exact Or.inl ⟨e.symm, h.symm, Or.inl rfl⟩
        · simp [mapGet] at h
  · simp only [h0, false_or, if_false] at h
    by_cases hN : direction = "N"
    · subst hN
      have hS : ¬ (("N" : String) = "S") := by decide
      simp only [if_true, hS, if_false, mapGet_mapSet] at h
      split at h
      · rename_i e
        simp only [Option.some.injEq] at h
        exact Or.inl ⟨e.symm, h.symm, Or.inr rfl⟩
      · simp [mapGet] at h
    · simp only [hN, if_false] at h
      by_cases hS : direction = "S"
      · simp only [hS, if_true, mapGet_mapSet] at h
        split at h
        · rename_i e
          simp only [Option.some.injEq] at h
          exact Or.inr (Or.inl ⟨e.symm, h.symm, Or.inr hS⟩)
        · simp [mapGet] at h
      · simp [hS, mapGet] at h

/-- A departure built by `findStopTimes` from a record, with the trip and the
entry of `targetStops` that the record selected. -/
theorem stopTimeRow_source {idx : List (String × Nat)} {validTrips : List (String × tripInfo)}
    {stopID direction : String} {T : GoTime} {W : Int} {record : List String} {d : Departure}
    (h : stopTimeRow idx validTrips stopID direction T W record = some d) :
    ∃ trip dir0 t,
      mapGet validTrips (field record (col idx "trip_id")) = some trip ∧
      mapGet (targetStops stopID direction) (field record (col idx "stop_id")) = some dir0 ∧
      d = rowDeparture trip dir0 (field record (col idx "stop_id")) t := by
  cases h1 : mapGet validTrips (field record (col idx "trip_id")) with
  | none => simp [stopTimeRow, h1] at h
  | some trip =>
    cases h2 : mapGet (targetStops stopID direction) (field record (col idx "stop_id")) with
    | none => simp [stopTimeRow, h1, h2] at h
    | some dir0 =>
      cases h3 : parseGTFSTime (field record (col idx "departure_time")) T.midnight with
      | none => simp [stopTimeRow, h1, h2, h3] at h
      | some t =>
        rw [stopTimeRow_of_filters h1 h2 h3] at h
        split at h
        · exact absurd h (by simp)
        · simp only [Option.some.injEq] at h
          exact ⟨trip, dir0, t, rfl, rfl, h.symm⟩

/-- Claim C16.  Every departure that `findStopTimes` returns for the base stop
id `b` and the direction filter `d` has a stop id and a direction that are
`b ++ "N"` and `N`, which needs `d` to be empty or `N`; or `b ++ "S"` and `S`,
which needs `d` to be empty or `S`; or `b` itself, which needs `d` to be
empty, and then the direction is `N` if the direction code of the trip of the
record is `"0"` and `S` for every other code.  With `d = "S"` every returned
departure is at `b ++ "S"`, southbound. -/
theorem findStopTimes_stops (r : Archive) (validTrips : List (String × tripInfo))
    (b d : String) (T : GoTime) (W : Int) (ds : List Departure)
    (hrun : findStopTimes r validTrips b d T W = Except.ok ds) :
    (∀ dep ∈ ds,
      (dep.StopID = b ++ "N" ∧ dep.Direction = "N" ∧ (d = "" ∨ d = "N")) ∨
      (dep.StopID = b ++ "S" ∧ dep.Direction = "S" ∧ (d = "" ∨ d = "S")) ∨
      (dep.StopID = b ∧ d = "" ∧
        ∃ stFile header, r.stopTimes = some stFile ∧ stFile.header = some header ∧
        ∃ record ∈ stFile.rows, ∃ trip,
          mapGet validTrips (field record (col (csvIndex header) "trip_id")) = some trip ∧
          field record (col (csvIndex header) "stop_id") = b ∧
          dep.Route = trip.routeID ∧
          dep.Direction = if trip.directionID = "0" then "N" else "S")) ∧
    (d = "S" → ∀ dep ∈ ds, dep.StopID = b ++ "S" ∧ dep.Direction = "S") := by
  have hmain : ∀ dep ∈ ds,
      (dep.StopID = b ++ "N" ∧ dep.Direction = "N" ∧ (d = "" ∨ d = "N")) ∨
      (dep.StopID = b ++ "S" ∧ dep.Direction = "S" ∧ (d = "" ∨ d = "S")) ∨
      (dep.StopID = b ∧ d = "" ∧
        ∃ stFile header, r.stopTimes = some stFile ∧ stFile.header = some header ∧
        ∃ record ∈ stFile.rows, ∃ trip,
          mapGet validTrips (field record (col (csvIndex header) "trip_id")) = some trip ∧
          field record (col (csvIndex header) "stop_id") = b ∧
          dep.Route = trip.routeID ∧
          dep.Direction = if trip.directionID = "0" then "N" else "S") := by
    intro dep hdep
    unfold findStopTimes at hrun
    cases hfile : r.stopTimes with
    | none => simp [hfile] at hrun
    | some stFile =>
      cases hheader : stFile.header with
      | none => simp [hfile, hheader] at hrun
      | some header =>
        simp only [hfile, hheader, Except.ok.injEq] at hrun
        rw [← hrun, mem_sortByTime, List.mem_filterMap] at hdep
        obtain ⟨record, hrec, hrow⟩ := hdep
        obtain ⟨trip, dir0, t, h1, h2, hd⟩ := stopTimeRow_source hrow
        simp only [goodRows, List.mem_filter, decide_eq_true_eq] at hrec
        rcases targetStops_get h2 with ⟨hs, hv, hdir⟩ | ⟨hs, hv, hdir⟩ | ⟨hs, hv, hdir⟩
        · left
          subst hv
          rw [hd]
          exact ⟨hs, by simp [rowDeparture], hdir⟩
        · right; left
          subst hv
          rw [hd]
          exact ⟨hs, by simp [rowDeparture], hdir⟩
        · right; right
          subst hv
          rw [hd]
          refine ⟨hs, hdir, stFile, header, rfl, hheader, record, hrec.1, trip, h1, hs, rfl, ?_⟩
          simp [rowDeparture]
  refine ⟨hmain, ?_⟩
  intro hS dep hdep
  subst hS
  rcases hmain dep hdep with ⟨_, _, h | h⟩ | ⟨h1, h2, _⟩ | ⟨_, h, _⟩
  · exact absurd h (by decide)
  · exact absurd h (by decide)
  · exact ⟨h1, h2⟩
  · exact absurd h (by decide)

/-- Instance of `findStopTimes_stops` on the sample table with the direction
`S`: the one departure returned is at `A44S`. -/
theorem findStopTimes_stops_witness :
    findStopTimes exArchive exTrips "A44" "S" exTarget 10
      = Except.ok [⟨"C", "S", 36060000000000, "A44S"⟩] ∧
    ∀ dep ∈ [(⟨"C", "S", 36060000000000, "A44S"⟩ : Departure)],
      dep.StopID = "A44" ++ "S" ∧ dep.Direction = "S" :=
  ⟨by rfl,
   (findStopTimes_stops exArchive exTrips "A44" "S" exTarget 10
      [⟨"C", "S", 36060000000000, "A44S"⟩] (by rfl)).2 rfl⟩

/-! ## Normalization of names -/

theorem filterMap_normalizeChar (l : List Char) :
    l.filterMap normalizeChar = (l.map replacePunct).filter isKept := by
  induction l with
  | nil => rfl
  | cons c cs ih =>
    rw [List.filterMap_cons, List.map_cons, List.filter_cons, ih]
    unfold normalizeChar replacePunct isKept
    by_cases h1 : c = '-' ∨ c = '/' ∨ c = Char.ofNat 39
    · simp only [if_pos h1]
      rw [if_pos (by decide)]
    · simp only [if_neg h1]
      by_cases h2 : (97 ≤ c.toNat ∧ c.toNat ≤ 122) ∨ (48 ≤ c.toNat ∧ c.toNat ≤ 57) ∨ c = ' '
      · rw [if_pos h2, if_pos]
        simpa [Bool.or_eq_true, Bool.and_eq_true, decide_eq_true_eq, or_assoc] using h2
      · rw [if_neg h2, if_neg]
        simpa [Bool.or_eq_true, Bool.and_eq_true, decide_eq_true_eq, or_assoc] using h2

/-- Among the characters that are kept, the white space is the space. -/
theorem isSpace_of_isKept {c : Char} (h : isKept c = true) : isSpace c = true ↔ c = ' ' := by
  constructor
  · intro hs
    by_contra hne
    simp only [isKept, Bool.or_eq_true, Bool.and_eq_true, decide_eq_true_eq, hne, or_false] at h
    simp only [isSpace, Bool.or_eq_true, Bool.and_eq_true, decide_eq_true_eq, beq_iff_eq] at hs
    omega
  · intro e
    subst e
    decide

theorem rdropWhile_cons (p : Char → Bool) (c : Char) (cs : List Char) :
    List.rdropWhile p (c :: cs)
      = if p c = true ∧ List.rdropWhile p cs = [] then [] else c :: List.rdropWhile p cs := by
  unfold List.rdropWhile
  rw [List.reverse_cons, List.dropWhile_append]
  by_cases h : List.dropWhile p cs.reverse = []
  · rw [h]
    simp only [List.isEmpty_nil, if_true, List.reverse_nil, and_true]
    by_cases hp : p c = true
    · simp [hp]
    · simp [hp]
  · have h2 : (List.dropWhile p cs.reverse).reverse ≠ [] := by simpa using h
    have h3 : (List.dropWhile p cs.reverse).isEmpty = false := by
      cases hd : List.dropWhile p cs.reverse with
      | nil => exact absurd hd h
      | cons a as => rfl
    rw [h3]
    simp [h2]

theorem collapseSpaces_cons_ne {c : Char} (h : c ≠ ' ') (x : List Char) :
    collapseSpaces (c :: x) = c :: collapseSpaces x := by
  rw [collapseSpaces, if_neg (fun hc => h hc.1)]

/-- Trailing spaces removed after the collapse: a first character that is not
a space stays in front. -/
theorem stripCollapse_cons_ne {c : Char} (h : c ≠ ' ') (x : List Char) :
    List.rdropWhile (fun c => decide (c = ' ')) (collapseSpaces (c :: x))
      = c :: List.rdropWhile (fun c => decide (c = ' ')) (collapseSpaces x) := by
  rw [collapseSpaces_cons_ne h, rdropWhile_cons, if_neg]
  rintro ⟨hc, _⟩
  exact h (by simpa using hc)

theorem dropWhile_dropWhile (p : Char → Bool) (l : List Char) :
    List.dropWhile p (List.dropWhile p l) = List.dropWhile p l := by
  induction l with
  | nil => rfl
  | cons a as ih =>
    rw [List.dropWhile_cons]
    split
    · exact ih
    · rename_i h
      rw [List.dropWhile_cons, if_neg h]

/-- Trailing spaces removed after the collapse, for a list that starts with a
space: nothing if the rest normalizes to nothing, and else one space before
the normal form of the rest. -/
theorem stripCollapse_cons_space : ∀ x : List Char,
    List.rdropWhile (fun c => decide (c = ' ')) (collapseSpaces (' ' :: x))
      = if List.dropWhile (fun c => decide (c = ' '))
            (List.rdropWhile (fun c => decide (c = ' ')) (collapseSpaces x)) = [] then []
        else ' ' :: List.dropWhile (fun c => decide (c = ' '))
            (List.rdropWhile (fun c => decide (c = ' ')) (collapseSpaces x)) := by
  intro x
  induction x with
  | nil =>
    simp [collapseSpaces, rdropWhile_cons]
  | cons c x ih =>
    by_cases hc : c = ' '
    · subst hc
      have e : collapseSpaces (' ' :: ' ' :: x) = collapseSpaces (' ' :: x) := by
        rw [collapseSpaces, if_pos ⟨rfl, rfl⟩]
      rw [e, ih]
      by_cases h : List.dropWhile (fun c => decide (c = ' '))
          (List.rdropWhile (fun c => decide (c = ' ')) (collapseSpaces x)) = []
      · simp only [if_pos h, List.dropWhile_nil, if_true]
      · have hd : List.dropWhile (fun c => decide (c = ' '))
            (' ' :: List.dropWhile (fun c => decide (c = ' '))
              (List.rdropWhile (fun c => decide (c = ' ')) (collapseSpaces x)))
            = List.dropWhile (fun c => decide (c = ' '))
              (List.rdropWhile (fun c => decide (c = ' ')) (collapseSpaces x)) := by
          rw [List.dropWhile_cons_of_pos (by simp), dropWhile_dropWhile]
        simp only [if_neg h, hd]
    · have e : collapseSpaces (' ' :: c :: x) = ' ' :: collapseSpaces (c :: x) := by
        rw [collapseSpaces, if_neg]
        rintro ⟨_, h⟩
        simp only [List.head?_cons, Option.some.injEq] at h
        exact hc h
      rw [e, rdropWhile_cons, stripCollapse_cons_ne hc]
      have hd : List.dropWhile (fun c => decide (c = ' '))
          (c :: List.rdropWhile (fun c => decide (c = ' ')) (collapseSpaces x))
          = c :: List.rdropWhile (fun c => decide (c = ' ')) (collapseSpaces x) := by
        rw [List.dropWhile_cons, if_neg (by simpa using hc)]
      rw [hd]
      simp

theorem intercalate_cons (sep a : List Char) (l : List (List Char)) :
    List.intercalate sep (a :: l) = if l = [] then a else a ++ sep ++ List.intercalate sep l := by
  cases l with
  | nil => simp [List.intercalate]
  | cons b l => simp [List.intercalate, List.intersperse]

theorem fieldsFrom_ne_nil : ∀ (l cur : List Char), cur ≠ [] → fieldsFrom cur l ≠ [] := by
  intro l
  induction l with
  | nil =>
    intro cur h
    have : cur.isEmpty = false := by
      cases cur with
      | nil => exact absurd rfl h
      | cons a as => rfl
    simp [fieldsFrom, this]
  | cons c cs ih =>
    intro cur h
    have hc : cur.isEmpty = false := by
      cases cur with
      | nil => exact absurd rfl h
      | cons a as => rfl
    rw [fieldsFrom]
    split
    · simp [hc]
    · exact ih _ (by simp)

/-- On kept characters, the words of `strings.Fields` joined by one space are
the list with its runs of spaces collapsed and its end spaces removed. -/
theorem fields_spec : ∀ l : List Char, (∀ c ∈ l, isKept c = true) →
    (List.intercalate [' '] (fieldsFrom [] l)
        = List.dropWhile (fun c => decide (c = ' '))
            (List.rdropWhile (fun c => decide (c = ' ')) (collapseSpaces l))) ∧
    (∀ cur, cur ≠ [] → List.intercalate [' '] (fieldsFrom cur l)
        = cur ++ List.rdropWhile (fun c => decide (c = ' ')) (collapseSpaces l)) ∧
    (fieldsFrom [] l = [] ↔
      List.dropWhile (fun c => decide (c = ' '))
        (List.rdropWhile (fun c => decide (c = ' ')) (collapseSpaces l)) = []) := by
  intro l
  induction l with
  | nil =>
    intro _
    refine ⟨by simp [fieldsFrom, collapseSpaces, List.intercalate], ?_,
      by simp [fieldsFrom, collapseSpaces]⟩
    intro cur h
    have hc : cur.isEmpty = false := by
      cases cur with
      | nil => exact absurd rfl h
      | cons a as => rfl
    simp [fieldsFrom, hc, collapseSpaces, intercalate_cons]
  | cons c x ih =>
    intro hall
    obtain ⟨ih1, ih2, ih3⟩ := ih (fun d hd => hall d (List.mem_cons_of_mem _ hd))
    have hkept := hall c (List.mem_cons_self _ _)
    by_cases hc : c = ' '
    · subst hc
      have hsp : isSpace ' ' = true := by decide
      have hS : List.dropWhile (fun c => decide (c = ' '))
          (List.rdropWhile (fun c => decide (c = ' ')) (collapseSpaces (' ' :: x)))
          = List.dropWhile (fun c => decide (c = ' '))
            (List.rdropWhile (fun c => decide (c = ' ')) (collapseSpaces x)) := by
        rw [stripCollapse_cons_space]
        split
        · rename_i h
          rw [h]
          rfl
        · rw [List.dropWhile_cons_of_pos (by simp), dropWhile_dropWhile]
      have hF : fieldsFrom [] (' ' :: x) = fieldsFrom [] x := by
        rw [fieldsFrom, if_pos hsp]
        rfl
      refine ⟨by rw [hF, ih1, hS], ?_, by rw [hF, hS]; exact ih3⟩
      intro cur h
      have hcur : cur.isEmpty = false := by
        cases cur with
        | nil => exact absurd rfl h
        | cons a as => rfl
      rw [fieldsFrom, if_pos hsp, hcur]
      simp only [Bool.false_eq_true, if_false]
      rw [intercalate_cons, stripCollapse_cons_space]
      by_cases hw : fieldsFrom [] x = []
      · rw [if_pos hw, if_pos (ih3.mp hw)]
        simp
      · rw [if_neg hw, if_neg (fun e => hw (ih3.mpr e)), ih1]
        simp
    · have hsp : ¬ (isSpace c = true) := fun hs => hc ((isSpace_of_isKept hkept).mp hs)
      have hF : ∀ cur, fieldsFrom cur (c :: x) = fieldsFrom (cur ++ [c]) x := by
        intro cur
        rw [fieldsFrom, if_neg hsp]
      have hR := stripCollapse_cons_ne hc x
      have hS : List.dropWhile (fun c => decide (c = ' '))
          (List.rdropWhile (fun c => decide (c = ' ')) (collapseSpaces (c :: x)))
          = c :: List.rdropWhile (fun c => decide (c = ' ')) (collapseSpaces x) := by
        rw [hR, List.dropWhile_cons, if_neg (by simpa using hc)]
      refine ⟨?_, ?_, ?_⟩
      · rw [hF, hS, ih2 _ (by simp)]
        rfl
      · intro cur _
        rw [hF, hR, ih2 _ (by simp)]
        simp
      · rw [hF, hS]
        constructor
        · intro h
          exact absurd h (fieldsFrom_ne_nil x _ (by simp))
        · intro h
          exact absurd h (by simp)

theorem mem_of_mem_collapseSpaces {c : Char} : ∀ x : List Char, c ∈ collapseSpaces x → c ∈ x := by
  intro x
  induction x with
  | nil => intro h; exact h
  | cons a as ih =>
    intro h
    rw [collapseSpaces] at h
    split at h
    · exact List.mem_cons_of_mem _ (ih h)
    · rcases List.mem_cons.mp h with e | h2
      · rw [e]
        exact List.mem_cons_self _ _
      · exact List.mem_cons_of_mem _ (ih h2)

theorem head?_dropWhile_space : ∀ l : List Char,
    (List.dropWhile (fun c => decide (c = ' ')) l).head? ≠ some ' ' := by
  intro l
  induction l with
  | nil => simp
  | cons a as ih =>
    rw [List.dropWhile_cons]
    split
    · exact ih
    · rename_i h
      simp only [List.head?_cons, ne_eq, Option.some.injEq]
      simpa using h

theorem getLast?_cons_of_ne_nil (a : Char) {l : List Char} (h : l ≠ []) :
    (a :: l).getLast? = l.getLast? := by
  cases l with
  | nil => exact absurd rfl h
  | cons b bs => simp [List.getLast?_cons_cons]

/-- The normal form has no space at its end and no two spaces in a row. -/
theorem stripCollapse_shape : ∀ x : List Char,
    ((List.rdropWhile (fun c => decide (c = ' ')) (collapseSpaces x)).getLast? ≠ some ' ' ∧
      List.Chain' (fun a b : Char => ¬ (a = ' ' ∧ b = ' '))
        (List.rdropWhile (fun c => decide (c = ' ')) (collapseSpaces x))) ∧
    ((List.dropWhile (fun c => decide (c = ' '))
        (List.rdropWhile (fun c => decide (c = ' ')) (collapseSpaces x))).getLast? ≠ some ' ' ∧
      List.Chain' (fun a b : Char => ¬ (a = ' ' ∧ b = ' '))
        (List.dropWhile (fun c => decide (c = ' '))
          (List.rdropWhile (fun c => decide (c = ' ')) (collapseSpaces x)))) := by
  intro x
  induction x with
  | nil => simp [collapseSpaces]
  | cons c x ih =>
    obtain ⟨⟨ihR1, ihR2⟩, ihS1, ihS2⟩ := ih
    by_cases hc : c = ' '
    · subst hc
      have hS : List.dropWhile (fun c => decide (c = ' '))
          (List.rdropWhile (fun c => decide (c = ' ')) (collapseSpaces (' ' :: x)))
          = List.dropWhile (fun c => decide (c = ' '))
            (List.rdropWhile (fun c => decide (c = ' ')) (collapseSpaces x)) := by
        rw [stripCollapse_cons_space]
        split
        · rename_i h
          rw [h]
          rfl
        · rw [List.dropWhile_cons_of_pos (by simp), dropWhile_dropWhile]
      refine ⟨?_, by rw [hS]; exact ⟨ihS1, ihS2⟩⟩
      rw [stripCollapse_cons_space]
      split
      · simp
      · rename_i hne
        refine ⟨by rw [getLast?_cons_of_ne_nil _ hne]; exact ihS1, ?_⟩
        rw [List.chain'_cons']
        refine ⟨?_, ihS2⟩
        intro y hy
        rintro ⟨_, hy2⟩
        subst hy2
        exact head?_dropWhile_space _ hy
    · have hR := stripCollapse_cons_ne hc x
      have hS : List.dropWhile (fun c => decide (c = ' '))
          (List.rdropWhile (fun c => decide (c = ' ')) (collapseSpaces (c :: x)))
          = c :: List.rdropWhile (fun c => decide (c = ' ')) (collapseSpaces x) := by
        rw [hR, List.dropWhile_cons, if_neg (by simpa using hc)]
      have hshape : (c :: List.rdropWhile (fun c => decide (c = ' ')) (collapseSpaces x)).getLast?
            ≠ some ' ' ∧
          List.Chain' (fun a b : Char => ¬ (a = ' ' ∧ b = ' '))
            (c :: List.rdropWhile (fun c => decide (c = ' ')) (collapseSpaces x)) := by
        constructor
        · by_cases hn : List.rdropWhile (fun c => decide (c = ' ')) (collapseSpaces x) = []
          · rw [hn]
            simpa using hc
          · rw [getLast?_cons_of_ne_nil _ hn]
            exact ihR1
        · rw [List.chain'_cons']
          exact ⟨fun y _ h => hc h.1, ihR2⟩
      rw [hS, hR]
      exact ⟨hshape, hshape⟩

/-- Claim C12.  For every string, `normalize` gives what the steps of the
specification give: lower-case, hyphen, slash and apostrophe to space, delete
what is outside `a`..`z`, `0`..`9` and space, collapse the runs of spaces,
remove the spaces at both ends.  Hence the result has only characters of
`a`..`z`, `0`..`9` and space, does not start with a space, does not end with
one, and has no two spaces in a row.  Lower-casing is `strings.ToLower`,
whatever the case tables beyond ASCII: a letter that lower-cases to one of
`a`..`z` is kept as that letter. -/
theorem normalize_spec [UnicodeCase] (s : String) :
    normalize s = normalizeSpec s ∧
    (∀ c ∈ (normalize s).data, isKept c = true) ∧
    (normalize s).data.head? ≠ some ' ' ∧
    (normalize s).data.getLast? ≠ some ' ' ∧
    List.Chain' (fun a b : Char => ¬ (a = ' ' ∧ b = ' ')) (normalize s).data := by
  have hkept : ∀ c ∈ ((toLower s).data.map replacePunct).filter isKept, isKept c = true := by
    intro c hc
    exact (List.mem_filter.mp hc).2
  have heq : normalize s = normalizeSpec s := by
    unfold normalize normalizeSpec join fields
    rw [List.map_map]
    have hid : (String.data ∘ String.mk) = (id : List Char → List Char) := by
      funext l
      rfl
    rw [hid, List.map_id, filterMap_normalizeChar]
    have hsep : (" " : String).data = [' '] := rfl
    rw [hsep, (fields_spec _ hkept).1]
  refine ⟨heq, ?_⟩
  rw [heq]
  unfold normalizeSpec
  refine ⟨?_, head?_dropWhile_space _, (stripCollapse_shape _).2.1, (stripCollapse_shape _).2.2⟩
  intro c hc
  apply hkept
  apply mem_of_mem_collapseSpaces
  exact (List.rdropWhile_prefix _ _).subset ((List.dropWhile_suffix _).subset hc)

/-! ## Suggestions -/

theorem addSuggestion_inv {catalog : List Station} {st : List String × List String}
    {s : Station} (hinv : SuggestInv catalog st) (hs : s ∈ catalog) :
    SuggestInv catalog (addSuggestion st s) := by
  unfold addSuggestion
  split
  · exact hinv
  · rename_i hnew
    obtain ⟨chosen, h1, h2, h3, h4⟩ := hinv
    refine ⟨chosen ++ [s], ?_, ?_, ?_, ?_⟩
    · simp [h1]
    · intro n
      simp only [mem_setAdd, h2, List.map_append, List.map_cons, List.map_nil, List.mem_append,
        List.mem_singleton]
    · rw [List.map_append, List.nodup_append]
      refine ⟨h3, by simp, ?_⟩
      intro a ha hb
      simp only [List.map_cons, List.map_nil, List.mem_singleton] at hb
      subst hb
      exact hnew ((h2 _).mpr ha)
    · intro x hx
      rcases List.mem_append.mp hx with h | h
      · exact h4 x h
      · rw [List.mem_singleton] at h
        rw [h]
        exact hs

theorem addSuggestion_idem (st : List String × List String) (s : Station) :
    addSuggestion (addSuggestion st s) s = addSuggestion st s := by
  by_cases h : s.Name ∈ st.2
  · simp [addSuggestion, h]
  · have h2 : s.Name ∈ (addSuggestion st s).2 := by
      simp [addSuggestion, h, mem_setAdd]
    conv_lhs => rw [addSuggestion, if_pos h2]

theorem addSuggestion_length (st : List String × List String) (s : Station) :
    (addSuggestion st s).1.length ≤ st.1.length + 1 := by
  unfold addSuggestion
  split
  · exact Nat.le_succ _
  · simp

/-- A loop that does nothing or repeats one guarded append leaves the state as
it was or as after one append. -/
theorem foldl_addSuggestion {α : Type} (cond : α → Prop) [DecidablePred cond] (s : Station)
    (st : List String × List String) :
    ∀ (xs : List α) (st1 : List String × List String),
      (st1 = st ∨ st1 = addSuggestion st s) →
      (xs.foldl (fun st2 x => if cond x then addSuggestion st2 s else st2) st1 = st ∨
        xs.foldl (fun st2 x => if cond x then addSuggestion st2 s else st2) st1
          = addSuggestion st s) := by
  intro xs
  induction xs with
  | nil => intro st1 h; exact h
  | cons x rest ih =>
    intro st1 h
    rw [List.foldl_cons]
    apply ih
    split
    · rcases h with h | h
      · right
        rw [h]
      · right
        rw [h, addSuggestion_idem]
    · exact h

theorem overlapStep_cases [UnicodeCase]
    (query : String) (st : List String × List String) (s : Station) :
    overlapStep query st s = st ∨ overlapStep query st s = addSuggestion st s := by
  unfold overlapStep
  have : ∀ (qws : List String) (st1 : List String × List String),
      (st1 = st ∨ st1 = addSuggestion st s) →
      (qws.foldl (fun st1 qw =>
        (fields (normalize s.Name)).foldl (fun st2 nw =>
          if 2 ≤ byteLen qw ∧ (strContains nw qw ∨ strContains qw nw) then addSuggestion st2 s
          else st2) st1) st1 = st ∨
       qws.foldl (fun st1 qw =>
        (fields (normalize s.Name)).foldl (fun st2 nw =>
          if 2 ≤ byteLen qw ∧ (strContains nw qw ∨ strContains qw nw) then addSuggestion st2 s
          else st2) st1) st1 = addSuggestion st s) := by
    intro qws
    induction qws with
    | nil => intro st1 h; exact h
    | cons qw rest ih =>
      intro st1 h
      rw [List.foldl_cons]
      apply ih
      exact foldl_addSuggestion
        (fun nw => 2 ≤ byteLen qw ∧ (strContains nw qw ∨ strContains qw nw)) s st _ st1 h
  exact this _ st (Or.inl rfl)

theorem wordStep_cases [UnicodeCase]
    (query : String) (st : List String × List String) (s : Station) :
    wordStep query st s = st ∨ wordStep query st s = addSuggestion st s := by
  unfold wordStep
  exact foldl_addSuggestion
    (fun qw => 3 ≤ byteLen qw ∧ strContains (normalize s.Name) qw) s st _ st (Or.inl rfl)

theorem suggestOnRoute_inv [UnicodeCase] (catalog : List Station) (route query : String) :
    ∀ (l : List Station) (st : List String × List String),
      (∀ s ∈ l, s ∈ catalog) → SuggestInv catalog st → st.1.length < 5 →
      SuggestInv catalog (suggestOnRoute route query l st) ∧
        (suggestOnRoute route query l st).1.length ≤ 5 := by
  intro l
  induction l with
  | nil =>
    intro st _ hinv hlen
    exact ⟨hinv, Nat.le_of_lt hlen⟩
  | cons s rest ih =>
    intro st hl hinv hlen
    have hrest : ∀ x ∈ rest, x ∈ catalog := fun x hx => hl x (List.mem_cons_of_mem _ hx)
    rw [suggestOnRoute]
    split
    · exact ih st hrest hinv hlen
    · have hstep : SuggestInv catalog (overlapStep query st s) ∧
          (overlapStep query st s).1.length ≤ st.1.length + 1 := by
        rcases overlapStep_cases query st s with h | h
        · rw [h]
          exact ⟨hinv, Nat.le_succ _⟩
        · rw [h]
          exact ⟨addSuggestion_inv hinv (hl s (List.mem_cons_self _ _)),
            addSuggestion_length st s⟩
      simp only
      split
      · exact ⟨hstep.1, by omega⟩
      · rename_i h5
        exact ih _ hrest hstep.1 (by omega)

theorem suggestAny_inv [UnicodeCase] (catalog : List Station) (query : String) :
    ∀ (l : List Station) (st : List String × List String),
      (∀ s ∈ l, s ∈ catalog) → SuggestInv catalog st → st.1.length < 5 →
      SuggestInv catalog (suggestAny query l st) ∧ (suggestAny query l st).1.length ≤ 5 := by
  intro l
  induction l with
  | nil =>
    intro st _ hinv hlen
    exact ⟨hinv, Nat.le_of_lt hlen⟩
  | cons s rest ih =>
    intro st hl hinv hlen
    have hrest : ∀ x ∈ rest, x ∈ catalog := fun x hx => hl x (List.mem_cons_of_mem _ hx)
    rw [suggestAny]
    have hstep : SuggestInv catalog (wordStep query st s) ∧
        (wordStep query st s).1.length ≤ st.1.length + 1 := by
      rcases wordStep_cases query st s with h | h
      · rw [h]
        exact ⟨hinv, Nat.le_succ _⟩
      · rw [h]
        exact ⟨addSuggestion_inv hinv (hl s (List.mem_cons_self _ _)),
          addSuggestion_length st s⟩
    split
    · exact ⟨hstep.1, by omega⟩
    · rename_i h5
      exact ih _ hrest hstep.1 (by omega)

theorem suggestFirst_inv (catalog : List Station) (route : String) :
    ∀ (l : List Station) (count : Nat) (st : List String × List String),
      (∀ s ∈ l, s ∈ catalog) → SuggestInv catalog st → st.1.length = count → count < 5 →
      SuggestInv catalog (suggestFirst route l count st) ∧
        (suggestFirst route l count st).1.length ≤ 5 := by
  intro l
  induction l with
  | nil =>
    intro count st _ hinv hlen hc
    exact ⟨hinv, by rw [suggestFirst]; omega⟩
  | cons s rest ih =>
    intro count st hl hinv hlen hc
    have hrest : ∀ x ∈ rest, x ∈ catalog := fun x hx => hl x (List.mem_cons_of_mem _ hx)
    rw [suggestFirst]
    split
    · rename_i hcond
      have hadd : addSuggestion st s = (st.1 ++ [suggestionLine s], setAdd st.2 s.Name) := by
        rw [addSuggestion, if_neg hcond.2]
      have hinv2 : SuggestInv catalog (st.1 ++ [suggestionLine s], setAdd st.2 s.Name) := by
        rw [← hadd]
        exact addSuggestion_inv hinv (hl s (List.mem_cons_self _ _))
      simp only
      split
      · refine ⟨hinv2, ?_⟩
        simp only [List.length_append, List.length_singleton]
        omega
      · exact ih (count + 1) _ hrest hinv2 (by simp [hlen]) (by omega)
    · exact ih count st hrest hinv hlen hc

/-- Claim C13.  For every route, query and catalog, `suggestStations` returns
at most 5 suggestions, and they are the lines of stations of the catalog with
pairwise distinct names: no station name is suggested more than once. -/
theorem suggestStations_bound [UnicodeCase] (route query : String) (stations : List Station) :
    (suggestStations route query stations).length ≤ 5 ∧
    ∃ chosen : List Station,
      suggestStations route query stations = chosen.map suggestionLine ∧
      (chosen.map (fun s => s.Name)).Nodup ∧
      ∀ s ∈ chosen, s ∈ stations := by
  have hall : ∀ s ∈ stations, s ∈ stations := fun _ h => h
  have h0 : SuggestInv stations (([], []) : List String × List String) :=
    ⟨[], rfl, by simp, List.nodup_nil, by simp⟩
  have h1 : SuggestInv stations
        (if route ≠ "" then suggestOnRoute route query stations ([], []) else ([], [])) ∧
      (if route ≠ "" then suggestOnRoute route query stations ([], []) else ([], [])).1.length
        ≤ 5 := by
    split
    · exact suggestOnRoute_inv stations route query stations _ hall h0 (by simp)
    · exact ⟨h0, by simp⟩
  have h2 : ∀ st1 : List String × List String, SuggestInv stations st1 → st1.1.length ≤ 5 →
      SuggestInv stations (if st1.1.length < 5 then suggestAny query stations st1 else st1) ∧
      (if st1.1.length < 5 then suggestAny query stations st1 else st1).1.length ≤ 5 := by
    intro st1 hinv hlen
    split
    · rename_i hlt
      exact suggestAny_inv stations query stations _ hall hinv hlt
    · exact ⟨hinv, hlen⟩
  have h3 : ∀ st2 : List String × List String, SuggestInv stations st2 → st2.1.length ≤ 5 →
      SuggestInv stations
        (if st2.1.length = 0 ∧ route ≠ "" then suggestFirst route stations 0 st2 else st2) ∧
      (if st2.1.length = 0 ∧ route ≠ "" then suggestFirst route stations 0 st2 else st2).1.length
        ≤ 5 := by
    intro st2 hinv hlen
    split
    · rename_i hz
      exact suggestFirst_inv stations route stations 0 _ hall hinv hz.1 (by omega)
    · exact ⟨hinv, hlen⟩
  have hfinal := h3 _ (h2 _ h1.1 h1.2).1 (h2 _ h1.1 h1.2).2
  unfold suggestStations
  simp only
  obtain ⟨⟨chosen, c1, _, c3, c4⟩, hlen⟩ := hfinal
  exact ⟨hlen, chosen, c1, c3, c4⟩

/-! ## An empty station query -/

/-- Claim C14, for the routes that leave `Lookup` nothing to return.  For a
query whose normalized form is empty: if the route (trimmed, upper-cased) is
empty as well, or if no default stop and no catalog stop serves it, `Lookup`
returns an error and no station.  The normalized form is that of `normalize`,
whatever the case tables beyond ASCII. -/
theorem Lookup_empty_query [UnicodeCase] (stations : List Station) (route nameQuery : String)
    (hquery : normalize nameQuery = "")
    (hroute : toUpper (trimSpace route) = "" ∨
      ((∀ d ∈ Defaults, containsRoute d.Station.Routes (toUpper (trimSpace route)) = false) ∧
       (∀ s ∈ stations, containsRoute s.Routes (toUpper (trimSpace route)) = false))) :
    ∃ e, Lookup stations route nameQuery = Except.error e := by
  unfold Lookup
  simp only [hquery, true_and]
  by_cases hR : toUpper (trimSpace route) = ""
  · exact ⟨_, if_pos hR⟩
  · rw [if_neg hR]
    rcases hroute with h | ⟨hdef, hcat⟩
    · exact absurd h hR
    · have hfind : Defaults.find? (defaultMatches (toUpper (trimSpace route)) "") = none := by
        rw [List.find?_eq_none]
        intro d hd
        simp [defaultMatches, hR, hdef d hd]
      have hex : exactMatches stations (toUpper (trimSpace route)) "" = [] := by
        unfold exactMatches
        rw [List.filterMap_eq_nil_iff]
        intro s hs
        rw [if_pos ⟨hR, by simp [hcat s hs]⟩]
      have hpart : partialMatches stations (toUpper (trimSpace route)) "" = [] := by
        unfold partialMatches
        rw [List.filterMap_eq_nil_iff]
        intro s hs
        rw [if_pos ⟨hR, by simp [hcat s hs]⟩]
      simp only [hfind, hex, hpart]
      split
      · exact ⟨_, rfl⟩
      · exact ⟨_, rfl⟩

/-- Instance of `Lookup_empty_query`: no route, and a query made of
punctuation. -/
theorem Lookup_empty_query_witness :
    normalize "-- !" = "" ∧
    ∃ e, Lookup exCatalog " " "-- !" = Except.error e :=
  ⟨by decide, Lookup_empty_query exCatalog " " "-- !" (by decide) (Or.inl (by decide))⟩

/-- Claim C14 as stated fails when a route is given: the query `"!!"`
normalizes to the empty string, every name contains the empty string, and
`Lookup` returns the first default stop that serves the route `C`. -/
theorem Lookup_empty_query_counterexample :
    normalize "!!" = "" ∧
    ∃ st, Lookup exCatalog "C" "!!" = Except.ok st ∧ st.Name = "Clinton-Washington Avs" := by
  refine ⟨by decide, _, by rfl, by decide⟩

/-! ## Order of the departures of one stop in realtime mode -/

theorem fetchStep_deps [UnicodeCase] (env : Env) (stopID direction : String)
    (acc : List Departure × List Call) (entry : String × List String) :
    (fetchStep env stopID direction acc entry).1
      = acc.1 ++ fetched env stopID direction entry := by
  unfold fetchStep fetched
  split <;> simp

/-- The departures gathered for a stop are the lists of the endpoints, one
after the other in the order of the walk. -/
theorem foldl_fetchStep_deps [UnicodeCase] (env : Env) (stopID direction : String) :
    ∀ (entries : List (String × List String)) (acc : List Departure × List Call),
      (entries.foldl (fetchStep env stopID direction) acc).1
        = acc.1 ++ entries.flatMap (fetched env stopID direction) := by
  intro entries
  induction entries with
  | nil => intro acc; simp
  | cons e rest ih =>
    intro acc
    rw [List.foldl_cons, ih, fetchStep_deps]
    simp

theorem gatherRealtime_deps [UnicodeCase] (env : Env) (q : stationQuery) (direction : String) :
    (gatherRealtime env q direction).1
      = (env.rangeOrder (FeedURLsForRoutes q.routes)).flatMap
          (fetched env q.stopID direction) := by
  unfold gatherRealtime
  rw [foldl_fetchStep_deps]
  simp

/-- What one endpoint adds is ordered by time. -/
theorem fetched_sorted [UnicodeCase]
    (env : Env) (stopID direction : String) (entry : String × List String) :
    List.Pairwise (fun a b : Departure => a.Time ≤ b.Time)
      (fetched env stopID direction entry) := by
  unfold fetched
  split
  · exact List.Pairwise.nil
  · rename_i deps h
    unfold FetchDepartures at h
    split at h
    · exact absurd h (by simp)
    · unfold parseDepartures at h
      split at h
      · exact absurd h (by simp)
      · simp only [Except.ok.injEq] at h
        rw [← h]
        exact sortByTime_sorted _

/-- The slot of a stop after `fetchRealtime`, for any order of completion. -/
theorem fetchRealtime_getElem? [UnicodeCase]
    (world : Nat → Env) (queries : List stationQuery) (now : Time)
    (direction : String) (order : List Nat)
    (horder : order.Perm (List.range queries.length))
    (i : Nat) (q : stationQuery) (hq : queries[i]? = some q) :
    (fetchRealtime world queries now direction order)[i]?
      = some (realtimeTask (world i) q direction).1 := by
  have hi : i < queries.length := by
    rcases Nat.lt_or_ge i queries.length with h | h
    · exact h
    · rw [List.getElem?_eq_none h] at hq
      exact absurd hq (by simp)
  unfold fetchRealtime
  rw [receive_getElem? world queries direction i q hq _ _
    (by rw [List.length_replicate]; exact hi)]
  rw [if_pos (horder.mem_iff.mpr (List.mem_range.mpr hi))]

theorem mem_keys_FeedURLsForRoutes [UnicodeCase] (routes : List String) (url : String) :
    url ∈ (FeedURLsForRoutes routes).map Prod.fst ↔
      ∃ r ∈ routes, FeedURL r = Except.ok url := by
  rw [mem_keys_iff, ← routesOfURL_ne_nil_iff]
  unfold FeedURLsForRoutes
  rw [mapGet_foldl_feedURLStep]
  split
  · rename_i h
    simp [h, mapGet]
  · rename_i h
    simp [h]

/-- When all the known routes have the same feed URL, the map of
`FeedURLsForRoutes` has at most one entry. -/
theorem FeedURLsForRoutes_length_le_one [UnicodeCase] (routes : List String)
    (hsame : ∀ r1 ∈ routes, ∀ r2 ∈ routes, ∀ u1 u2,
      FeedURL r1 = Except.ok u1 → FeedURL r2 = Except.ok u2 → u1 = u2) :
    (FeedURLsForRoutes routes).length ≤ 1 := by
  have hnodup : ((FeedURLsForRoutes routes).map Prod.fst).Nodup :=
    nodup_keys_foldl_feedURLStep routes [] List.nodup_nil
  have hkeys : ∀ u1 ∈ (FeedURLsForRoutes routes).map Prod.fst,
      ∀ u2 ∈ (FeedURLsForRoutes routes).map Prod.fst, u1 = u2 := by
    intro u1 h1 u2 h2
    obtain ⟨r1, hr1, e1⟩ := (mem_keys_FeedURLsForRoutes _ _).mp h1
    obtain ⟨r2, hr2, e2⟩ := (mem_keys_FeedURLsForRoutes _ _).mp h2
    exact hsame r1 hr1 r2 hr2 u1 u2 e1 e2
  rw [← List.length_map (FeedURLsForRoutes routes) Prod.fst]
  cases hk : (FeedURLsForRoutes routes).map Prod.fst with
  | nil => simp
  | cons a rest =>
    cases rest with
    | nil => simp
    | cons b rest2 =>
      rw [hk] at hnodup hkeys
      have hab : a = b := hkeys a (by simp) b (by simp)
      rw [hab] at hnodup
      simp at hnodup

/-- Claim C17, for stops served by one feed endpoint.  For the stop at index
`i` of the queries and any order of completion, the departures of its result
are the lists that the feed endpoints of its routes return (nothing for a
fetch that fails), one after the other in the order in which the map of the
endpoints is walked; each of these lists is ordered by non-decreasing time;
and when all the known routes of the stop have the same feed URL, the whole
list is ordered by non-decreasing time. -/
theorem fetchRealtime_order [UnicodeCase]
    (world : Nat → Env) (queries : List stationQuery) (now : Time)
    (direction : String) (order : List Nat)
    (horder : order.Perm (List.range queries.length))
    (i : Nat) (q : stationQuery) (hq : queries[i]? = some q) :
    ∃ res : StationResult,
      (fetchRealtime world queries now direction order)[i]? = some res ∧
      res.Departures = ((world i).rangeOrder (FeedURLsForRoutes q.routes)).flatMap
        (fetched (world i) q.stopID direction) ∧
      (∀ entry, List.Pairwise (fun a b : Departure => a.Time ≤ b.Time)
        (fetched (world i) q.stopID direction entry)) ∧
      ((∀ r1 ∈ q.routes, ∀ r2 ∈ q.routes, ∀ u1 u2,
          FeedURL r1 = Except.ok u1 → FeedURL r2 = Except.ok u2 → u1 = u2) →
        List.Pairwise (fun a b : Departure => a.Time ≤ b.Time) res.Departures) := by
  refine ⟨_, fetchRealtime_getElem? world queries now direction order horder i q hq, ?_,
    fetched_sorted (world i) q.stopID direction, ?_⟩
  · exact gatherRealtime_deps (world i) q direction
  · intro hsame
    show List.Pairwise _ (gatherRealtime (world i) q direction).1
    rw [gatherRealtime_deps]
    have hlen : ((world i).rangeOrder (FeedURLsForRoutes q.routes)).length ≤ 1 := by
      rw [((world i).rangeOrder_perm _).length_eq]
      exact FeedURLsForRoutes_length_le_one q.routes hsame
    cases hl : (world i).rangeOrder (FeedURLsForRoutes q.routes) with
    | nil => simp
    | cons e rest =>
      cases rest with
      | nil =>
        simp only [List.flatMap_cons, List.flatMap_nil, List.append_nil]
        exact fetched_sorted _ _ _ _
      | cons e2 rest2 =>
        rw [hl] at hlen
        simp at hlen

/-- Instance of `fetchRealtime_order`: the routes `2` and `3` of the second
sample stop share one endpoint, and its departures are in time order. -/
theorem fetchRealtime_order_witness :
    [1, 0].Perm (List.range exQueries.length) ∧
    exQueries[1]? = some ⟨"Bergen St", "236", ["2", "3"], "Manhattan-bound",
      "Flatbush Av-bound"⟩ ∧
    ∃ res : StationResult,
      (fetchRealtime (fun _ => exEnvLive) exQueries 0 "" [1, 0])[1]? = some res ∧
      List.Pairwise (fun a b : Departure => a.Time ≤ b.Time) res.Departures := by
  have hp : [1, 0].Perm (List.range exQueries.length) := by decide
  refine ⟨hp, rfl, ?_⟩
  obtain ⟨res, h1, _, _, h4⟩ := fetchRealtime_order (fun _ => exEnvLive) exQueries 0 "" [1, 0] hp 1
    ⟨"Bergen St", "236", ["2", "3"], "Manhattan-bound", "Flatbush Av-bound"⟩ rfl
  refine ⟨res, h1, h4 ?_⟩
  intro r1 h1 r2 h2 u1 u2 e1 e2
  simp only [List.mem_cons, List.mem_singleton, List.mem_nil_iff, or_false] at h1 h2
  rcases h1 with rfl | rfl <;> rcases h2 with rfl | rfl <;>
    · have a1 : FeedURL "2"
          = Except.ok "https://api-endpoint.mta.info/Dataservice/mtagtfsfeeds/nyct%2Fgtfs" := rfl
      have a2 : FeedURL "3"
          = Except.ok "https://api-endpoint.mta.info/Dataservice/mtagtfsfeeds/nyct%2Fgtfs" := rfl
      simp only [a1, a2, Except.ok.injEq] at e1 e2
      rw [← e1, ← e2]

/-- Claim C17 as stated fails for a stop whose routes are served by two
endpoints.  The A/C/E feed returns departures at 200 s and 900 s, the other
feed one at 300 s; the result holds them endpoint after endpoint, and it is
out of time order whichever endpoint is walked first. -/
theorem fetchRealtime_order_counterexample :
    (∃ res : StationResult,
      fetchRealtime (fun _ => exEnvTwoFeeds) [exTwoFeedQuery] 0 "" [0] = [res] ∧
      res.Departures = [⟨"C", "N", 200000000000, "A44N"⟩, ⟨"C", "N", 900000000000, "A44N"⟩,
        ⟨"2", "N", 300000000000, "A44N"⟩] ∧
      ¬ List.Pairwise (fun a b : Departure => a.Time ≤ b.Time) res.Departures) ∧
    (∃ res : StationResult,
      fetchRealtime (fun _ => exEnvTwoFeedsReversed) [exTwoFeedQuery] 0 "" [0] = [res] ∧
      res.Departures = [⟨"2", "N", 300000000000, "A44N"⟩, ⟨"C", "N", 200000000000, "A44N"⟩,
        ⟨"C", "N", 900000000000, "A44N"⟩] ∧
      ¬ List.Pairwise (fun a b : Departure => a.Time ≤ b.Time) res.Departures) := by
  constructor
  · refine ⟨_, rfl, rfl, ?_⟩
    show ¬ List.Pairwise (fun a b : Departure => a.Time ≤ b.Time)
      [⟨"C", "N", 200000000000, "A44N"⟩, ⟨"C", "N", 900000000000, "A44N"⟩,
        ⟨"2", "N", 300000000000, "A44N"⟩]
    decide
  · refine ⟨_, rfl, rfl, ?_⟩
    show ¬ List.Pairwise (fun a b : Departure => a.Time ≤ b.Time)
      [⟨"2", "N", 300000000000, "A44N"⟩, ⟨"C", "N", 200000000000, "A44N"⟩,
        ⟨"C", "N", 900000000000, "A44N"⟩]
    decide

/-! ## The window of the realtime filter in fallback mode -/

/-- The realtime filter of the fallback mode keeps the departures strictly
inside `(T - ⌊w/2⌋ min, T + ⌊w/2⌋ min)`, for a width within the range of
`time.Duration`. -/
theorem mem_windowFilter (T : GoTime) (w : Int) (deps : List Departure) (d : Departure)
    (h0 : 0 ≤ w) (h1 : w ≤ 307445734) :
    d ∈ windowFilter T w deps ↔
      d ∈ deps ∧ T.ns - (w / 2) * Minute < d.Time ∧ d.Time < T.ns + (w / 2) * Minute := by
  unfold windowFilter
  rw [Int.tdiv_eq_ediv h0 (by norm_num)]
  have e1 : wrap64 (w / 2 * Minute) = w / 2 * Minute := by
    apply wrap64_of_range <;> (simp only [Minute]; omega)
  have e2 : wrap64 (-(w / 2 * Minute)) = -(w / 2 * Minute) := by
    apply wrap64_of_range <;> (simp only [Minute]; omega)
  simp only [e1, e2, List.mem_filter, Bool.and_eq_true, decide_eq_true_eq]
  constructor
  · rintro ⟨hm, ha, hb⟩
    exact ⟨hm, by linarith, hb⟩
  · rintro ⟨hm, ha, hb⟩
    exact ⟨hm, by linarith, hb⟩

/-- Claim C18 fails on the code.  With no window given (`w = 30`) and the
target `T` = 300 s, a realtime departure at `T + 15 min` lies in the window of
the static path, `[T - 15 min, T + 15 min]`, and the realtime filter drops it:
the stop, whose only live departure it is, is answered from the schedule.
With `w = 31`, a departure at `T + 15 min 30 s` lies in the static window
`[T - 15 min, T + 16 min]` and is dropped as well. -/
theorem windowFilter_differs_from_static_window :
    effectiveWindow 0 = 30 ∧
    (windowStart exSoon 30 ≤ 1200000000000 ∧ (1200000000000 : Int) ≤ windowEnd exSoon 30) ∧
    (exSoon.ns - ⌊((30 : Int) : ℚ) / 2⌋ * Minute ≤ 1200000000000 ∧
      (1200000000000 : Int) ≤ exSoon.ns + ⌈((30 : Int) : ℚ) / 2⌉ * Minute) ∧
    windowFilter exSoon 30 [⟨"C", "N", 1200000000000, "A44N"⟩] = [] ∧
    (gatherRealtime exEnvBoundary exQueryC "").1 = [⟨"C", "N", 1200000000000, "A44N"⟩] ∧
    (fallbackStop exEnvBoundary exQueryC exSoon "" 0).1.Source = "scheduled" ∧
    (windowStart exSoon 31 ≤ 1230000000000 ∧ (1230000000000 : Int) ≤ windowEnd exSoon 31) ∧
    windowFilter exSoon 31 [⟨"C", "N", 1230000000000, "A44N"⟩] = [] := by
  refine ⟨by decide, by decide, ?_, by rfl, by rfl, by rfl, by decide, by rfl⟩
  rw [floor_half, ceil_half]
  decide

end Subway
